import Mathlib

/-!
# Penguin-Game: a shallow embedding of the board, codec and turn logic

Source files embedded: `board.c`, `game.c`, `players.c`, `main.c` (the branch that
starts a new game), `players.h`, `board.h`.

Modelling conventions.

* A C `int` is a Lean `Int`, and the functions of the game compute on
  mathematical integers: every value that a game produces from an initialised
  10 x 10 board is far below the `int` range.  A resumed game can hold any `int`;
  where the range matters, `int32`, `movement_slot_int` and `placement_turn_int`
  give the 32-bit value that the machine stores, and `in_int_range` states that
  a number is a value of `int`.
* A C function returning `1`/`0` as a truth value returns `Bool`; a function
  returning a truth value together with output pointers returns an `Option`.
* The board `Tile **board` and the arrays `Player *players`, `int *active_flags`
  are memory read and written through indices, so they are total functions from
  indices to values; the sizes `rows`, `cols`, `num_players` are passed next to
  them exactly as in the C signatures.  A loop `for (i = 0; i < n; i++)` runs
  over `upto n`.
* Strings are C strings and files are byte streams: a `List Char` holds one
  `Char` per byte.  A string field holds the characters before the terminating
  NUL; a file may hold NUL bytes, and `c_string` gives the C string that a
  buffer filled from a file holds.
* Standard input is given as the sequence of values the blocking reads deliver:
  the coordinate pairs `scanf("%d %d")` converts during placement and the lines
  `fgets` returns during movement; the end of the sequence is a failed read.
* The draws of `rand()` in `init_board`, the success of allocations and of `fopen`, and
  the content of fresh memory are taken as given.
-/

namespace Penguin

/-! ## Data model (board.h, players.h) -/

/-- One cell of the board: `struct Tile` of board.h. -/
structure Tile where
  fish : Int
  owner : Int
deriving DecidableEq, Repr

/-- One player: `struct Player` of players.h. -/
structure Player where
  name : List Char
  id : Int
  is_ai : Int
  left : Int
  score : Int
deriving DecidableEq, Repr

/-- The board memory `Tile **board`, read as `board r c` for `board[r][c]`. -/
abbrev Board := Int → Int → Tile

/-- The player array `Player *players`. -/
abbrev Players := Int → Player

/-- The flag array `int *active_flags`. -/
abbrev Flags := Int → Int

/-- The index values `0, 1, ..., n-1` of a loop `for (i = 0; i < n; i++)`. -/
def upto (n : Int) : List Int :=
  (List.range n.toNat).map Int.ofNat

/-- The assignment `board[r][c] = t`. -/
def set_tile (board : Board) (r c : Int) (t : Tile) : Board :=
  fun r' c' => if r' = r ∧ c' = c then t else board r' c'

/-- The assignment `players[i] = p`. -/
def set_player (players : Players) (i : Int) (p : Player) : Players :=
  fun j => if j = i then p else players j

/-- The assignment `active_flags[i] = v`. -/
def set_flag (flags : Flags) (i : Int) (v : Int) : Flags :=
  fun j => if j = i then v else flags j

/-! ## board.c -/

/-- Embeds `can_place`: some tile has one fish and no owner. -/
def can_place (board : Board) (rows cols : Int) : Bool :=
  (upto rows).any fun i => (upto cols).any fun j =>
    decide ((board i j).fish = 1 ∧ (board i j).owner = 0)

/-- Embeds `find_penguin`: row-major scan for the first tile owned by `player_id`. -/
def find_penguin (board : Board) (rows cols player_id : Int) : Option (Int × Int) :=
  (upto rows).findSome? fun r => (upto cols).findSome? fun c =>
    if (board r c).owner = player_id then some (r, c) else none

/-- Embeds `tile_is_empty_water`. -/
def tile_is_empty_water (board : Board) (r c : Int) : Bool :=
  decide ((board r c).fish = 0 ∧ (board r c).owner = 0)

/-- Embeds `is_valid_move`; `player_id` is unused, as in the source. -/
def is_valid_move (board : Board) (rows cols _player_id from_r from_c to_r to_c : Int) : Bool :=
  let dr := to_r - from_r
  let dc := to_c - from_c
  if to_r < 0 ∨ to_r ≥ rows ∨ to_c < 0 ∨ to_c ≥ cols then false
  else if ¬ ((dr = 1 ∧ dc = 0) ∨ (dr = -1 ∧ dc = 0) ∨ (dr = 0 ∧ dc = 1) ∨ (dr = 0 ∧ dc = -1)) then false
  else if tile_is_empty_water board to_r to_c then false
  else if (board to_r to_c).owner ≠ 0 then false
  else true

/-- Embeds `player_can_move`. -/
def player_can_move (board : Board) (rows cols player_id : Int) : Bool :=
  match find_penguin board rows cols player_id with
  | none => false
  | some (r, c) =>
    if is_valid_move board rows cols player_id r c (r - 1) c then true
    else if is_valid_move board rows cols player_id r c (r + 1) c then true
    else if is_valid_move board rows cols player_id r c r (c - 1) then true
    else if is_valid_move board rows cols player_id r c r (c + 1) then true
    else false

/-- Embeds `find_first_placement`: row-major scan for the first tile with one fish and no owner. -/
def find_first_placement (board : Board) (rows cols : Int) : Option (Int × Int) :=
  (upto rows).findSome? fun r => (upto cols).findSome? fun c =>
    if (board r c).fish = 1 ∧ (board r c).owner = 0 then some (r, c) else none

/-- The locals `best_r`, `best_c`, `best_fish` of `find_best_adjacent_move`. -/
structure Best where
  best_r : Int
  best_c : Int
  best_fish : Int
deriving DecidableEq, Repr

/-- Embeds `find_best_adjacent_move`: up, down, left, right, strict improvement only. -/
def find_best_adjacent_move (board : Board) (rows cols player_id : Int) : Option (Int × Int) :=
  match find_penguin board rows cols player_id with
  | none => none
  | some (pr, pc) =>
    let b0 : Best := ⟨-1, -1, -1⟩
    let b1 : Best :=
      if is_valid_move board rows cols player_id pr pc (pr - 1) pc then
        ⟨pr - 1, pc, (board (pr - 1) pc).fish⟩
      else b0
    let b2 : Best :=
      if is_valid_move board rows cols player_id pr pc (pr + 1) pc then
        (if (board (pr + 1) pc).fish > b1.best_fish then ⟨pr + 1, pc, (board (pr + 1) pc).fish⟩ else b1)
      else b1
    let b3 : Best :=
      if is_valid_move board rows cols player_id pr pc pr (pc - 1) then
        (if (board pr (pc - 1)).fish > b2.best_fish then ⟨pr, pc - 1, (board pr (pc - 1)).fish⟩ else b2)
      else b2
    let b4 : Best :=
      if is_valid_move board rows cols player_id pr pc pr (pc + 1) then
        (if (board pr (pc + 1)).fish > b3.best_fish then ⟨pr, pc + 1, (board pr (pc + 1)).fish⟩ else b3)
      else b3
    if b4.best_r = -1 then none else some (b4.best_r, b4.best_c)

/-- The four neighbours of `(pr, pc)` in the order `find_best_adjacent_move` and
`player_can_move` examine them: up, down, left, right. -/
def neighbours (pr pc : Int) : List (Int × Int) :=
  [(pr - 1, pc), (pr + 1, pc), (pr, pc - 1), (pr, pc + 1)]

/-! ## Text streams: the `fprintf` and `fscanf` conversions used by game.c -/

/-- The C-locale `isspace`: space, `\t`, `\n`, `\v`, `\f`, `\r`. -/
def isspace (c : Char) : Bool :=
  c.toNat = 32 || (9 ≤ c.toNat && c.toNat ≤ 13)

/-- The C `isdigit`. -/
def isdigit (c : Char) : Bool :=
  48 ≤ c.toNat && c.toNat ≤ 57

/-- The character of a decimal digit. -/
def digit_char (d : Nat) : Char :=
  Char.ofNat (48 + d)

/-- The value of a decimal digit character. -/
def digit_val (c : Char) : Nat :=
  c.toNat - 48

/-- The value of a run of decimal digits, most significant first. -/
def digits_val (ds : List Char) : Nat :=
  ds.foldl (fun a c => 10 * a + digit_val c) 0

/-- Decimal digits of `n` in front of `acc`; `fuel` bounds the number of digits. -/
def print_nat_aux : Nat → Nat → List Char → List Char
  | 0, _, acc => acc
  | fuel + 1, n, acc =>
    if n < 10 then digit_char n :: acc
    else print_nat_aux fuel (n / 10) (digit_char (n % 10) :: acc)

/-- The decimal digits of a natural number; `n + 1` digits always suffice. -/
def print_nat (n : Nat) : List Char :=
  print_nat_aux (n + 1) n []

/-- The text `fprintf` writes for `%d`. -/
def print_d (n : Int) : List Char :=
  if n < 0 then '-' :: print_nat n.natAbs else print_nat n.natAbs

/-- The conversion `%d` of `fscanf`: skip white space, an optional sign, then a non-empty
run of digits; the text after the digits stays in the stream.  `none` is a failed
conversion (end of input or no digit).  The result is the number as it is written, which
is what the `int` object receives when the number is a value of `int`; what the machine
stores for a number outside that range is not modelled here, and statements whose truth
depends on it carry a range hypothesis (`in_int_range`). -/
def fscanf_d (fp : List Char) : Option (Int × List Char) :=
  match fp.dropWhile isspace with
  | [] => none
  | c :: t =>
    let body := if c = '-' ∨ c = '+' then t else c :: t
    let ds := body.takeWhile isdigit
    if ds.isEmpty then none
    else some (if c = '-' then - (digits_val ds : Int) else (digits_val ds : Int),
               body.dropWhile isdigit)

/-- The conversion `%Ns` of `fscanf` with field width `width`: skip white space, then take
at most `width` characters up to the next white space.  `none` is end of input. -/
def fscanf_s (width : Nat) (fp : List Char) : Option (List Char × List Char) :=
  match fp.dropWhile isspace with
  | [] => none
  | c :: t =>
    let tok := ((c :: t).takeWhile fun x => !isspace x).take width
    some (tok, (c :: t).drop tok.length)

/-! ## game.c: the save and load codec -/

/-- The first line of a save file. -/
def save_header : List Char :=
  "PENGUINS_SAVE_V1".toList

/-- The C string that a character buffer holds: its bytes before the first NUL byte.  The
conversion `%63s` stores every byte of a token, a NUL byte included, and `strcmp` reads
what it stored as a C string. -/
def c_string (buf : List Char) : List Char :=
  buf.takeWhile fun ch => decide (ch ≠ '\x00')

/-- The line `"%d %d\n"` written for one tile. -/
def print_tile (t : Tile) : List Char :=
  print_d t.fish ++ [' '] ++ print_d t.owner ++ ['\n']

/-- The line `"%d %d %d %d %s\n"` written for one player. -/
def print_player (p : Player) : List Char :=
  print_d p.id ++ [' '] ++ print_d p.is_ai ++ [' '] ++ print_d p.left ++ [' '] ++
    print_d p.score ++ [' '] ++ p.name ++ ['\n']

/-- The flag loop of `save_game`: `"%d"`, then a blank unless it is the last flag. -/
def print_flag (active_flags : Option Flags) (num_players i : Int) : List Char :=
  print_d (match active_flags with
    | some flags => flags i
    | none => 1) ++ (if i + 1 < num_players then [' '] else [])

/-- Embeds `save_game`: the text written to the file, or `none` when `fopen` fails
(the function then returns 0). -/
def save_game (can_open : Bool) (board : Board) (rows cols : Int) (players : Players)
    (num_players mode turn_index : Int) (active_flags : Option Flags) : Option (List Char) :=
  if !can_open then none
  else some (
    save_header ++ ['\n'] ++
    (print_d rows ++ [' '] ++ print_d cols ++ ['\n']) ++
    (print_d num_players ++ [' '] ++ print_d mode ++ [' '] ++ print_d turn_index ++ ['\n']) ++
    ((upto num_players).flatMap (print_flag active_flags num_players) ++ ['\n']) ++
    (upto num_players).flatMap (fun i => print_player (players i)) ++
    (upto rows).flatMap (fun r => (upto cols).flatMap (fun c => print_tile (board r c))))

/-- The eight output parameters of `load_game`. -/
structure LoadOut where
  board : Board
  rows : Int
  cols : Int
  players : Players
  num_players : Int
  mode : Int
  turn_index : Int
  active_flags : Flags

/-- What the three allocations of `load_game` deliver: whether they all succeed, and the
indeterminate initial content of the fresh memory. -/
structure Alloc where
  ok : Bool
  active : Flags
  players : Players
  board : Board

/-- The loop of `load_game` reading one active flag per player. -/
def read_active : List Int → Flags → List Char → Option (Flags × List Char)
  | [], active, fp => some (active, fp)
  | i :: rest, active, fp =>
    match fscanf_d fp with
    | none => none
    | some (v, fp1) => read_active rest (set_flag active i v) fp1

/-- One `fscanf(fp, "%d %d %d %d %31s", ...)` of `load_game` with the following copy into
the player record (`strncpy` into a 32-byte field, last byte set to NUL). -/
def read_player (fp : List Char) : Option (Player × List Char) :=
  match fscanf_d fp with
  | none => none
  | some (id, fp1) =>
  match fscanf_d fp1 with
  | none => none
  | some (is_ai, fp2) =>
  match fscanf_d fp2 with
  | none => none
  | some (left, fp3) =>
  match fscanf_d fp3 with
  | none => none
  | some (score, fp4) =>
  match fscanf_s 31 fp4 with
  | none => none
  | some (name, fp5) =>
    some (⟨name.take 31, id, is_ai, left, score⟩, fp5)

/-- The loop of `load_game` reading the player records. -/
def read_players : List Int → Players → List Char → Option (Players × List Char)
  | [], players, fp => some (players, fp)
  | i :: rest, players, fp =>
    match read_player fp with
    | none => none
    | some (p, fp1) => read_players rest (set_player players i p) fp1

/-- The inner loop of `load_game` over the columns of row `r`. -/
def read_row (r : Int) : List Int → Board → List Char → Option (Board × List Char)
  | [], board, fp => some (board, fp)
  | c :: rest, board, fp =>
    match fscanf_d fp with
    | none => none
    | some (fish, fp1) =>
    match fscanf_d fp1 with
    | none => none
    | some (owner, fp2) => read_row r rest (set_tile board r c ⟨fish, owner⟩) fp2

/-- The outer loop of `load_game` over the rows. -/
def read_rows (cols : Int) : List Int → Board → List Char → Option (Board × List Char)
  | [], board, fp => some (board, fp)
  | r :: rest, board, fp =>
    match read_row r (upto cols) board fp with
    | none => none
    | some (board1, fp1) => read_rows cols rest board1 fp1

/-- Embeds `load_game`.  `file` is the content of the file, `none` when `fopen` fails;
the header is compared as `strcmp` does, up to the first NUL byte of the stored token;
`out` holds the values of the eight output parameters before the call.  The result is
the return value (as a truth value) and the output parameters after the call. -/
def load_game (mem : Alloc) (file : Option (List Char)) (out : LoadOut) : Bool × LoadOut :=
  match file with
  | none => (false, out)
  | some fp =>
  match fscanf_s 63 fp with
  | none => (false, out)
  | some (header, fp1) =>
  if c_string header ≠ save_header then (false, out)
  else
  match fscanf_d fp1 with
  | none => (false, out)
  | some (rows, fp2) =>
  match fscanf_d fp2 with
  | none => (false, out)
  | some (cols, fp3) =>
  match fscanf_d fp3 with
  | none => (false, out)
  | some (num_players, fp4) =>
  match fscanf_d fp4 with
  | none => (false, out)
  | some (mode, fp5) =>
  match fscanf_d fp5 with
  | none => (false, out)
  | some (turn_index, fp6) =>
  if !mem.ok then (false, out)
  else
  match read_active (upto num_players) mem.active fp6 with
  | none => (false, out)
  | some (active, fp7) =>
  match read_players (upto num_players) mem.players fp7 with
  | none => (false, out)
  | some (players, fp8) =>
  match read_rows cols (upto rows) mem.board fp8 with
  | none => (false, out)
  | some (board, _) =>
    (true, ⟨board, rows, cols, players, num_players, mode, turn_index, active⟩)

/-- The first white-space-delimited token of a text, empty when the text holds none. -/
def first_token (file : List Char) : List Char :=
  (file.dropWhile isspace).takeWhile fun x => !isspace x

/-! ## game.c: the placement phase -/

/-- The board and the players, as both phases change them. -/
structure PlaceState where
  board : Board
  players : Players

/-- The input loop of a human placement: each delivered pair is decremented and checked
against the bounds, the fish count and the owner; an invalid pair prompts again.  `none`
is a failed `scanf`, after which the program exits with code 1. -/
def human_placement (board : Board) (rows cols : Int) :
    List (Int × Int) → Option ((Int × Int) × List (Int × Int))
  | [] => none
  | (r1, c1) :: rest =>
    let r := r1 - 1
    let c := c1 - 1
    if r < 0 ∨ r ≥ rows ∨ c < 0 ∨ c ≥ cols then human_placement board rows cols rest
    else if (board r c).fish ≠ 1 then human_placement board rows cols rest
    else if (board r c).owner ≠ 0 then human_placement board rows cols rest
    else some ((r, c), rest)

/-- The four assignments that place the penguin of `players[p]` on `board[r][c]`. -/
def place_penguin (st : PlaceState) (p r c : Int) : PlaceState :=
  let pl := st.players p
  let players1 := set_player st.players p { pl with score := pl.score + (st.board r c).fish }
  let board1 := set_tile st.board r c { st.board r c with fish := 0 }
  let board2 := set_tile board1 r c { board1 r c with owner := (players1 p).id }
  let pl1 := players1 p
  let players2 := set_player players1 p { pl1 with left := pl1.left - 1 }
  ⟨board2, players2⟩

/-- How the turn of one player in a placement round ends. -/
inductive PlaceEvent where
  | skipped
  | no_tile
  | ai_failed
  | placed (r c : Int)
  | quit (code : Int)
deriving DecidableEq, Repr

/-- The outcome of one placement turn: the event, the state and the unread input. -/
structure PlaceResult where
  event : PlaceEvent
  state : PlaceState
  input : List (Int × Int)

/-- The body of the player loop of `placement_phase` for `players[p]`. -/
def placement_turn (rows cols : Int) (st : PlaceState) (p : Int) (input : List (Int × Int)) :
    PlaceResult :=
  if (st.players p).left = 0 then ⟨PlaceEvent.skipped, st, input⟩
  else if !can_place st.board rows cols then ⟨PlaceEvent.no_tile, st, input⟩
  else if (st.players p).is_ai ≠ 0 then
    match find_first_placement st.board rows cols with
    | none => ⟨PlaceEvent.ai_failed, st, input⟩
    | some (r, c) => ⟨PlaceEvent.placed r c, place_penguin st p r c, input⟩
  else
    match human_placement st.board rows cols input with
    | none => ⟨PlaceEvent.quit 1, st, []⟩
    | some ((r, c), rest) => ⟨PlaceEvent.placed r c, place_penguin st p r c, rest⟩

/-! ## game.c: the movement phase -/

/-- The variables of `movement_phase` that change inside the turn loop. -/
structure MoveState where
  board : Board
  players : Players
  turn_index : Int
  active_flags : Flags
  active_count : Int
  any_move : Int

/-- The command of an input line: its first character other than blank, tab, newline and
carriage return, an upper-case letter turned to lower case; `none` when the line holds
no such character. -/
def command_of (line : List Char) : Option Char :=
  match line.find? (fun ch => decide (ch ≠ ' ' ∧ ch ≠ '\t' ∧ ch ≠ '\n' ∧ ch ≠ '\r')) with
  | none => none
  | some cmd =>
    if 'A'.toNat ≤ cmd.toNat ∧ cmd.toNat ≤ 'Z'.toNat then
      some (Char.ofNat (cmd.toNat - 'A'.toNat + 'a'.toNat))
    else some cmd

/-- The outcome of the input loop of a human move. -/
inductive HumanMove where
  | move (tr tc : Int) (rest : List (List Char))
  | quit (code : Int) (saved : Option (List Char))

/-- The input loop of a human move for the piece at `(pr, pc)`: W, S, A, D name a
destination that is accepted when `is_valid_move` holds; Q saves and exits with code 0;
anything else prompts again; a failed `fgets` exits with code 1. -/
def human_move (board : Board) (rows cols : Int) (players : Players)
    (num_players mode turn_index : Int) (active_flags : Flags) (can_save : Bool)
    (id pr pc : Int) : List (List Char) → HumanMove
  | [] => HumanMove.quit 1 none
  | line :: rest =>
    let again := human_move board rows cols players num_players mode turn_index active_flags
      can_save id pr pc rest
    let attempt := fun (nr nc : Int) =>
      if is_valid_move board rows cols id pr pc nr nc then HumanMove.move nr nc rest else again
    match command_of line with
    | none => again
    | some cmd =>
      if cmd = 'w' then attempt (pr - 1) pc
      else if cmd = 's' then attempt (pr + 1) pc
      else if cmd = 'a' then attempt pr (pc - 1)
      else if cmd = 'd' then attempt pr (pc + 1)
      else if cmd = 'q' then
        HumanMove.quit 0
          (save_game can_save board rows cols players num_players mode turn_index (some active_flags))
      else again

/-- The assignments that apply a move of `players[idx]` from `(pr, pc)` to `(tr, tc)`, with
the score added on mathematical integers; `movement_slot_int` reduces the new score to
the `int` that the machine stores. -/
def apply_move (st : MoveState) (idx pr pc tr tc : Int) : MoveState :=
  let pl := st.players idx
  let players1 := set_player st.players idx { pl with score := pl.score + (st.board tr tc).fish }
  let board1 := set_tile st.board tr tc { st.board tr tc with fish := 0 }
  let board2 := set_tile board1 tr tc { board1 tr tc with owner := (players1 idx).id }
  let board3 := set_tile board2 pr pc { board2 pr pc with owner := 0 }
  let board4 := set_tile board3 pr pc { board3 pr pc with fish := 0 }
  { st with board := board4, players := players1, any_move := 1 }

/-- The assignments that mark `players[idx]` inactive. -/
def deactivate (st : MoveState) (idx : Int) : MoveState :=
  { st with active_flags := set_flag st.active_flags idx 0, active_count := st.active_count - 1 }

/-- How the processing of one slot of the turn loop ends. -/
inductive SlotEvent where
  | skipped
  | cannot_move
  | not_found
  | ai_no_moves
  | moved (pr pc tr tc : Int)
  | quit (code : Int) (saved : Option (List Char))
deriving DecidableEq, Repr

/-- The outcome of one slot: the slot index, the event, the state, the unread input and
whether the turn loop is left (`break` or `exit`). -/
structure SlotResult where
  idx : Int
  event : SlotEvent
  state : MoveState
  input : List (List Char)
  stop : Bool

/-- The body of the turn loop of `movement_phase`.  C's `%` truncates, hence `Int.tmod`. -/
def movement_slot (rows cols num_players mode : Int) (can_save : Bool) (st : MoveState)
    (input : List (List Char)) : SlotResult :=
  let idx := Int.tmod st.turn_index num_players
  let st1 : MoveState := { st with turn_index := Int.tmod (idx + 1) num_players }
  if st1.active_flags idx = 0 then ⟨idx, SlotEvent.skipped, st1, input, false⟩
  else if !player_can_move st1.board rows cols (st1.players idx).id then
    ⟨idx, SlotEvent.cannot_move, deactivate st1 idx, input,
      decide ((deactivate st1 idx).active_count = 0)⟩
  else
    match find_penguin st1.board rows cols (st1.players idx).id with
    | none =>
      ⟨idx, SlotEvent.not_found, deactivate st1 idx, input,
        decide ((deactivate st1 idx).active_count = 0)⟩
    | some (pr, pc) =>
      if (st1.players idx).is_ai ≠ 0 then
        match find_best_adjacent_move st1.board rows cols (st1.players idx).id with
        | none =>
          ⟨idx, SlotEvent.ai_no_moves, deactivate st1 idx, input,
            decide ((deactivate st1 idx).active_count = 0)⟩
        | some (tr, tc) =>
          ⟨idx, SlotEvent.moved pr pc tr tc, apply_move st1 idx pr pc tr tc, input, false⟩
      else
        match human_move st1.board rows cols st1.players num_players mode st1.turn_index
            st1.active_flags can_save (st1.players idx).id pr pc input with
        | HumanMove.quit code saved => ⟨idx, SlotEvent.quit code saved, st1, [], true⟩
        | HumanMove.move tr tc rest =>
          ⟨idx, SlotEvent.moved pr pc tr tc, apply_move st1 idx pr pc tr tc, rest, false⟩

/-- One visited slot of a pass: its index, what happened, and `turn_index` afterwards. -/
structure Visit where
  idx : Int
  event : SlotEvent
  turn_index : Int

/-- The outcome of one pass of the turn loop: the state, the unread input, the visited
slots in order, and whether the loop was left early (`break` or `exit`). -/
structure PassResult where
  state : MoveState
  input : List (List Char)
  visits : List Visit
  stopped : Bool

/-- The inner loop `while (loops < num_players)` of `movement_phase`, with `remaining`
iterations to go. -/
def movement_pass_loop (rows cols num_players mode : Int) (can_save : Bool) :
    Nat → MoveState → List (List Char) → PassResult
  | 0, st, input => ⟨st, input, [], false⟩
  | remaining + 1, st, input =>
    let r := movement_slot rows cols num_players mode can_save st input
    let v : Visit := ⟨r.idx, r.event, r.state.turn_index⟩
    if r.stop then ⟨r.state, r.input, [v], true⟩
    else
      let rest := movement_pass_loop rows cols num_players mode can_save remaining r.state r.input
      ⟨rest.state, rest.input, v :: rest.visits, rest.stopped⟩

/-- One pass of the turn loop: `any_move = 0; loops = 0;` and then the inner loop. -/
def movement_pass (rows cols num_players mode : Int) (can_save : Bool) (st : MoveState)
    (input : List (List Char)) : PassResult :=
  movement_pass_loop rows cols num_players mode can_save num_players.toNat
    { st with any_move := 0 } input

/-- The sum of the fish of all tiles of the board. -/
def total_fish (board : Board) (rows cols : Int) : Int :=
  ((upto rows).map fun r => ((upto cols).map fun c => (board r c).fish).sum).sum

/-- A step of the game: a placement performed by `placement_phase` or a move applied by
`movement_phase`, relating the board and players before and after. -/
inductive GameStep (rows cols num_players mode : Int) : PlaceState → PlaceState → Prop where
  | placement (st : PlaceState) (p : Int) (input : List (Int × Int)) (r c : Int)
      (h : (placement_turn rows cols st p input).event = PlaceEvent.placed r c) :
      GameStep rows cols num_players mode st (placement_turn rows cols st p input).state
  | move (st : MoveState) (can_save : Bool) (input : List (List Char)) (pr pc tr tc : Int)
      (h : (movement_slot rows cols num_players mode can_save st input).event =
        SlotEvent.moved pr pc tr tc) :
      GameStep rows cols num_players mode ⟨st.board, st.players⟩
        ⟨(movement_slot rows cols num_players mode can_save st input).state.board,
          (movement_slot rows cols num_players mode can_save st input).state.players⟩

/-! ## game.c and players.c: the phases as whole loops -/

/-- How a phase ends: it returns, the program exits inside it, or the model ran out of
fuel (shown below never to happen). -/
inductive PhaseStatus where
  | finished
  | exited (code : Int)
  | out_of_fuel
deriving DecidableEq, Repr

/-- Embeds the loop of `init_players`: id `i + 1`, one placement left, score 0, and the
name `AI` for an AI player or else the next token that `scanf("%31s")` delivers (an
unchecked failed read leaves the name as it is). -/
def init_players : List Int → Players → List (List Char) → Players
  | [], players, _ => players
  | i :: rest, players, names =>
    let p : Player := { players i with id := i + 1, left := 1, score := 0 }
    if p.is_ai ≠ 0 then
      init_players rest (set_player players i { p with name := ['A', 'I'] }) names
    else
      match names with
      | [] => init_players rest (set_player players i p) []
      | name :: more => init_players rest (set_player players i { p with name := name.take 31 }) more

/-- The coordinates of the tiles inside the grid, in row-major order. -/
def grid (rows cols : Int) : List (Int × Int) :=
  (upto rows).flatMap fun r => (upto cols).map fun c => (r, c)

/-- The number of tiles with one fish and no owner. -/
def placeable_tiles (board : Board) (rows cols : Int) : Nat :=
  ((grid rows cols).filter fun rc =>
    decide ((board rc.1 rc.2).fish = 1 ∧ (board rc.1 rc.2).owner = 0)).length

/-- The number of tiles that are unowned and not dead water. -/
def free_tiles (board : Board) (rows cols : Int) : Nat :=
  ((grid rows cols).filter fun rc =>
    decide ((board rc.1 rc.2).owner = 0 ∧ (board rc.1 rc.2).fish ≠ 0)).length

/-- The flag `done` of `placement_phase`: no player has a placement left. -/
def placement_done (players : Players) (num_players : Int) : Bool :=
  (upto num_players).all fun p => decide (¬ (players p).left > 0)

/-- The outcome of one round of placements: the state, the unread input, the placements
made as (slot, row, column), and the exit code when the program exited. -/
structure RoundResult where
  state : PlaceState
  input : List (Int × Int)
  log : List (Int × Int × Int)
  exited : Option Int

/-- The player loop of `placement_phase` over the listed slots. -/
def placement_round (rows cols : Int) : List Int → PlaceState → List (Int × Int) → RoundResult
  | [], st, input => ⟨st, input, [], none⟩
  | p :: ps, st, input =>
    match (placement_turn rows cols st p input).event with
    | PlaceEvent.no_tile => ⟨st, input, [], none⟩
    | PlaceEvent.quit code => ⟨st, [], [], some code⟩
    | PlaceEvent.placed r c =>
      let rest := placement_round rows cols ps (placement_turn rows cols st p input).state
        (placement_turn rows cols st p input).input
      ⟨rest.state, rest.input, (p, r, c) :: rest.log, rest.exited⟩
    | PlaceEvent.skipped => placement_round rows cols ps st input
    | PlaceEvent.ai_failed => placement_round rows cols ps st input

/-- The outcome of the placement phase. -/
structure PlacementResult where
  state : PlaceState
  input : List (Int × Int)
  log : List (Int × Int × Int)
  status : PhaseStatus

/-- The loop `while (1)` of `placement_phase`, with fuel for the number of rounds. -/
def placement_phase_loop (rows cols num_players : Int) :
    Nat → PlaceState → List (Int × Int) → PlacementResult
  | 0, st, input => ⟨st, input, [], PhaseStatus.out_of_fuel⟩
  | fuel + 1, st, input =>
    if placement_done st.players num_players || !can_place st.board rows cols then
      ⟨st, input, [], PhaseStatus.finished⟩
    else
      let r := placement_round rows cols (upto num_players) st input
      match r.exited with
      | some code => ⟨r.state, r.input, r.log, PhaseStatus.exited code⟩
      | none =>
        let rest := placement_phase_loop rows cols num_players fuel r.state r.input
        ⟨rest.state, rest.input, r.log ++ rest.log, rest.status⟩

/-- Embeds `placement_phase`.  Every round that is entered places a penguin on a tile
with one fish, so one round per such tile and a last one suffice. -/
def placement_phase (rows cols num_players : Int) (st : PlaceState) (input : List (Int × Int)) :
    PlacementResult :=
  placement_phase_loop rows cols num_players (placeable_tiles st.board rows cols + 1) st input

/-- The states the placement phase goes through from `s0`: those reached by turns of the
players in the slots `0 .. num_players - 1`. -/
inductive PlacementReach (rows cols num_players : Int) (s0 : PlaceState) : PlaceState → Prop where
  | start : PlacementReach rows cols num_players s0 s0
  | turn (st : PlaceState) (p : Int) (input : List (Int × Int))
      (h : PlacementReach rows cols num_players s0 st) (h0 : 0 ≤ p) (hp : p < num_players) :
      PlacementReach rows cols num_players s0 (placement_turn rows cols st p input).state

/-- The count of active players with which `movement_phase` starts. -/
def count_active (active_flags : Flags) (num_players : Int) : Int :=
  (((upto num_players).filter fun p => decide (active_flags p ≠ 0)).length : Nat)

/-- The exit code of a pass that ended in `exit`: its last visit is a quit. -/
def pass_exit (visits : List Visit) : Option Int :=
  match visits.getLast? with
  | none => none
  | some v =>
    match v.event with
    | SlotEvent.quit code _ => some code
    | _ => none

/-- The number of applied moves among the visits. -/
def count_moves (visits : List Visit) : Nat :=
  (visits.filter fun v =>
    match v.event with
    | SlotEvent.moved _ _ _ _ => true
    | _ => false).length

/-- The outcome of the movement phase. -/
structure MovementResult where
  state : MoveState
  input : List (List Char)
  visits : List Visit
  status : PhaseStatus

/-- The loop `while (active_count > 0)` of `movement_phase`, with fuel for the number of
passes. -/
def movement_phase_loop (rows cols num_players mode : Int) (can_save : Bool) :
    Nat → MoveState → List (List Char) → MovementResult
  | 0, st, input => ⟨st, input, [], PhaseStatus.out_of_fuel⟩
  | fuel + 1, st, input =>
    if st.active_count > 0 then
      let r := movement_pass rows cols num_players mode can_save st input
      match pass_exit r.visits with
      | some code => ⟨r.state, r.input, r.visits, PhaseStatus.exited code⟩
      | none =>
        if r.state.any_move = 0 then ⟨r.state, r.input, r.visits, PhaseStatus.finished⟩
        else
          let rest := movement_phase_loop rows cols num_players mode can_save fuel r.state r.input
          ⟨rest.state, rest.input, r.visits ++ rest.visits, rest.status⟩
    else ⟨st, input, [], PhaseStatus.finished⟩

/-- Embeds `movement_phase`.  Every pass but the last applies a move and every move uses
up an unowned tile with fish, so one pass per such tile and a last one suffice. -/
def movement_phase (rows cols num_players mode : Int) (can_save : Bool) (board : Board)
    (players : Players) (turn_index : Int) (active_flags : Flags) (input : List (List Char)) :
    MovementResult :=
  movement_phase_loop rows cols num_players mode can_save (free_tiles board rows cols + 1)
    ⟨board, players, turn_index, active_flags, count_active active_flags num_players, 0⟩ input

/-- The loop of `play_game` that marks every player active in the fresh flag array. -/
def init_flags (heap : Flags) (num_players : Int) : Flags :=
  (upto num_players).foldl (fun flags i => set_flag flags i 1) heap

/-- The outcome of `play_game`: the placement phase, and the movement phase when it was
entered. -/
structure PlayResult where
  placement : PlacementResult
  movement : Option MovementResult

/-- Embeds `play_game`: the placement phase, then the movement phase with mode 1, turn
index 0 and all players active.  `mem_ok` tells whether the flag array can be allocated
and `heap` is its indeterminate initial content. -/
def play_game (rows cols num_players : Int) (board : Board) (players : Players)
    (mem_ok can_save : Bool) (heap : Flags) (place_input : List (Int × Int))
    (move_input : List (List Char)) : PlayResult :=
  let pl := placement_phase rows cols num_players ⟨board, players⟩ place_input
  match pl.status with
  | PhaseStatus.finished =>
    if !mem_ok then ⟨pl, none⟩
    else
      ⟨pl, some (movement_phase rows cols num_players 1 can_save pl.state.board pl.state.players 0
        (init_flags heap num_players) move_input)⟩
  | _ => ⟨pl, none⟩

/-! ## The record layout of the save format, following the format description -/

/-- The two kinds of field of a save record after its header: a number, or a name. -/
inductive FieldKind where
  | number
  | name
deriving DecidableEq, Repr

/-- The fields that follow the five header numbers, in record order: one active flag per
player, then `id isAI remainingPlacements score name` per player, then `fish owner` per
tile in row-major order. -/
def spec_record_fields (rows cols num_players : Int) : List FieldKind :=
  (upto num_players).flatMap (fun _ => [FieldKind.number]) ++
  (upto num_players).flatMap (fun _ =>
    [FieldKind.number, FieldKind.number, FieldKind.number, FieldKind.number, FieldKind.name]) ++
  (upto rows).flatMap (fun _ => (upto cols).flatMap (fun _ => [FieldKind.number, FieldKind.number]))

/-- Converts the listed fields one after the other with the `%d` and `%31s` conversions;
`none` when the input ends before some field or a number field does not start with a
number. -/
def spec_read_fields : List FieldKind → List Char → Option (List Char)
  | [], fp => some fp
  | FieldKind.number :: ks, fp =>
    match fscanf_d fp with
    | none => none
    | some (_, fp1) => spec_read_fields ks fp1
  | FieldKind.name :: ks, fp =>
    match fscanf_s 31 fp with
    | none => none
    | some (_, fp1) => spec_read_fields ks fp1

/-- Whether every field after the header can be converted: `rows cols`, then
`numPlayers mode turnIndex`, then the fields of `spec_record_fields`. -/
def spec_fields_readable (fp : List Char) : Bool :=
  match fscanf_d fp with
  | none => false
  | some (rows, fp1) =>
  match fscanf_d fp1 with
  | none => false
  | some (cols, fp2) =>
  match fscanf_d fp2 with
  | none => false
  | some (num_players, fp3) =>
  match fscanf_d fp3 with
  | none => false
  | some (_, fp4) =>
  match fscanf_d fp4 with
  | none => false
  | some (_, fp5) => (spec_read_fields (spec_record_fields rows cols num_players) fp5).isSome

/-- A token that is a well-formed decimal number: an optional sign and then digits only,
at least one. -/
def spec_well_formed_number (tok : List Char) : Bool :=
  match tok with
  | [] => false
  | c :: t =>
    if c = '-' ∨ c = '+' then !t.isEmpty && t.all isdigit
    else (c :: t).all isdigit

/-! ## Example data -/

/-- A 2 x 2 board: two occupied tiles and two free tiles. -/
def ex_board : Board :=
  fun r c =>
    if r = 0 ∧ c = 0 then ⟨0, 1⟩
    else if r = 0 ∧ c = 1 then ⟨3, 0⟩
    else if r = 1 ∧ c = 0 then ⟨0, 2⟩
    else ⟨2, 0⟩

/-- Two players, a human and the AI. -/
def ex_players : Players :=
  fun i => if i = 0 then ⟨"Bob".toList, 1, 0, 0, 1⟩ else ⟨"AI".toList, 2, 1, 0, 1⟩

/-- Both players active. -/
def ex_flags : Flags :=
  fun _ => 1

/-- Successful allocations of zeroed memory. -/
def ex_mem : Alloc :=
  ⟨true, fun _ => 0, fun _ => ⟨[], 0, 0, 0, 0⟩, fun _ _ => ⟨0, 0⟩⟩

/-- Output parameters as `main` initialises them before `load_game`. -/
def ex_out : LoadOut :=
  ⟨fun _ _ => ⟨0, 0⟩, 0, 0, fun _ => ⟨[], 0, 0, 0, 0⟩, 0, 0, 0, fun _ => 0⟩

/-- A 1 x 1 save record whose last field, the owner of the tile, is `1junk`. -/
def ex_file_trailing_garbage : List Char :=
  "PENGUINS_SAVE_V1\n1 1\n1 1 0\n1\n1 0 0 1 Bob\n0 1junk\n".toList

/-- A complete 1 x 1 save record under the misspelt header `PENGUINS_SAVE_V2`. -/
def ex_file_bad_header : List Char :=
  "PENGUINS_SAVE_V2\n1 1\n1 1 0\n1\n1 0 0 1 Bob\n3 0\n".toList

/-- A complete 1 x 1 save record whose first token is the header followed by a NUL byte
and the letter x. -/
def ex_file_nul_header : List Char :=
  "PENGUINS_SAVE_V1".toList ++ ['\x00', 'x'] ++ "\n1 1\n1 1 0\n1\n1 0 0 1 Bob\n3 0\n".toList

/-- A 1 x 1 save record cut off before the owner of the tile. -/
def ex_file_truncated : List Char :=
  "PENGUINS_SAVE_V1\n1 1\n1 1 0\n1\n1 0 0 1 Bob\n0\n".toList

/-- The scenario of the AI move: the piece of player 1 at the centre of a 3 x 3 board, two
fish above, dead water below, a piece of player 2 to the left, three fish to the right. -/
def ex_ai_board : Board :=
  fun r c =>
    if r = 1 ∧ c = 1 then ⟨0, 1⟩
    else if r = 0 ∧ c = 1 then ⟨2, 0⟩
    else if r = 2 ∧ c = 1 then ⟨0, 0⟩
    else if r = 1 ∧ c = 0 then ⟨0, 2⟩
    else if r = 1 ∧ c = 2 then ⟨3, 0⟩
    else ⟨1, 0⟩

/-- The AI in slot 0 with id 1 and a human in slot 1 with id 2. -/
def ex_move_players : Players :=
  fun i => if i = 0 then ⟨"AI".toList, 1, 1, 0, 1⟩ else ⟨"Bob".toList, 2, 0, 0, 1⟩

/-- The start of a pass on the scenario board: both players active, slot 0 to move. -/
def ex_move_state : MoveState :=
  ⟨ex_ai_board, ex_move_players, 0, ex_flags, 2, 0⟩

/-- An initialised 2 x 2 board: fish between 0 and 3, no owner anywhere. -/
def ex_init_board : Board :=
  fun r c =>
    if r = 0 ∧ c = 0 then ⟨1, 0⟩
    else if r = 0 ∧ c = 1 then ⟨3, 0⟩
    else if r = 1 ∧ c = 0 then ⟨1, 0⟩
    else ⟨2, 0⟩

/-- The start of the placement phase: the AI and a human, one placement each, score 0. -/
def ex_place_state : PlaceState :=
  ⟨ex_init_board, fun i => if i = 0 then ⟨"AI".toList, 1, 1, 1, 0⟩ else ⟨"Bob".toList, 2, 0, 1, 0⟩⟩

/-- A coordinate pair typed by a human that is semantically invalid for a placement: after
the decrement it is out of bounds, or names a tile whose fish count is not 1, or a tile
that has an owner. -/
def invalid_placement (board : Board) (rows cols : Int) (x : Int × Int) : Prop :=
  (x.1 - 1 < 0 ∨ x.1 - 1 ≥ rows ∨ x.2 - 1 < 0 ∨ x.2 - 1 ≥ cols) ∨
    (board (x.1 - 1) (x.2 - 1)).fish ≠ 1 ∨ (board (x.1 - 1) (x.2 - 1)).owner ≠ 0

/-- An input line typed by a human that is semantically invalid for a move of the piece at
`(pr, pc)`: it holds no command, or a direction W, S, A, D whose destination fails
`is_valid_move`, or a command other than W, S, A, D, Q. -/
def invalid_command (board : Board) (rows cols id pr pc : Int) (line : List Char) : Prop :=
  ∀ cmd ∈ command_of line,
    (cmd = 'w' ∧ is_valid_move board rows cols id pr pc (pr - 1) pc = false) ∨
    (cmd = 's' ∧ is_valid_move board rows cols id pr pc (pr + 1) pc = false) ∨
    (cmd = 'a' ∧ is_valid_move board rows cols id pr pc pr (pc - 1) = false) ∨
    (cmd = 'd' ∧ is_valid_move board rows cols id pr pc pr (pc + 1) = false) ∨
    (cmd ≠ 'w' ∧ cmd ≠ 's' ∧ cmd ≠ 'a' ∧ cmd ≠ 'd' ∧ cmd ≠ 'q')

/-- The scenario board with the human in slot 1 to move. -/
def ex_human_state : MoveState :=
  ⟨ex_ai_board, ex_move_players, 1, ex_flags, 2, 0⟩

/-- A 1 x 1 save record whose player name is 32 letters long. -/
def ex_file_long_name : List Char :=
  "PENGUINS_SAVE_V1\n1 1\n1 1 0\n1\n1 0 0 1 AAAAAAAAAAAAAAAAAAAAAAAAAAAAAAAA\n2 0\n".toList

/-- A 1 x 1 save record whose player name is 31 letters followed by the digit 7. -/
def ex_file_long_name_digit : List Char :=
  "PENGUINS_SAVE_V1\n1 1\n1 1 0\n1\n1 0 0 1 AAAAAAAAAAAAAAAAAAAAAAAAAAAAAAA7\n2 0\n".toList

/-- A player whose name is 32 letters long. -/
def ex_long_players : Players :=
  fun _ => ⟨List.replicate 32 'A', 1, 0, 0, 1⟩

/-- The facts about the board and the players that hold throughout a game started by
`play_game`: `players[i]` has the id `i + 1`, every tile holds 0 to 3 fish, no score is
negative, and a player with no placement left has a score of at least 1. -/
def game_inv (rows cols num_players : Int) (board : Board) (players : Players) : Prop :=
  (∀ i, 0 ≤ i → i < num_players → (players i).id = i + 1) ∧
  (∀ r c, 0 ≤ r → r < rows → 0 ≤ c → c < cols → 0 ≤ (board r c).fish ∧ (board r c).fish ≤ 3) ∧
  (∀ i, 0 ≤ i → i < num_players →
    0 ≤ (players i).score ∧ ((players i).left = 0 → 1 ≤ (players i).score))

/-- The facts that hold between the slots of the turn loop in a game started by
`play_game`: those of `game_inv`; `active_count` is the number of set flags; the turn
index is a slot; and a player whose flag is cleared cannot move. -/
def move_inv (rows cols num_players : Int) (st : MoveState) : Prop :=
  game_inv rows cols num_players st.board st.players ∧
  count_active st.active_flags num_players = st.active_count ∧
  (0 ≤ st.turn_index ∧ st.turn_index < num_players) ∧
  (∀ i, 0 ≤ i → i < num_players → st.active_flags i = 0 →
    player_can_move st.board rows cols (st.players i).id = false)

/-- The facts that hold between the turns of the placement phase in a game started by
`play_game`: those of `game_inv`, and every player has one placement left or none. -/
def place_inv (rows cols num_players : Int) (st : PlaceState) : Prop :=
  game_inv rows cols num_players st.board st.players ∧
  ∀ i, 0 ≤ i → i < num_players → (st.players i).left = 0 ∨ (st.players i).left = 1

/-- The movement phase of a game on the initialised 2 x 2 board: the AI has placed on the
first tile with one fish, the human on the other one, and the human answers the prompt
with D. -/
def ex_game_movement : MovementResult :=
  movement_phase 2 2 2 1 true
    (placement_phase 2 2 2 ⟨ex_init_board, ex_place_state.players⟩ [(2, 1)]).state.board
    (placement_phase 2 2 2 ⟨ex_init_board, ex_place_state.players⟩ [(2, 1)]).state.players 0
    (init_flags (fun _ => 0) 2) [['d', '\n']]

/-- A step of a game with `num_players` players: a placement performed by
`placement_phase` for one of the slots `0 .. num_players - 1`, or a move applied by
`movement_phase` in a slot of the turn loop, where the turn index is not negative and the
slot index `turn_index % num_players` is therefore one of `0 .. num_players - 1`. -/
inductive PlayStep (rows cols num_players : Int) : PlaceState → PlaceState → Prop where
  | placement (st : PlaceState) (p : Int) (input : List (Int × Int)) (r c : Int)
      (h0 : 0 ≤ p) (hn : p < num_players)
      (h : (placement_turn rows cols st p input).event = PlaceEvent.placed r c) :
      PlayStep rows cols num_players st (placement_turn rows cols st p input).state
  | move (st : MoveState) (mode : Int) (can_save : Bool) (input : List (List Char))
      (pr pc tr tc : Int) (h0 : 0 ≤ st.turn_index) (hn : 0 < num_players)
      (h : (movement_slot rows cols num_players mode can_save st input).event =
        SlotEvent.moved pr pc tr tc) :
      PlayStep rows cols num_players ⟨st.board, st.players⟩
        ⟨(movement_slot rows cols num_players mode can_save st input).state.board,
          (movement_slot rows cols num_players mode can_save st input).state.players⟩

/-- The number of tiles inside the grid whose owner is `player_id`. -/
def owned_tiles (board : Board) (rows cols player_id : Int) : Nat :=
  ((grid rows cols).filter fun rc => decide ((board rc.1 rc.2).owner = player_id)).length

/-- The facts about ownership that hold throughout a game: the ids of the players are not
0 and differ from each other; every player has one placement left or none; a player with
a placement left owns no tile; and two tiles of the same player are the same tile. -/
def own_inv (rows cols num_players : Int) (st : PlaceState) : Prop :=
  (∀ i, 0 ≤ i → i < num_players → (st.players i).id ≠ 0) ∧
  (∀ i j, 0 ≤ i → i < num_players → 0 ≤ j → j < num_players →
    (st.players i).id = (st.players j).id → i = j) ∧
  (∀ i, 0 ≤ i → i < num_players → (st.players i).left = 0 ∨ (st.players i).left = 1) ∧
  (∀ i, 0 ≤ i → i < num_players → (st.players i).left = 1 →
    ∀ r c, 0 ≤ r → r < rows → 0 ≤ c → c < cols → (st.board r c).owner ≠ (st.players i).id) ∧
  (∀ i, 0 ≤ i → i < num_players →
    ∀ r1 c1 r2 c2, 0 ≤ r1 → r1 < rows → 0 ≤ c1 → c1 < cols →
      0 ≤ r2 → r2 < rows → 0 ≤ c2 → c2 < cols →
      (st.board r1 c1).owner = (st.players i).id → (st.board r2 c2).owner = (st.players i).id →
      r1 = r2 ∧ c1 = c2)

/-- The start of a movement phase in which nobody has placed: the initialised 2 x 2 board,
both players active, turn index 0. -/
def ex_no_piece_state : MoveState :=
  ⟨ex_init_board, ex_place_state.players, 0, fun _ => 1, 2, 0⟩

/-! ## main.c: the branch that starts a new game -/

/-- Embeds `init_board`: the fish of a tile come from two draws of `rand()`, which are
taken as given (`rnd1` decides between an empty tile and a tile with fish, `rnd2` gives
the number of fish); the owner is 0. -/
def init_board (rnd1 rnd2 : Int → Int → Int) : Board :=
  fun i j => ⟨if Int.tmod (rnd1 i j) 100 < 15 then 0 else Int.tmod (rnd2 i j) 3 + 1, 0⟩

/-- The loop of `main` that clears `is_ai` for the listed players. -/
def clear_ai (players : Players) (slots : List Int) : Players :=
  slots.foldl (fun ps i => set_player ps i { ps i with is_ai := 0 }) players

/-- How the branch of `main` that starts a new game ends: with a return before the game,
or with the game that `play_game` ran, for the mode and the number of players chosen. -/
inductive MainResult where
  | failed (code : Int)
  | played (mode num_players : Int) (game : PlayResult)

/-- Embeds `main` from the prompt `Select mode` on, with the fixed board size 10 x 10.
`mode_in` and `players_in` are what the two `scanf("%d")` deliver (`none` for a failed
read), `names` the tokens for `init_players`, `alloc_ok` whether board and players can be
allocated, `heap_players` the indeterminate content of the fresh player array.  The mode
is used for the number of players and the AI marks only; `play_game` does not take it. -/
def new_game (mode_in players_in : Option Int) (alloc_ok : Bool) (heap_players : Players)
    (names : List (List Char)) (rnd1 rnd2 : Int → Int → Int) (mem_ok can_save : Bool)
    (heap_flags : Flags) (place_input : List (Int × Int)) (move_input : List (List Char)) :
    MainResult :=
  match mode_in with
  | none => MainResult.failed 1
  | some mode =>
    match (if mode = 2 then some 2 else players_in) with
    | none => MainResult.failed 1
    | some num_players =>
      if !alloc_ok then MainResult.failed 1
      else
        let marked : Players :=
          if mode = 2 then
            set_player (set_player heap_players 0 { heap_players 0 with is_ai := 0 }) 1
              { heap_players 1 with is_ai := 1 }
          else clear_ai heap_players (upto num_players)
        let players := init_players (upto num_players) marked names
        MainResult.played mode num_players
          (play_game 10 10 num_players (init_board rnd1 rnd2) players mem_ok can_save heap_flags
            place_input move_input)

/-- The mode chosen at the start of a game that was played. -/
def MainResult.chosen_mode : MainResult → Option Int
  | MainResult.failed _ => none
  | MainResult.played mode _ _ => some mode

/-- The file written when the movement phase of a played game ended with Q. -/
def MainResult.saved_file : MainResult → Option (List Char)
  | MainResult.failed _ => none
  | MainResult.played _ _ game =>
    match game.movement with
    | none => none
    | some mv =>
      match mv.visits.getLast? with
      | none => none
      | some v =>
        match v.event with
        | SlotEvent.quit _ saved => saved
        | _ => none

/-- The mode that `load_game` delivers for a file, `none` when it rejects the file. -/
def loaded_mode (mem : Alloc) (file : List Char) : Option Int :=
  if (load_game mem (some file) ⟨mem.board, 0, 0, mem.players, 0, 0, 0, mem.active⟩).1 then
    some (load_game mem (some file) ⟨mem.board, 0, 0, mem.players, 0, 0, 0, mem.active⟩).2.mode
  else none

/-- A new game in the mode Player vs AI (mode 2): the human is called Bob, every tile of
the board gets one fish, the human places on row 1 column 1 and the AI on the next free
tile; at the first prompt of the movement phase the human enters Q. -/
def ex_pvai_game : MainResult :=
  new_game (some 2) none true (fun _ => ⟨[], 0, 0, 0, 0⟩) ["Bob".toList]
    (fun _ _ => 50) (fun _ _ => 0) true true (fun _ => 0) [(1, 1)] [['q', '\n']]

/-- A board of one row: the player with id 1 stands on column 0, the player with id 2 next
to it on column 1, and column 2 is a free tile with one fish.  It is the turn of slot 1. -/
def ex_block_state : MoveState :=
  ⟨fun _ c => if c = 0 then ⟨0, 1⟩ else if c = 1 then ⟨0, 2⟩ else ⟨1, 0⟩,
    ex_place_state.players, 1, fun _ => 1, 2, 0⟩

/-- The sum of the scores of the players in the slots `0 .. num_players - 1`. -/
def score_sum (players : Players) (num_players : Int) : Int :=
  ((upto num_players).map fun i => (players i).score).sum

/-! ## The 32-bit `int` of the machine

The definitions above compute on mathematical integers.  They agree with the compiled
program as long as every number stays within the range of `int`.  Where the program
stores a sum, the following definitions give what the machine stores. -/

/-- The least value of an `int`. -/
def INT_MIN : Int := -2147483648

/-- The greatest value of an `int`. -/
def INT_MAX : Int := 2147483647

/-- Whether a mathematical integer is a value of `int`. -/
def in_int_range (x : Int) : Bool :=
  decide (INT_MIN ≤ x ∧ x ≤ INT_MAX)

/-- The value an `int` object holds after the compiled program stores the mathematical
integer `x` in it: `x` reduced modulo 2^32 into `INT_MIN .. INT_MAX`. -/
def int32 (x : Int) : Int :=
  (x + 2147483648) % 4294967296 - 2147483648

/-- The body of the player loop of `placement_phase` as the machine runs it: as
`placement_turn`, with the new score of a placement, `players[p].score += board[r][c].fish`,
stored in an `int`. -/
def placement_turn_int (rows cols : Int) (st : PlaceState) (p : Int)
    (input : List (Int × Int)) : PlaceResult :=
  let r := placement_turn rows cols st p input
  match r.event with
  | PlaceEvent.placed _ _ =>
    let pl := r.state.players p
    let players1 := set_player r.state.players p { pl with score := int32 pl.score }
    { r with state := ⟨r.state.board, players1⟩ }
  | _ => r

/-- The body of the turn loop of `movement_phase` as the machine runs it: as
`movement_slot`, with the new score of an applied move,
`players[idx].score += board[tr][tc].fish`, stored in an `int`.  No choice in the slot
depends on a score. -/
def movement_slot_int (rows cols num_players mode : Int) (can_save : Bool) (st : MoveState)
    (input : List (List Char)) : SlotResult :=
  let r := movement_slot rows cols num_players mode can_save st input
  match r.event with
  | SlotEvent.moved _ _ _ _ =>
    let pl := r.state.players r.idx
    let players1 := set_player r.state.players r.idx { pl with score := int32 pl.score }
    { r with state := { r.state with players := players1 } }
  | _ => r

/-- A step of the game as the machine runs it: a placement or an applied move, each with
the new score stored in an `int`. -/
inductive MachineStep (rows cols num_players mode : Int) : PlaceState → PlaceState → Prop where
  | placement (st : PlaceState) (p : Int) (input : List (Int × Int)) (r c : Int)
      (h : (placement_turn_int rows cols st p input).event = PlaceEvent.placed r c) :
      MachineStep rows cols num_players mode st (placement_turn_int rows cols st p input).state
  | move (st : MoveState) (can_save : Bool) (input : List (List Char)) (pr pc tr tc : Int)
      (h : (movement_slot_int rows cols num_players mode can_save st input).event =
        SlotEvent.moved pr pc tr tc) :
      MachineStep rows cols num_players mode ⟨st.board, st.players⟩
        ⟨(movement_slot_int rows cols num_players mode can_save st input).state.board,
          (movement_slot_int rows cols num_players mode can_save st input).state.players⟩

/-- A resumed game on the scenario board in which the AI in slot 0 has the score
2147483647, the greatest value of an `int`, as `load_game` delivers it from a file that
holds this score. -/
def ex_rich_state : MoveState :=
  ⟨ex_ai_board,
    fun i => if i = 0 then ⟨"AI".toList, 1, 1, 0, 2147483647⟩ else ⟨"Bob".toList, 2, 0, 0, 1⟩,
    0, ex_flags, 2, 0⟩

/-- Whether the three sizes at the start of a record after its header (rows, cols and the
number of players), as far as they are present, are values of `int`.  The conversion `%d`
stores such a number as it is written, so that the loops of `load_game` run as often as
the record says. -/
def spec_sizes_in_range (rest : List Char) : Bool :=
  match fscanf_d rest with
  | none => true
  | some (rows, fp2) =>
    in_int_range rows &&
    match fscanf_d fp2 with
    | none => true
    | some (cols, fp3) =>
      in_int_range cols &&
      match fscanf_d fp3 with
      | none => true
      | some (num_players, _) => in_int_range num_players

/-! ## Theorems -/

/-- Manhattan distance one is one of the four unit steps. -/
theorem abs_add_abs_eq_one (a b : Int) :
    |a| + |b| = 1 ↔ ((a = 1 ∧ b = 0) ∨ (a = -1 ∧ b = 0) ∨ (a = 0 ∧ b = 1) ∨ (a = 0 ∧ b = -1)) := by
  constructor
  · intro h
    rcases abs_cases a with ⟨ha, _⟩ | ⟨ha, _⟩ <;> rcases abs_cases b with ⟨hb, _⟩ | ⟨hb, _⟩ <;>
      rw [ha, hb] at h <;> omega
  · rintro (⟨rfl, rfl⟩ | ⟨rfl, rfl⟩ | ⟨rfl, rfl⟩ | ⟨rfl, rfl⟩) <;> simp

/-- The four guards of `is_valid_move`, read off the source. -/
theorem is_valid_move_eq_true (board : Board) (rows cols player_id from_r from_c to_r to_c : Int) :
    is_valid_move board rows cols player_id from_r from_c to_r to_c = true ↔
      ((0 ≤ to_r ∧ to_r < rows ∧ 0 ≤ to_c ∧ to_c < cols) ∧
        ((to_r - from_r = 1 ∧ to_c - from_c = 0) ∨ (to_r - from_r = -1 ∧ to_c - from_c = 0) ∨
          (to_r - from_r = 0 ∧ to_c - from_c = 1) ∨ (to_r - from_r = 0 ∧ to_c - from_c = -1)) ∧
        ¬ ((board to_r to_c).fish = 0 ∧ (board to_r to_c).owner = 0) ∧
        (board to_r to_c).owner = 0) := by
  unfold is_valid_move tile_is_empty_water
  simp only []
  by_cases h1 : to_r < 0 ∨ to_r ≥ rows ∨ to_c < 0 ∨ to_c ≥ cols
  · rw [if_pos h1]
    simp only [Bool.false_eq_true, false_iff]
    intro h
    omega
  · rw [if_neg h1]
    by_cases h2 : (to_r - from_r = 1 ∧ to_c - from_c = 0) ∨ (to_r - from_r = -1 ∧ to_c - from_c = 0) ∨
        (to_r - from_r = 0 ∧ to_c - from_c = 1) ∨ (to_r - from_r = 0 ∧ to_c - from_c = -1)
    · rw [if_neg (not_not_intro h2)]
      by_cases h3 : (board to_r to_c).fish = 0 ∧ (board to_r to_c).owner = 0
      · rw [if_pos (decide_eq_true h3)]
        simp only [Bool.false_eq_true, false_iff]
        intro h
        exact h.2.2.1 h3
      · rw [if_neg (by simpa using h3)]
        by_cases h4 : (board to_r to_c).owner = 0
        · rw [if_neg (not_not_intro h4)]
          simp only [true_iff]
          exact ⟨by omega, h2, h3, h4⟩
        · rw [if_pos h4]
          simp only [Bool.false_eq_true, false_iff]
          intro h
          exact h4 h.2.2.2
    · rw [if_pos h2]
      simp only [Bool.false_eq_true, false_iff]
      intro h
      exact h2 h.2.1

/-- Claim C1: `is_valid_move` accepts exactly the in-bounds destinations at Manhattan
distance one whose tile is not empty water and has owner 0; diagonal, zero-length and
longer moves are rejected whatever the tiles hold; the result depends neither on
`player_id` nor on the content of the origin tile. -/
theorem is_valid_move_iff (board : Board) (rows cols player_id from_r from_c to_r to_c : Int) :
    (is_valid_move board rows cols player_id from_r from_c to_r to_c = true ↔
      ((0 ≤ to_r ∧ to_r < rows ∧ 0 ≤ to_c ∧ to_c < cols) ∧
        |to_r - from_r| + |to_c - from_c| = 1 ∧
        ¬ ((board to_r to_c).fish = 0 ∧ (board to_r to_c).owner = 0) ∧
        (board to_r to_c).owner = 0)) ∧
    (|to_r - from_r| + |to_c - from_c| ≠ 1 →
      ∀ other : Board, is_valid_move other rows cols player_id from_r from_c to_r to_c = false) ∧
    (∀ (other_id : Int) (t : Tile),
      is_valid_move (set_tile board from_r from_c t) rows cols other_id from_r from_c to_r to_c =
        is_valid_move board rows cols player_id from_r from_c to_r to_c) := by
  refine ⟨?_, ?_, ?_⟩
  · rw [abs_add_abs_eq_one]
    exact is_valid_move_eq_true board rows cols player_id from_r from_c to_r to_c
  · intro hne other
    rw [Ne, abs_add_abs_eq_one] at hne
    cases hv : is_valid_move other rows cols player_id from_r from_c to_r to_c
    · rfl
    · rw [is_valid_move_eq_true] at hv
      exact absurd hv.2.1 hne
  · intro other_id t
    by_cases heq : to_r = from_r ∧ to_c = from_c
    · have hz : ¬ ((to_r - from_r = 1 ∧ to_c - from_c = 0) ∨ (to_r - from_r = -1 ∧ to_c - from_c = 0) ∨
          (to_r - from_r = 0 ∧ to_c - from_c = 1) ∨ (to_r - from_r = 0 ∧ to_c - from_c = -1)) := by
        omega
      have e1 : is_valid_move (set_tile board from_r from_c t) rows cols other_id from_r from_c to_r to_c
          = false := by
        cases hv : is_valid_move (set_tile board from_r from_c t) rows cols other_id from_r from_c to_r to_c
        · rfl
        · rw [is_valid_move_eq_true] at hv
          exact absurd hv.2.1 hz
      have e2 : is_valid_move board rows cols player_id from_r from_c to_r to_c = false := by
        cases hv : is_valid_move board rows cols player_id from_r from_c to_r to_c
        · rfl
        · rw [is_valid_move_eq_true] at hv
          exact absurd hv.2.1 hz
      rw [e1, e2]
    · have hset : set_tile board from_r from_c t to_r to_c = board to_r to_c := by
        unfold set_tile
        rw [if_neg heq]
      unfold is_valid_move tile_is_empty_water
      rw [hset]

/-! ### Text stream lemmas -/

/-- The index list of a loop holds exactly the values `0 ≤ i < n`. -/
theorem mem_upto (n i : Int) : i ∈ upto n ↔ 0 ≤ i ∧ i < n := by
  unfold upto
  simp only [List.mem_map, List.mem_range]
  constructor
  · rintro ⟨k, hk, rfl⟩
    have : ((k : Nat) : Int) = Int.ofNat k := rfl
    omega
  · rintro ⟨h0, hn⟩
    refine ⟨i.toNat, by omega, ?_⟩
    show ((i.toNat : Nat) : Int) = i
    omega

/-- A digit character is a digit, has its value, and is neither white space nor a sign. -/
theorem digit_char_spec (d : Nat) (h : d < 10) :
    isdigit (digit_char d) = true ∧ digit_val (digit_char d) = d ∧
      isspace (digit_char d) = false ∧ digit_char d ≠ '-' ∧ digit_char d ≠ '+' := by
  interval_cases d <;> decide

/-- Appending one digit multiplies the value by ten and adds the digit. -/
theorem digits_val_append (ds : List Char) (c : Char) :
    digits_val (ds ++ [c]) = 10 * digits_val ds + digit_val c := by
  unfold digits_val
  rw [List.foldl_append]
  rfl

/-- With enough fuel the digit printer puts a non-empty digit run of value `n` before `acc`. -/
theorem print_nat_aux_spec : ∀ (fuel n : Nat) (acc : List Char), n < fuel →
    ∃ ds, print_nat_aux fuel n acc = ds ++ acc ∧ ds ≠ [] ∧
      (∀ c ∈ ds, isdigit c = true) ∧ digits_val ds = n := by
  intro fuel
  induction fuel with
  | zero => intro n acc h; omega
  | succ fuel ih =>
    intro n acc h
    unfold print_nat_aux
    by_cases h10 : n < 10
    · rw [if_pos h10]
      refine ⟨[digit_char n], rfl, by simp, ?_, ?_⟩
      · intro c hc
        rw [List.mem_singleton] at hc
        rw [hc]
        exact (digit_char_spec n h10).1
      · show 10 * 0 + digit_val (digit_char n) = n
        rw [(digit_char_spec n h10).2.1]
        omega
    · rw [if_neg h10]
      obtain ⟨ds, hds, hne, hdig, hval⟩ := ih (n / 10) (digit_char (n % 10) :: acc) (by omega)
      have hm : n % 10 < 10 := Nat.mod_lt _ (by omega)
      refine ⟨ds ++ [digit_char (n % 10)], ?_, by simp, ?_, ?_⟩
      · rw [hds]
        simp
      · intro c hc
        rw [List.mem_append, List.mem_singleton] at hc
        rcases hc with hc | hc
        · exact hdig c hc
        · rw [hc]
          exact (digit_char_spec _ hm).1
      · rw [digits_val_append, hval, (digit_char_spec _ hm).2.1]
        omega

/-- The printed form of a natural number is a non-empty digit run with that value. -/
theorem print_nat_spec (n : Nat) :
    print_nat n ≠ [] ∧ (∀ c ∈ print_nat n, isdigit c = true) ∧ digits_val (print_nat n) = n := by
  obtain ⟨ds, hds, hne, hdig, hval⟩ := print_nat_aux_spec (n + 1) n [] (by omega)
  have : print_nat n = ds := by
    unfold print_nat
    rw [hds, List.append_nil]
  rw [this]
  exact ⟨hne, hdig, hval⟩

/-- A digit is neither white space nor a sign. -/
theorem isdigit_not_space (c : Char) (h : isdigit c = true) :
    isspace c = false ∧ c ≠ '-' ∧ c ≠ '+' := by
  unfold isdigit at h
  simp only [Bool.and_eq_true, decide_eq_true_eq] at h
  refine ⟨?_, ?_, ?_⟩
  · unfold isspace
    simp only [Bool.or_eq_false_iff, Bool.and_eq_false_iff, decide_eq_false_iff_not]
    omega
  · rintro rfl
    revert h
    decide
  · rintro rfl
    revert h
    decide

/-- Taking while `p` holds from a run satisfying `p` followed by text whose head fails `p`. -/
theorem takeWhile_run {p : Char → Bool} (ds tail : List Char) (hds : ∀ c ∈ ds, p c = true)
    (ht : ∀ c t, tail = c :: t → p c = false) :
    (ds ++ tail).takeWhile p = ds ∧ (ds ++ tail).dropWhile p = tail := by
  induction ds with
  | nil =>
    cases tail with
    | nil => simp
    | cons c t =>
      have := ht c t rfl
      simp [List.takeWhile, List.dropWhile, this]
  | cons d ds ih =>
    have hd := hds d (List.mem_cons_self _ _)
    have ih2 := ih (fun c hc => hds c (List.mem_cons_of_mem _ hc))
    simp [List.takeWhile, List.dropWhile, hd, ih2.1, ih2.2]

/-- Leading white space is dropped. -/
theorem dropWhile_space_append (ws s : List Char) (hws : ∀ c ∈ ws, isspace c = true) :
    (ws ++ s).dropWhile isspace = s.dropWhile isspace := by
  induction ws with
  | nil => rfl
  | cons w ws ih =>
    have hw := hws w (List.mem_cons_self _ _)
    simp only [List.cons_append, List.dropWhile, hw]
    exact ih (fun c hc => hws c (List.mem_cons_of_mem _ hc))

/-- `%d` skips leading white space. -/
theorem fscanf_d_skip (ws s : List Char) (hws : ∀ c ∈ ws, isspace c = true) :
    fscanf_d (ws ++ s) = fscanf_d s := by
  unfold fscanf_d
  rw [dropWhile_space_append ws s hws]

/-- `%s` skips leading white space. -/
theorem fscanf_s_skip (w : Nat) (ws s : List Char) (hws : ∀ c ∈ ws, isspace c = true) :
    fscanf_s w (ws ++ s) = fscanf_s w s := by
  unfold fscanf_s
  rw [dropWhile_space_append ws s hws]

/-- Dropping while `p` holds stops at a head that fails `p`. -/
theorem dropWhile_head_false {p : Char → Bool} (c : Char) (s : List Char) (h : p c = false) :
    (c :: s).dropWhile p = c :: s := by
  simp [List.dropWhile, h]

/-- The `%d` conversion on text whose first character is not white space. -/
theorem fscanf_d_cons (c : Char) (t : List Char) (h : isspace c = false) :
    fscanf_d (c :: t) =
      if ((if c = '-' ∨ c = '+' then t else c :: t).takeWhile isdigit).isEmpty then none
      else some (
        if c = '-' then - (digits_val ((if c = '-' ∨ c = '+' then t else c :: t).takeWhile isdigit) : Int)
        else (digits_val ((if c = '-' ∨ c = '+' then t else c :: t).takeWhile isdigit) : Int),
        (if c = '-' ∨ c = '+' then t else c :: t).dropWhile isdigit) := by
  unfold fscanf_d
  rw [dropWhile_head_false c t h]

/-- The `%s` conversion on text whose first character is not white space. -/
theorem fscanf_s_cons (w : Nat) (c : Char) (t : List Char) (h : isspace c = false) :
    fscanf_s w (c :: t) =
      some (((c :: t).takeWhile fun x => !isspace x).take w,
        (c :: t).drop (((c :: t).takeWhile fun x => !isspace x).take w).length) := by
  unfold fscanf_s
  rw [dropWhile_head_false c t h]

/-- Reading back a printed integer: `%d` applied to the `%d` output followed by text that
does not start with a digit yields the integer and leaves that text. -/
theorem fscanf_d_print (n : Int) (tail : List Char)
    (ht : ∀ c t, tail = c :: t → isdigit c = false) :
    fscanf_d (print_d n ++ tail) = some (n, tail) := by
  obtain ⟨hne, hdig, hval⟩ := print_nat_spec n.natAbs
  obtain ⟨d, ds, hds⟩ := List.exists_cons_of_ne_nil hne
  have hrun := takeWhile_run (print_nat n.natAbs) tail hdig ht
  unfold print_d
  by_cases hn : n < 0
  · rw [if_pos hn, List.cons_append, fscanf_d_cons _ _ (by decide)]
    simp only [true_or, if_true, hrun.1, hrun.2]
    rw [hds] at hval ⊢
    simp only [List.isEmpty_cons, Bool.false_eq_true, if_false, hval]
    congr 2
    omega
  · rw [if_neg hn]
    have hd : isdigit d = true := hdig d (by rw [hds]; exact List.mem_cons_self _ _)
    obtain ⟨hsp, hm, hp⟩ := isdigit_not_space d hd
    rw [hds] at hrun hval
    rw [hds, List.cons_append, fscanf_d_cons _ _ hsp]
    simp only [hm, hp, or_self, if_false]
    rw [← List.cons_append, hrun.1, hrun.2]
    simp only [List.isEmpty_cons, Bool.false_eq_true, if_false, hval]
    congr 2
    omega

/-- Reading back a printed name: `%s` of width `w` applied to a non-empty token without
white space of at most `w` characters, followed by the end of input or white space, yields
the token and leaves the rest. -/
theorem fscanf_s_token (w : Nat) (name tail : List Char) (hne : name ≠ [])
    (hns : ∀ c ∈ name, isspace c = false) (hlen : name.length ≤ w)
    (ht : ∀ c t, tail = c :: t → isspace c = true) :
    fscanf_s w (name ++ tail) = some (name, tail) := by
  obtain ⟨d, ds, hds⟩ := List.exists_cons_of_ne_nil hne
  have hrun := takeWhile_run (p := fun x => !isspace x) name tail
    (fun c hc => by simp [hns c hc]) (fun c t h => by simp [ht c t h])
  have hd : isspace d = false := hns d (by rw [hds]; exact List.mem_cons_self _ _)
  rw [hds] at hrun hlen
  rw [hds, List.cons_append, fscanf_s_cons _ _ _ hd]
  rw [← List.cons_append, hrun.1, List.take_of_length_le hlen]
  simp

/-- What `%63s` reads is the first token cut to the field width. -/
theorem fscanf_s_first_token (w : Nat) (file header rest : List Char)
    (h : fscanf_s w file = some (header, rest)) : header = (first_token file).take w := by
  unfold fscanf_s at h
  unfold first_token
  cases hd : file.dropWhile isspace with
  | nil => rw [hd] at h; simp at h
  | cons c t =>
    rw [hd] at h
    simp only [Option.some.injEq, Prod.mk.injEq] at h
    exact h.1.symm

/-- The header written by `save_game` holds no NUL byte. -/
theorem c_string_save_header : c_string save_header = save_header := by
  decide

/-- Cutting a buffer does not change the C string it holds, up to the cut. -/
theorem c_string_take : ∀ (n : Nat) (buf : List Char),
    c_string (buf.take n) = (c_string buf).take n
  | 0, buf => by simp [c_string]
  | n + 1, [] => by simp [c_string]
  | n + 1, ch :: buf => by
    have ih := c_string_take n buf
    unfold c_string at ih ⊢
    rw [List.take_succ_cons, List.takeWhile_cons, List.takeWhile_cons]
    by_cases hc : decide (ch ≠ '\x00') = true
    · rw [if_pos hc, if_pos hc, List.take_succ_cons, ih]
    · rw [if_neg hc, if_neg hc]
      rfl

/-- Claim C3 (amended): a file whose first white-space-delimited token, read as a C
string (up to its first NUL byte), is not exactly `PENGUINS_SAVE_V1` (an empty file
included) makes `load_game` return failure with every output parameter left at its prior
value. -/
theorem load_game_rejects_bad_header (mem : Alloc) (file : List Char) (out : LoadOut)
    (h : c_string (first_token file) ≠ save_header) :
    load_game mem (some file) out = (false, out) := by
  cases hs : fscanf_s 63 file with
  | none => simp only [load_game, hs]
  | some res =>
    obtain ⟨header, fp1⟩ := res
    have hh := fscanf_s_first_token 63 file header fp1 hs
    have hne : c_string header ≠ save_header := by
      intro heq
      apply h
      rw [hh, c_string_take] at heq
      have hlen : ((c_string (first_token file)).take 63).length = 16 := by rw [heq]; rfl
      rw [List.length_take] at hlen
      have hle : (c_string (first_token file)).length ≤ 63 := by omega
      rw [List.take_of_length_le hle] at heq
      exact heq
    simp only [load_game, hs, hne, ne_eq, not_false_eq_true, if_true]

/-- Witness for C3: a complete record under the misspelt header `PENGUINS_SAVE_V2` reaches
the comparison of the header and is rejected there, with the outputs untouched. -/
theorem load_game_rejects_bad_header_witness :
    fscanf_s 63 ex_file_bad_header
        = some ("PENGUINS_SAVE_V2".toList, "\n1 1\n1 1 0\n1\n1 0 0 1 Bob\n3 0\n".toList) ∧
      c_string (first_token ex_file_bad_header) ≠ save_header ∧
      load_game ex_mem (some ex_file_bad_header) ex_out = (false, ex_out) :=
  ⟨by decide, by decide, load_game_rejects_bad_header ex_mem ex_file_bad_header ex_out (by decide)⟩

/-- Counterexample to C3 as stated: the first token of the file is `PENGUINS_SAVE_V1`
followed by a NUL byte and the letter x, which is not exactly `PENGUINS_SAVE_V1`; `strcmp`
stops at the NUL byte, so `load_game` returns 1 and writes the outputs. -/
theorem load_game_accepts_nul_header :
    first_token ex_file_nul_header = "PENGUINS_SAVE_V1".toList ++ ['\x00', 'x'] ∧
      first_token ex_file_nul_header ≠ save_header ∧
      (load_game ex_mem (some ex_file_nul_header) ex_out).1 = true ∧
      (load_game ex_mem (some ex_file_nul_header) ex_out).2.rows = 1 ∧
      ((load_game ex_mem (some ex_file_nul_header) ex_out).2.board 0 0).fish = 3 ∧
      ex_out.rows = 0 := by
  decide

/-! ### Reading back what `save_game` wrote -/

/-- White space is not a digit. -/
theorem space_head_not_digit (tail : List Char) (ht : ∀ c t, tail = c :: t → isspace c = true) :
    ∀ c t, tail = c :: t → isdigit c = false := by
  intro c t h
  have hs := ht c t h
  cases hd : isdigit c with
  | false => rfl
  | true => rw [(isdigit_not_space c hd).1] at hs; exact absurd hs (by simp)

/-- A printed integer behind white space and before white space is read back by `%d`. -/
theorem fscanf_d_item (ws : List Char) (n : Int) (tail : List Char)
    (hws : ∀ c ∈ ws, isspace c = true) (ht : ∀ c t, tail = c :: t → isspace c = true) :
    fscanf_d (ws ++ (print_d n ++ tail)) = some (n, tail) := by
  rw [fscanf_d_skip ws _ hws, fscanf_d_print n tail (space_head_not_digit tail ht)]

/-- A name behind white space and before white space is read back by `%31s`. -/
theorem fscanf_s_item (ws name tail : List Char) (hws : ∀ c ∈ ws, isspace c = true)
    (hne : name ≠ []) (hns : ∀ c ∈ name, isspace c = false) (hlen : name.length ≤ 31)
    (ht : ∀ c t, tail = c :: t → isspace c = true) :
    fscanf_s 31 (ws ++ (name ++ tail)) = some (name, tail) := by
  rw [fscanf_s_skip 31 ws _ hws, fscanf_s_token 31 name tail hne hns hlen ht]

/-- The head of text that starts with a given white-space character is white space. -/
theorem space_head (c : Char) (s : List Char) (h : isspace c = true) :
    ∀ d t, c :: s = d :: t → isspace d = true := by
  intro d t hdt
  cases hdt
  exact h

/-- A one-character white-space prefix. -/
theorem all_space_one (c : Char) (h : isspace c = true) : ∀ d ∈ [c], isspace d = true := by
  intro d hd
  rw [List.mem_singleton] at hd
  rw [hd]
  exact h

/-- One tile line is read back by the two `%d` of the tile loop. -/
theorem read_tile_line (ws : List Char) (t : Tile) (tail : List Char)
    (hws : ∀ c ∈ ws, isspace c = true) :
    ∃ fp1, fscanf_d (ws ++ (print_tile t ++ tail)) = some (t.fish, fp1) ∧
      fscanf_d fp1 = some (t.owner, ['\n'] ++ tail) := by
  refine ⟨[' '] ++ (print_d t.owner ++ (['\n'] ++ tail)), ?_, ?_⟩
  · have : print_tile t ++ tail = print_d t.fish ++ ([' '] ++ (print_d t.owner ++ (['\n'] ++ tail))) := by
      unfold print_tile
      simp only [List.append_assoc]
    rw [this]
    exact fscanf_d_item ws _ _ hws (space_head _ _ (by decide))
  · exact fscanf_d_item [' '] _ _ (all_space_one _ (by decide)) (space_head _ _ (by decide))

/-- The column loop of `load_game` reads back one saved row of tiles. -/
theorem read_row_save (board : Board) (r : Int) : ∀ (cs : List Int) (b : Board) (ws tail : List Char),
    (∀ c ∈ ws, isspace c = true) →
    ∃ b' ws', read_row r cs b (ws ++ (cs.flatMap (fun c => print_tile (board r c)) ++ tail)) =
        some (b', ws' ++ tail) ∧ (∀ c ∈ ws', isspace c = true) ∧
      (∀ c ∈ cs, b' r c = board r c) ∧
      (∀ r' c', ¬ (r' = r ∧ c' ∈ cs) → b' r' c' = b r' c') := by
  intro cs
  induction cs with
  | nil =>
    intro b ws tail hws
    exact ⟨b, ws, by simp [read_row], hws, by simp, fun _ _ _ => rfl⟩
  | cons c cs ih =>
    intro b ws tail hws
    obtain ⟨fp1, h1, h2⟩ := read_tile_line ws (board r c)
      (cs.flatMap (fun c => print_tile (board r c)) ++ tail) hws
    obtain ⟨b', ws', hrd, hws', hin, hout⟩ :=
      ih (set_tile b r c ⟨(board r c).fish, (board r c).owner⟩) ['\n'] tail
        (all_space_one _ (by decide))
    refine ⟨b', ws', ?_, hws', ?_, ?_⟩
    · rw [List.flatMap_cons, List.append_assoc]
      unfold read_row
      rw [h1]
      simp only []
      rw [h2]
      exact hrd
    · intro c' hc'
      by_cases hmem : c' ∈ cs
      · exact hin c' hmem
      · rw [hout r c' (fun h => hmem h.2)]
        have : c' = c := by
          rcases List.mem_cons.mp hc' with h | h
          · exact h
          · exact absurd h hmem
        rw [this]
        unfold set_tile
        rw [if_pos ⟨rfl, rfl⟩]
    · intro r' c' hn
      rw [hout r' c' (fun h => hn ⟨h.1, List.mem_cons_of_mem _ h.2⟩)]
      unfold set_tile
      rw [if_neg]
      intro h
      exact hn ⟨h.1, by rw [h.2]; exact List.mem_cons_self _ _⟩

/-- The row loop of `load_game` reads back the saved tiles. -/
theorem read_rows_save (board : Board) (cols : Int) : ∀ (rs : List Int) (b : Board) (ws tail : List Char),
    (∀ c ∈ ws, isspace c = true) →
    ∃ b' ws', read_rows cols rs b
        (ws ++ (rs.flatMap (fun r => (upto cols).flatMap (fun c => print_tile (board r c))) ++ tail)) =
        some (b', ws' ++ tail) ∧ (∀ c ∈ ws', isspace c = true) ∧
      (∀ r ∈ rs, ∀ c ∈ upto cols, b' r c = board r c) ∧
      (∀ r' c', r' ∉ rs → b' r' c' = b r' c') := by
  intro rs
  induction rs with
  | nil =>
    intro b ws tail hws
    exact ⟨b, ws, by simp [read_rows], hws, by simp, fun _ _ _ => rfl⟩
  | cons r rs ih =>
    intro b ws tail hws
    obtain ⟨b1, ws1, hrow, hws1, hin1, hout1⟩ := read_row_save board r (upto cols) b ws
      (rs.flatMap (fun r => (upto cols).flatMap (fun c => print_tile (board r c))) ++ tail) hws
    obtain ⟨b', ws', hrd, hws', hin, hout⟩ := ih b1 ws1 tail hws1
    refine ⟨b', ws', ?_, hws', ?_, ?_⟩
    · rw [List.flatMap_cons, List.append_assoc]
      unfold read_rows
      rw [hrow]
      exact hrd
    · intro r' hr' c' hc'
      by_cases hmem : r' ∈ rs
      · exact hin r' hmem c' hc'
      · rw [hout r' c' hmem]
        have : r' = r := by
          rcases List.mem_cons.mp hr' with h | h
          · exact h
          · exact absurd h hmem
        rw [this]
        exact hin1 c' hc'
    · intro r' c' hn
      rw [hout r' c' (fun h => hn (List.mem_cons_of_mem _ h))]
      exact hout1 r' c' (fun h => hn (by rw [h.1]; exact List.mem_cons_self _ _))

/-- One player line is read back by `fscanf(fp, "%d %d %d %d %31s", ...)`. -/
theorem read_player_line (ws : List Char) (p : Player) (tail : List Char)
    (hws : ∀ c ∈ ws, isspace c = true) (hne : p.name ≠ [])
    (hns : ∀ c ∈ p.name, isspace c = false) (hlen : p.name.length ≤ 31) :
    read_player (ws ++ (print_player p ++ tail)) = some (p, ['\n'] ++ tail) := by
  have hshape : print_player p ++ tail =
      print_d p.id ++ ([' '] ++ (print_d p.is_ai ++ ([' '] ++ (print_d p.left ++ ([' '] ++
        (print_d p.score ++ ([' '] ++ (p.name ++ (['\n'] ++ tail))))))))) := by
    unfold print_player
    simp only [List.append_assoc]
  have hsp : ∀ c ∈ [' '], isspace c = true := all_space_one _ (by decide)
  have e1 : fscanf_d (ws ++ (print_d p.id ++ ([' '] ++ (print_d p.is_ai ++ ([' '] ++ (print_d p.left ++
      ([' '] ++ (print_d p.score ++ ([' '] ++ (p.name ++ (['\n'] ++ tail)))))))))))
      = some (p.id, [' '] ++ (print_d p.is_ai ++ ([' '] ++ (print_d p.left ++
      ([' '] ++ (print_d p.score ++ ([' '] ++ (p.name ++ (['\n'] ++ tail))))))))) :=
    fscanf_d_item ws _ _ hws (space_head ' ' _ (by decide))
  have e2 : fscanf_d ([' '] ++ (print_d p.is_ai ++ ([' '] ++ (print_d p.left ++
      ([' '] ++ (print_d p.score ++ ([' '] ++ (p.name ++ (['\n'] ++ tail)))))))))
      = some (p.is_ai, [' '] ++ (print_d p.left ++
      ([' '] ++ (print_d p.score ++ ([' '] ++ (p.name ++ (['\n'] ++ tail))))))) :=
    fscanf_d_item [' '] _ _ hsp (space_head ' ' _ (by decide))
  have e3 : fscanf_d ([' '] ++ (print_d p.left ++
      ([' '] ++ (print_d p.score ++ ([' '] ++ (p.name ++ (['\n'] ++ tail)))))))
      = some (p.left, [' '] ++ (print_d p.score ++ ([' '] ++ (p.name ++ (['\n'] ++ tail))))) :=
    fscanf_d_item [' '] _ _ hsp (space_head ' ' _ (by decide))
  have e4 : fscanf_d ([' '] ++ (print_d p.score ++ ([' '] ++ (p.name ++ (['\n'] ++ tail)))))
      = some (p.score, [' '] ++ (p.name ++ (['\n'] ++ tail))) :=
    fscanf_d_item [' '] _ _ hsp (space_head ' ' _ (by decide))
  have e5 : fscanf_s 31 ([' '] ++ (p.name ++ (['\n'] ++ tail))) = some (p.name, ['\n'] ++ tail) :=
    fscanf_s_item [' '] _ _ hsp hne hns hlen (space_head '\n' _ (by decide))
  unfold read_player
  rw [hshape, e1]
  simp only []
  rw [e2]
  simp only []
  rw [e3]
  simp only []
  rw [e4]
  simp only []
  rw [e5]
  simp only []
  rw [List.take_of_length_le hlen]

/-- The player loop of `load_game` reads back the saved player records. -/
theorem read_players_save (players : Players) : ∀ (is : List Int) (ps : Players) (ws tail : List Char),
    (∀ c ∈ ws, isspace c = true) →
    (∀ i ∈ is, (players i).name ≠ [] ∧ (∀ c ∈ (players i).name, isspace c = false) ∧
      (players i).name.length ≤ 31) →
    ∃ ps' ws', read_players is ps (ws ++ (is.flatMap (fun i => print_player (players i)) ++ tail)) =
        some (ps', ws' ++ tail) ∧ (∀ c ∈ ws', isspace c = true) ∧
      (∀ i ∈ is, ps' i = players i) ∧ (∀ j, j ∉ is → ps' j = ps j) := by
  intro is
  induction is with
  | nil =>
    intro ps ws tail hws _
    exact ⟨ps, ws, by simp [read_players], hws, by simp, fun _ _ => rfl⟩
  | cons i is ih =>
    intro ps ws tail hws hnames
    obtain ⟨hne, hns, hlen⟩ := hnames i (List.mem_cons_self _ _)
    have h1 := read_player_line ws (players i)
      (is.flatMap (fun i => print_player (players i)) ++ tail) hws hne hns hlen
    obtain ⟨ps', ws', hrd, hws', hin, hout⟩ :=
      ih (set_player ps i (players i)) ['\n'] tail (all_space_one _ (by decide))
        (fun j hj => hnames j (List.mem_cons_of_mem _ hj))
    refine ⟨ps', ws', ?_, hws', ?_, ?_⟩
    · rw [List.flatMap_cons, List.append_assoc]
      unfold read_players
      rw [h1]
      exact hrd
    · intro j hj
      by_cases hmem : j ∈ is
      · exact hin j hmem
      · rw [hout j hmem]
        have : j = i := by
          rcases List.mem_cons.mp hj with h | h
          · exact h
          · exact absurd h hmem
        rw [this]
        unfold set_player
        rw [if_pos rfl]
    · intro j hn
      rw [hout j (fun h => hn (List.mem_cons_of_mem _ h))]
      unfold set_player
      rw [if_neg]
      intro h
      exact hn (by rw [h]; exact List.mem_cons_self _ _)

/-- The flag loop of `load_game` reads back the flags `save_game` wrote for the slots
`k, k+1, ..., k+m-1`, where `k + m` is the number of players. -/
theorem read_active_save (flags : Flags) (num_players : Int) (n : Nat) (hn : (n : Int) = num_players) :
    ∀ (m k : Nat), k + m = n → ∀ (fl : Flags) (ws tail : List Char),
    (∀ c ∈ ws, isspace c = true) → (∀ c t, tail = c :: t → isspace c = true) →
    ∃ fl' ws', read_active ((List.range' k m).map Int.ofNat) fl
        (ws ++ (((List.range' k m).map Int.ofNat).flatMap (print_flag (some flags) num_players) ++ tail)) =
        some (fl', ws' ++ tail) ∧ (∀ c ∈ ws', isspace c = true) ∧
      (∀ i ∈ (List.range' k m).map Int.ofNat, fl' i = flags i) ∧
      (∀ j, j ∉ (List.range' k m).map Int.ofNat → fl' j = fl j) := by
  intro m
  induction m with
  | zero =>
    intro k _ fl ws tail hws _
    exact ⟨fl, ws, by simp [read_active], hws, by simp, fun _ _ => rfl⟩
  | succ m ih =>
    intro k hk fl ws tail hws ht
    have hsep : ∀ c ∈ (if (Int.ofNat k) + 1 < num_players then [' '] else []), isspace c = true := by
      intro c hc
      split_ifs at hc
      · exact all_space_one _ (by decide) c hc
      · simp at hc
    obtain ⟨fl', ws', hrd, hws', hin, hout⟩ :=
      ih (k + 1) (by omega) (set_flag fl (Int.ofNat k) (flags (Int.ofNat k)))
        (if (Int.ofNat k) + 1 < num_players then [' '] else []) tail hsep ht
    have hhead : ∀ c t, (if (Int.ofNat k) + 1 < num_players then [' '] else []) ++
        (((List.range' (k + 1) m).map Int.ofNat).flatMap (print_flag (some flags) num_players) ++ tail)
          = c :: t → isspace c = true := by
      intro c t hct
      by_cases hlt : (Int.ofNat k) + 1 < num_players
      · rw [if_pos hlt] at hct
        cases hct
        decide
      · rw [if_neg hlt] at hct
        have hm : m = 0 := by
          have : ((k : Nat) : Int) = Int.ofNat k := rfl
          omega
        subst hm
        simp only [List.range'_zero, List.map_nil, List.flatMap_nil, List.nil_append] at hct
        exact ht c t hct
    refine ⟨fl', ws', ?_, hws', ?_, ?_⟩
    · rw [List.range'_succ, List.map_cons, List.flatMap_cons]
      unfold read_active
      have hshape : print_flag (some flags) num_players (Int.ofNat k) ++
          ((List.map Int.ofNat (List.range' (k + 1) m)).flatMap (print_flag (some flags) num_players)) ++ tail
          = print_d (flags (Int.ofNat k)) ++ ((if (Int.ofNat k) + 1 < num_players then [' '] else []) ++
            (((List.range' (k + 1) m).map Int.ofNat).flatMap (print_flag (some flags) num_players) ++ tail)) := by
        unfold print_flag
        simp only [List.append_assoc]
      rw [hshape, fscanf_d_item ws _ _ hws hhead]
      exact hrd
    · intro j hj
      rw [List.range'_succ, List.map_cons] at hj
      by_cases hmem : j ∈ (List.range' (k + 1) m).map Int.ofNat
      · exact hin j hmem
      · rw [hout j hmem]
        have : j = Int.ofNat k := by
          rcases List.mem_cons.mp hj with h | h
          · exact h
          · exact absurd h hmem
        rw [this]
        unfold set_flag
        rw [if_pos rfl]
    · intro j hj
      rw [List.range'_succ, List.map_cons] at hj
      rw [hout j (fun h => hj (List.mem_cons_of_mem _ h))]
      unfold set_flag
      rw [if_neg]
      intro h
      exact hj (by rw [h]; exact List.mem_cons_self _ _)

/-- Claim C2: save then load is the identity.  For a state whose sizes are non-negative
and whose player names are non-empty tokens without white space of at most 31 characters,
loading the text written by `save_game` succeeds (given the allocations succeed) and
yields the same rows, cols, number of players, mode, turn index, every player record,
every active flag and every tile. -/
theorem save_load_roundtrip (mem : Alloc) (out : LoadOut) (board : Board) (rows cols : Int)
    (players : Players) (num_players mode turn_index : Int) (active_flags : Flags)
    (hmem : mem.ok = true) (_hrows : 0 ≤ rows) (_hcols : 0 ≤ cols) (hnp : 0 ≤ num_players)
    (hnames : ∀ i, 0 ≤ i → i < num_players →
      (players i).name ≠ [] ∧ (∀ c ∈ (players i).name, isspace c = false) ∧
        (players i).name.length ≤ 31) :
    ∃ res, load_game mem
        (save_game true board rows cols players num_players mode turn_index (some active_flags)) out
          = (true, res) ∧
      res.rows = rows ∧ res.cols = cols ∧ res.num_players = num_players ∧ res.mode = mode ∧
      res.turn_index = turn_index ∧
      (∀ i, 0 ≤ i → i < num_players →
        res.players i = players i ∧ res.active_flags i = active_flags i) ∧
      (∀ r c, 0 ≤ r → r < rows → 0 ≤ c → c < cols → res.board r c = board r c) := by
  have hsp : ∀ c ∈ [' '], isspace c = true := all_space_one _ (by decide)
  have hnl : ∀ c ∈ ['\n'], isspace c = true := all_space_one _ (by decide)
  -- the three loops
  have hupto : upto num_players = (List.range' 0 num_players.toNat).map Int.ofNat := by
    unfold upto
    rw [List.range_eq_range']
  obtain ⟨fl', ws1, hfl, hws1, hflin, _⟩ :=
    read_active_save active_flags num_players num_players.toNat (by omega) num_players.toNat 0
      (by omega) mem.active ['\n']
      (['\n'] ++ ((upto num_players).flatMap (fun i => print_player (players i)) ++
        ((upto rows).flatMap (fun r => (upto cols).flatMap (fun c => print_tile (board r c))) ++ [])))
      hnl (space_head '\n' _ (by decide))
  rw [← hupto] at hfl hflin
  obtain ⟨ps', ws2, hps, hws2, hpsin, _⟩ :=
    read_players_save players (upto num_players) mem.players (ws1 ++ ['\n'])
      ((upto rows).flatMap (fun r => (upto cols).flatMap (fun c => print_tile (board r c))) ++ [])
      (by
        intro c hc
        rcases List.mem_append.mp hc with h | h
        · exact hws1 c h
        · exact hnl c h)
      (by
        intro i hi
        rw [mem_upto] at hi
        exact hnames i hi.1 hi.2)
  obtain ⟨b', ws3, hb, _, hbin, _⟩ :=
    read_rows_save board cols (upto rows) mem.board ws2 [] hws2
  -- the text written by `save_game`
  have htext : save_game true board rows cols players num_players mode turn_index (some active_flags)
      = some (save_header ++ (['\n'] ++ (print_d rows ++ ([' '] ++ (print_d cols ++ (['\n'] ++
          (print_d num_players ++ ([' '] ++ (print_d mode ++ ([' '] ++ (print_d turn_index ++
          (['\n'] ++ ((upto num_players).flatMap (print_flag (some active_flags) num_players) ++
          (['\n'] ++ ((upto num_players).flatMap (fun i => print_player (players i)) ++
          ((upto rows).flatMap (fun r => (upto cols).flatMap (fun c => print_tile (board r c))) ++
            [])))))))))))))))) := by
    unfold save_game
    simp only [Bool.not_true, Bool.false_eq_true, if_false, List.append_assoc, List.append_nil]
  have e0 : fscanf_s 63 (save_header ++ (['\n'] ++ (print_d rows ++ ([' '] ++ (print_d cols ++ (['\n'] ++
          (print_d num_players ++ ([' '] ++ (print_d mode ++ ([' '] ++ (print_d turn_index ++
          (['\n'] ++ ((upto num_players).flatMap (print_flag (some active_flags) num_players) ++
          (['\n'] ++ ((upto num_players).flatMap (fun i => print_player (players i)) ++
          ((upto rows).flatMap (fun r => (upto cols).flatMap (fun c => print_tile (board r c))) ++
            []))))))))))))))))
      = some (save_header, ['\n'] ++ (print_d rows ++ ([' '] ++ (print_d cols ++ (['\n'] ++
          (print_d num_players ++ ([' '] ++ (print_d mode ++ ([' '] ++ (print_d turn_index ++
          (['\n'] ++ ((upto num_players).flatMap (print_flag (some active_flags) num_players) ++
          (['\n'] ++ ((upto num_players).flatMap (fun i => print_player (players i)) ++
          ((upto rows).flatMap (fun r => (upto cols).flatMap (fun c => print_tile (board r c))) ++
            []))))))))))))))) :=
    fscanf_s_token 63 save_header _ (by decide) (by decide) (by decide)
      (space_head '\n' _ (by decide))
  have e1 : fscanf_d (['\n'] ++ (print_d rows ++ ([' '] ++ (print_d cols ++ (['\n'] ++
          (print_d num_players ++ ([' '] ++ (print_d mode ++ ([' '] ++ (print_d turn_index ++
          (['\n'] ++ ((upto num_players).flatMap (print_flag (some active_flags) num_players) ++
          (['\n'] ++ ((upto num_players).flatMap (fun i => print_player (players i)) ++
          ((upto rows).flatMap (fun r => (upto cols).flatMap (fun c => print_tile (board r c))) ++
            [])))))))))))))))
      = some (rows, [' '] ++ (print_d cols ++ (['\n'] ++
          (print_d num_players ++ ([' '] ++ (print_d mode ++ ([' '] ++ (print_d turn_index ++
          (['\n'] ++ ((upto num_players).flatMap (print_flag (some active_flags) num_players) ++
          (['\n'] ++ ((upto num_players).flatMap (fun i => print_player (players i)) ++
          ((upto rows).flatMap (fun r => (upto cols).flatMap (fun c => print_tile (board r c))) ++
            []))))))))))))) :=
    fscanf_d_item ['\n'] _ _ hnl (space_head ' ' _ (by decide))
  have e2 : fscanf_d ([' '] ++ (print_d cols ++ (['\n'] ++
          (print_d num_players ++ ([' '] ++ (print_d mode ++ ([' '] ++ (print_d turn_index ++
          (['\n'] ++ ((upto num_players).flatMap (print_flag (some active_flags) num_players) ++
          (['\n'] ++ ((upto num_players).flatMap (fun i => print_player (players i)) ++
          ((upto rows).flatMap (fun r => (upto cols).flatMap (fun c => print_tile (board r c))) ++
            [])))))))))))))
      = some (cols, ['\n'] ++
          (print_d num_players ++ ([' '] ++ (print_d mode ++ ([' '] ++ (print_d turn_index ++
          (['\n'] ++ ((upto num_players).flatMap (print_flag (some active_flags) num_players) ++
          (['\n'] ++ ((upto num_players).flatMap (fun i => print_player (players i)) ++
          ((upto rows).flatMap (fun r => (upto cols).flatMap (fun c => print_tile (board r c))) ++
            []))))))))))) :=
    fscanf_d_item [' '] _ _ hsp (space_head '\n' _ (by decide))
  have e3 : fscanf_d (['\n'] ++
          (print_d num_players ++ ([' '] ++ (print_d mode ++ ([' '] ++ (print_d turn_index ++
          (['\n'] ++ ((upto num_players).flatMap (print_flag (some active_flags) num_players) ++
          (['\n'] ++ ((upto num_players).flatMap (fun i => print_player (players i)) ++
          ((upto rows).flatMap (fun r => (upto cols).flatMap (fun c => print_tile (board r c))) ++
            [])))))))))))
      = some (num_players, [' '] ++ (print_d mode ++ ([' '] ++ (print_d turn_index ++
          (['\n'] ++ ((upto num_players).flatMap (print_flag (some active_flags) num_players) ++
          (['\n'] ++ ((upto num_players).flatMap (fun i => print_player (players i)) ++
          ((upto rows).flatMap (fun r => (upto cols).flatMap (fun c => print_tile (board r c))) ++
            []))))))))) :=
    fscanf_d_item ['\n'] _ _ hnl (space_head ' ' _ (by decide))
  have e4 : fscanf_d ([' '] ++ (print_d mode ++ ([' '] ++ (print_d turn_index ++
          (['\n'] ++ ((upto num_players).flatMap (print_flag (some active_flags) num_players) ++
          (['\n'] ++ ((upto num_players).flatMap (fun i => print_player (players i)) ++
          ((upto rows).flatMap (fun r => (upto cols).flatMap (fun c => print_tile (board r c))) ++
            [])))))))))
      = some (mode, [' '] ++ (print_d turn_index ++
          (['\n'] ++ ((upto num_players).flatMap (print_flag (some active_flags) num_players) ++
          (['\n'] ++ ((upto num_players).flatMap (fun i => print_player (players i)) ++
          ((upto rows).flatMap (fun r => (upto cols).flatMap (fun c => print_tile (board r c))) ++
            []))))))) :=
    fscanf_d_item [' '] _ _ hsp (space_head ' ' _ (by decide))
  have e5 : fscanf_d ([' '] ++ (print_d turn_index ++
          (['\n'] ++ ((upto num_players).flatMap (print_flag (some active_flags) num_players) ++
          (['\n'] ++ ((upto num_players).flatMap (fun i => print_player (players i)) ++
          ((upto rows).flatMap (fun r => (upto cols).flatMap (fun c => print_tile (board r c))) ++
            [])))))))
      = some (turn_index, ['\n'] ++ ((upto num_players).flatMap (print_flag (some active_flags) num_players) ++
          (['\n'] ++ ((upto num_players).flatMap (fun i => print_player (players i)) ++
          ((upto rows).flatMap (fun r => (upto cols).flatMap (fun c => print_tile (board r c))) ++
            []))))) :=
    fscanf_d_item [' '] _ _ hsp (space_head '\n' _ (by decide))
  rw [List.append_assoc] at hps
  refine ⟨⟨b', rows, cols, ps', num_players, mode, turn_index, fl'⟩, ?_, rfl, rfl, rfl, rfl, rfl, ?_, ?_⟩
  · rw [htext]
    unfold load_game
    simp only [e0, e1, e2, e3, e4, e5, hmem, hfl, hps, hb, c_string_save_header, ne_eq,
      not_true_eq_false, if_false, Bool.not_true, Bool.false_eq_true]
  · intro i h0 hlt
    have hi : i ∈ upto num_players := (mem_upto _ _).2 ⟨h0, hlt⟩
    exact ⟨hpsin i hi, hflin i hi⟩
  · intro r c hr0 hr hc0 hc
    exact hbin r ((mem_upto _ _).2 ⟨hr0, hr⟩) c ((mem_upto _ _).2 ⟨hc0, hc⟩)

/-- Witness for C2: a 2 x 2 game of a human and the AI is saved and loaded back. -/
theorem save_load_roundtrip_witness :
    (∀ i, 0 ≤ i → i < (2 : Int) →
      (ex_players i).name ≠ [] ∧ (∀ c ∈ (ex_players i).name, isspace c = false) ∧
        (ex_players i).name.length ≤ 31) ∧
    ∃ res, load_game ex_mem
        (save_game true ex_board 2 2 ex_players 2 1 0 (some ex_flags)) ex_out = (true, res) ∧
      res.rows = 2 ∧ res.cols = 2 ∧ res.num_players = 2 ∧ res.mode = 1 ∧ res.turn_index = 0 ∧
      (∀ i, 0 ≤ i → i < 2 → res.players i = ex_players i ∧ res.active_flags i = ex_flags i) ∧
      (∀ r c, 0 ≤ r → r < 2 → 0 ≤ c → c < 2 → res.board r c = ex_board r c) :=
  have hn : ∀ i, 0 ≤ i → i < (2 : Int) →
      (ex_players i).name ≠ [] ∧ (∀ c ∈ (ex_players i).name, isspace c = false) ∧
        (ex_players i).name.length ≤ 31 := by
    intro i h0 h2
    interval_cases i <;> decide
  ⟨hn, save_load_roundtrip ex_mem ex_out ex_board 2 2 ex_players 2 1 0 ex_flags rfl
    (by decide) (by decide) (by decide) hn⟩

/-! ### Failure of `load_game` -/

/-- The conversion `%d` fails exactly when, after white space, the input has ended or what
follows an optional sign does not start with a digit. -/
theorem fscanf_d_eq_none_iff (fp : List Char) :
    fscanf_d fp = none ↔
      ∀ c t, fp.dropWhile isspace = c :: t →
        ∀ d s, (if c = '-' ∨ c = '+' then t else c :: t) = d :: s → isdigit d = false := by
  unfold fscanf_d
  cases h : fp.dropWhile isspace with
  | nil => simp
  | cons c t =>
    simp only [List.cons.injEq, and_imp]
    constructor
    · intro hn c' t' hc ht d s hd
      subst hc ht
      rw [hd] at hn
      cases hdig : isdigit d with
      | false => rfl
      | true => simp [List.takeWhile, hdig] at hn
    · intro hall
      cases hb : (if c = '-' ∨ c = '+' then t else c :: t) with
      | nil => simp
      | cons d s =>
        have := hall c t rfl rfl d s hb
        simp [List.takeWhile, this]

/-- The conversion `%s` fails exactly when only white space is left. -/
theorem fscanf_s_eq_none_iff (w : Nat) (fp : List Char) :
    fscanf_s w fp = none ↔ fp.dropWhile isspace = [] := by
  unfold fscanf_s
  cases h : fp.dropWhile isspace with
  | nil => simp
  | cons c t => simp

/-- Every failing path of `load_game` returns before the output parameters are written. -/
theorem load_game_false_unchanged (mem : Alloc) (file : Option (List Char)) (out : LoadOut)
    (h : (load_game mem file out).1 = false) : (load_game mem file out).2 = out := by
  unfold load_game at h ⊢
  repeat' split
  all_goals first
    | rfl
    | (exfalso; revert h; simp_all)

/-- Reading a concatenation of field lists reads the first list and then the second. -/
theorem spec_read_fields_append : ∀ (k1 k2 : List FieldKind) (fp : List Char),
    spec_read_fields (k1 ++ k2) fp =
      match spec_read_fields k1 fp with
      | none => none
      | some fp1 => spec_read_fields k2 fp1 := by
  intro k1
  induction k1 with
  | nil => intro k2 fp; rfl
  | cons k ks ih =>
    intro k2 fp
    cases k with
    | number =>
      simp only [List.cons_append, spec_read_fields]
      cases fscanf_d fp with
      | none => rfl
      | some r => exact ih k2 r.2
    | name =>
      simp only [List.cons_append, spec_read_fields]
      cases fscanf_s 31 fp with
      | none => rfl
      | some r => exact ih k2 r.2

/-- The flag loop converts one number per listed slot. -/
theorem read_active_fields : ∀ (is : List Int) (fl : Flags) (fp : List Char),
    (read_active is fl fp).map Prod.snd =
      spec_read_fields (is.flatMap (fun _ => [FieldKind.number])) fp := by
  intro is
  induction is with
  | nil => intro fl fp; rfl
  | cons i is ih =>
    intro fl fp
    simp only [List.flatMap_cons, List.singleton_append, read_active, spec_read_fields]
    cases fscanf_d fp with
    | none => rfl
    | some r => exact ih _ r.2

/-- One player record converts four numbers and a name. -/
theorem read_player_fields (fp : List Char) :
    (read_player fp).map Prod.snd =
      spec_read_fields [FieldKind.number, FieldKind.number, FieldKind.number, FieldKind.number,
        FieldKind.name] fp := by
  simp only [read_player, spec_read_fields]
  cases fscanf_d fp with
  | none => rfl
  | some r1 =>
    simp only []
    cases fscanf_d r1.2 with
    | none => rfl
    | some r2 =>
      simp only []
      cases fscanf_d r2.2 with
      | none => rfl
      | some r3 =>
        simp only []
        cases fscanf_d r3.2 with
        | none => rfl
        | some r4 =>
          simp only []
          cases fscanf_s 31 r4.2 with
          | none => rfl
          | some r5 => rfl

/-- The player loop converts four numbers and a name per listed slot. -/
theorem read_players_fields : ∀ (is : List Int) (ps : Players) (fp : List Char),
    (read_players is ps fp).map Prod.snd =
      spec_read_fields (is.flatMap (fun _ =>
        [FieldKind.number, FieldKind.number, FieldKind.number, FieldKind.number, FieldKind.name])) fp := by
  intro is
  induction is with
  | nil => intro ps fp; rfl
  | cons i is ih =>
    intro ps fp
    rw [List.flatMap_cons, spec_read_fields_append, ← read_player_fields]
    simp only [read_players]
    cases read_player fp with
    | none => rfl
    | some r => exact ih _ r.2

/-- The column loop converts two numbers per listed column. -/
theorem read_row_fields (r : Int) : ∀ (cs : List Int) (b : Board) (fp : List Char),
    (read_row r cs b fp).map Prod.snd =
      spec_read_fields (cs.flatMap (fun _ => [FieldKind.number, FieldKind.number])) fp := by
  intro cs
  induction cs with
  | nil => intro b fp; rfl
  | cons c cs ih =>
    intro b fp
    simp only [List.flatMap_cons, List.cons_append, List.nil_append, read_row, spec_read_fields]
    cases fscanf_d fp with
    | none => rfl
    | some r1 =>
      simp only []
      cases fscanf_d r1.2 with
      | none => rfl
      | some r2 => exact ih _ r2.2

/-- The row loop converts two numbers per tile of the listed rows. -/
theorem read_rows_fields (cols : Int) : ∀ (rs : List Int) (b : Board) (fp : List Char),
    (read_rows cols rs b fp).map Prod.snd =
      spec_read_fields (rs.flatMap (fun _ =>
        (upto cols).flatMap (fun _ => [FieldKind.number, FieldKind.number]))) fp := by
  intro rs
  induction rs with
  | nil => intro b fp; rfl
  | cons r rs ih =>
    intro b fp
    rw [List.flatMap_cons, spec_read_fields_append, ← read_row_fields r]
    simp only [read_rows]
    cases read_row r (upto cols) b fp with
    | none => rfl
    | some r1 => exact ih _ r1.2

/-- With a correct header, `load_game` succeeds exactly when the allocations succeed and
every field of the record can be converted. -/
theorem load_game_returns (mem : Alloc) (fp rest : List Char) (out : LoadOut)
    (hh : fscanf_s 63 fp = some (save_header, rest)) :
    (load_game mem (some fp) out).1 = (mem.ok && spec_fields_readable rest) := by
  simp only [load_game, spec_fields_readable, hh, c_string_save_header, ne_eq,
    not_true_eq_false, if_false]
  cases fscanf_d rest with
  | none => simp
  | some r1 =>
    obtain ⟨rows, fp2⟩ := r1
    simp only []
    cases fscanf_d fp2 with
    | none => simp
    | some r2 =>
      obtain ⟨cols, fp3⟩ := r2
      simp only []
      cases fscanf_d fp3 with
      | none => simp
      | some r3 =>
        obtain ⟨num_players, fp4⟩ := r3
        simp only []
        cases fscanf_d fp4 with
        | none => simp
        | some r4 =>
          obtain ⟨mode, fp5⟩ := r4
          simp only []
          cases fscanf_d fp5 with
          | none => simp
          | some r5 =>
            obtain ⟨turn_index, fp6⟩ := r5
            simp only []
            cases hok : mem.ok with
            | false => simp
            | true =>
              simp only [Bool.not_true, Bool.false_eq_true, if_false, Bool.true_and]
              unfold spec_record_fields
              rw [spec_read_fields_append, spec_read_fields_append,
                ← read_active_fields (upto num_players) mem.active fp6]
              cases read_active (upto num_players) mem.active fp6 with
              | none => rfl
              | some a =>
                obtain ⟨active, fp7⟩ := a
                simp only [Option.map_some']
                rw [← read_players_fields (upto num_players) mem.players fp7]
                cases read_players (upto num_players) mem.players fp7 with
                | none => rfl
                | some p =>
                  obtain ⟨players, fp8⟩ := p
                  simp only [Option.map_some']
                  rw [← read_rows_fields cols (upto rows) mem.board fp8]
                  cases read_rows cols (upto rows) mem.board fp8 with
                  | none => rfl
                  | some b => rfl

/-- Claim C4 (amended): `load_game` fails atomically.  Whenever it returns 0 every output
parameter keeps its prior value, so no partially loaded state is returned.  For a file
with a correct header whose sizes (rows, cols, number of players) are values of `int`, it
returns 0 whenever some later field, converted in record order by `%d` and `%31s`, cannot
be converted (the input ends before it, or a number field does not start with a number);
and it returns 1 whenever all fields can be converted and the allocations succeed,
whatever text follows a number. -/
theorem load_game_fails_atomically (mem : Alloc) (file : Option (List Char)) (out : LoadOut) :
    ((load_game mem file out).1 = false → (load_game mem file out).2 = out) ∧
    (∀ fp rest, file = some fp → fscanf_s 63 fp = some (save_header, rest) →
      spec_sizes_in_range rest = true →
      spec_fields_readable rest = false → load_game mem file out = (false, out)) ∧
    (∀ fp rest, file = some fp → fscanf_s 63 fp = some (save_header, rest) →
      spec_sizes_in_range rest = true →
      spec_fields_readable rest = true → mem.ok = true → (load_game mem file out).1 = true) := by
  refine ⟨load_game_false_unchanged mem file out, ?_, ?_⟩
  · intro fp rest hf hh _ hr
    subst hf
    have h1 : (load_game mem (some fp) out).1 = false := by
      rw [load_game_returns mem fp rest out hh, hr, Bool.and_false]
    have h2 := load_game_false_unchanged mem (some fp) out h1
    exact Prod.ext h1 h2
  · intro fp rest hf hh _ hr hok
    subst hf
    rw [load_game_returns mem fp rest out hh, hr, hok]
    rfl

/-- Witness for C4: a record cut off before its last field is rejected with the outputs
untouched. -/
theorem load_game_fails_atomically_witness :
    fscanf_s 63 ex_file_truncated
        = some (save_header, "\n1 1\n1 1 0\n1\n1 0 0 1 Bob\n0\n".toList) ∧
      spec_sizes_in_range "\n1 1\n1 1 0\n1\n1 0 0 1 Bob\n0\n".toList = true ∧
      spec_fields_readable "\n1 1\n1 1 0\n1\n1 0 0 1 Bob\n0\n".toList = false ∧
      load_game ex_mem (some ex_file_truncated) ex_out = (false, ex_out) :=
  ⟨by decide, by decide, by decide,
    (load_game_fails_atomically ex_mem (some ex_file_truncated) ex_out).2.1
      ex_file_truncated "\n1 1\n1 1 0\n1\n1 0 0 1 Bob\n0\n".toList rfl (by decide) (by decide)
      (by decide)⟩

/-- Counterexample to C4 as stated: the record has a correct header and its last field
`1junk` is not a well-formed number, yet `load_game` returns 1 and writes the outputs,
taking 1 as the owner of the tile. -/
theorem load_game_accepts_trailing_garbage :
    first_token ex_file_trailing_garbage = save_header ∧
      ex_file_trailing_garbage =
        "PENGUINS_SAVE_V1\n1 1\n1 1 0\n1\n1 0 0 1 Bob\n0 ".toList ++ "1junk".toList ++ ['\n'] ∧
      spec_well_formed_number "1junk".toList = false ∧
      (load_game ex_mem (some ex_file_trailing_garbage) ex_out).1 = true ∧
      (load_game ex_mem (some ex_file_trailing_garbage) ex_out).2.rows = 1 ∧
      ((load_game ex_mem (some ex_file_trailing_garbage) ex_out).2.board 0 0).owner = 1 ∧
      ex_out.rows = 0 := by
  decide

/-! ### The AI move -/

/-- The choice of `find_best_adjacent_move`, neighbour by neighbour. -/
theorem find_best_cases (board : Board) (rows cols player_id pr pc tr tc : Int)
    (hp : find_penguin board rows cols player_id = some (pr, pc))
    (hb : find_best_adjacent_move board rows cols player_id = some (tr, tc)) :
    is_valid_move board rows cols player_id pr pc tr tc = true ∧
    ((tr = pr - 1 ∧ tc = pc) ∨ (tr = pr + 1 ∧ tc = pc) ∨ (tr = pr ∧ tc = pc - 1) ∨
      (tr = pr ∧ tc = pc + 1)) ∧
    (is_valid_move board rows cols player_id pr pc (pr - 1) pc = true →
      (board (pr - 1) pc).fish ≤ (board tr tc).fish) ∧
    (is_valid_move board rows cols player_id pr pc (pr + 1) pc = true →
      (board (pr + 1) pc).fish ≤ (board tr tc).fish) ∧
    (is_valid_move board rows cols player_id pr pc pr (pc - 1) = true →
      (board pr (pc - 1)).fish ≤ (board tr tc).fish) ∧
    (is_valid_move board rows cols player_id pr pc pr (pc + 1) = true →
      (board pr (pc + 1)).fish ≤ (board tr tc).fish) ∧
    (¬ (tr = pr - 1 ∧ tc = pc) → is_valid_move board rows cols player_id pr pc (pr - 1) pc = true →
      (board (pr - 1) pc).fish < (board tr tc).fish) ∧
    (¬ (tr = pr - 1 ∧ tc = pc) → ¬ (tr = pr + 1 ∧ tc = pc) →
      is_valid_move board rows cols player_id pr pc (pr + 1) pc = true →
      (board (pr + 1) pc).fish < (board tr tc).fish) ∧
    (tr = pr ∧ tc = pc + 1 → is_valid_move board rows cols player_id pr pc pr (pc - 1) = true →
      (board pr (pc - 1)).fish < (board tr tc).fish) := by
  unfold find_best_adjacent_move at hb
  rw [hp] at hb
  simp only [] at hb
  cases hU : is_valid_move board rows cols player_id pr pc (pr - 1) pc <;>
  cases hD : is_valid_move board rows cols player_id pr pc (pr + 1) pc <;>
  cases hL : is_valid_move board rows cols player_id pr pc pr (pc - 1) <;>
  cases hR : is_valid_move board rows cols player_id pr pc pr (pc + 1) <;>
  rw [hU, hD, hL, hR] at hb <;>
  simp only [Bool.false_eq_true, if_false, if_true] at hb
  all_goals (try split_ifs at hb)
  all_goals (try dsimp only at *)
  all_goals simp only [Option.some.injEq, Prod.mk.injEq, reduceCtorEq] at hb
  all_goals first
    | (exfalso; omega)
    | (obtain ⟨rfl, rfl⟩ := hb
       refine ⟨by assumption, by omega, ?_, ?_, ?_, ?_, ?_, ?_, ?_⟩ <;> intros <;>
         first
           | omega
           | (exfalso; simp_all))

/-- Claim C9: when the piece of the player is at `(pr, pc)` and `find_best_adjacent_move`
returns `(tr, tc)`, the destination is one of the four neighbours, it satisfies
`is_valid_move`, no valid neighbour holds more fish, and every valid neighbour before it
in the order up, down, left, right holds strictly fewer fish. -/
theorem find_best_adjacent_move_spec (board : Board) (rows cols player_id pr pc tr tc : Int)
    (hp : find_penguin board rows cols player_id = some (pr, pc))
    (hb : find_best_adjacent_move board rows cols player_id = some (tr, tc)) :
    ∃ i : Nat, (neighbours pr pc)[i]? = some (tr, tc) ∧
      is_valid_move board rows cols player_id pr pc tr tc = true ∧
      ∀ (j : Nat) (n : Int × Int), (neighbours pr pc)[j]? = some n →
        is_valid_move board rows cols player_id pr pc n.1 n.2 = true →
          (board n.1 n.2).fish ≤ (board tr tc).fish ∧
          (j < i → (board n.1 n.2).fish < (board tr tc).fish) := by
  obtain ⟨hv, hwhich, hU, hD, hL, hR, hsU, hsD, hsL⟩ :=
    find_best_cases board rows cols player_id pr pc tr tc hp hb
  have key : ∀ i : Nat, (neighbours pr pc)[i]? = some (tr, tc) →
      (0 < i → ¬ (tr = pr - 1 ∧ tc = pc)) → (1 < i → ¬ (tr = pr + 1 ∧ tc = pc)) →
      (2 < i → tr = pr ∧ tc = pc + 1) → i < 4 →
      ∃ i : Nat, (neighbours pr pc)[i]? = some (tr, tc) ∧
        is_valid_move board rows cols player_id pr pc tr tc = true ∧
        ∀ (j : Nat) (n : Int × Int), (neighbours pr pc)[j]? = some n →
          is_valid_move board rows cols player_id pr pc n.1 n.2 = true →
            (board n.1 n.2).fish ≤ (board tr tc).fish ∧
            (j < i → (board n.1 n.2).fish < (board tr tc).fish) := by
    intro i hi h0 h1 h2 h4
    refine ⟨i, hi, hv, ?_⟩
    intro j n hj hn
    match j, hj with
    | 0, hj =>
      simp only [neighbours, List.getElem?_cons_zero, Option.some.injEq] at hj
      subst hj
      exact ⟨hU hn, fun hlt => hsU (h0 hlt) hn⟩
    | 1, hj =>
      simp only [neighbours, List.getElem?_cons_succ, List.getElem?_cons_zero,
        Option.some.injEq] at hj
      subst hj
      exact ⟨hD hn, fun hlt => hsD (h0 (by omega)) (h1 hlt) hn⟩
    | 2, hj =>
      simp only [neighbours, List.getElem?_cons_succ, List.getElem?_cons_zero,
        Option.some.injEq] at hj
      subst hj
      exact ⟨hL hn, fun hlt => hsL (h2 hlt) hn⟩
    | 3, hj =>
      simp only [neighbours, List.getElem?_cons_succ, List.getElem?_cons_zero,
        Option.some.injEq] at hj
      subst hj
      exact ⟨hR hn, fun hlt => absurd hlt (by omega)⟩
    | k + 4, hj =>
      simp [neighbours] at hj
  rcases hwhich with ⟨h1, h2⟩ | ⟨h1, h2⟩ | ⟨h1, h2⟩ | ⟨h1, h2⟩
  · exact key 0 (by simp [neighbours, h1, h2]) (by omega) (by omega) (by omega) (by omega)
  · exact key 1 (by simp [neighbours, h1, h2]) (by omega) (by omega) (by omega) (by omega)
  · exact key 2 (by simp [neighbours, h1, h2]) (by omega) (by omega) (by omega) (by omega)
  · exact key 3 (by simp [neighbours, h1, h2]) (by omega) (by omega) (fun _ => ⟨h1, h2⟩) (by omega)

/-- Witness for C9: with two fish above, dead water below, another piece to the left and
three fish to the right, the AI moves right. -/
theorem find_best_adjacent_move_spec_witness :
    find_penguin ex_ai_board 3 3 1 = some (1, 1) ∧
    find_best_adjacent_move ex_ai_board 3 3 1 = some (1, 2) ∧
    (neighbours 1 1)[3]? = some (1, 2) ∧
    ∃ i : Nat, (neighbours 1 1)[i]? = some (1, 2) ∧
      is_valid_move ex_ai_board 3 3 1 1 1 1 2 = true ∧
      ∀ (j : Nat) (n : Int × Int), (neighbours 1 1)[j]? = some n →
        is_valid_move ex_ai_board 3 3 1 1 1 n.1 n.2 = true →
          (ex_ai_board n.1 n.2).fish ≤ (ex_ai_board 1 2).fish ∧
          (j < i → (ex_ai_board n.1 n.2).fish < (ex_ai_board 1 2).fish) :=
  ⟨by decide, by decide, by decide,
    find_best_adjacent_move_spec ex_ai_board 3 3 1 1 1 1 2 (by decide) (by decide)⟩

/-- With non-negative fish on the board, `find_best_adjacent_move` fails exactly when
`player_can_move` does. -/
theorem find_best_none_iff (board : Board) (rows cols player_id : Int)
    (hfish : ∀ r c, 0 ≤ r → r < rows → 0 ≤ c → c < cols → 0 ≤ (board r c).fish) :
    find_best_adjacent_move board rows cols player_id = none ↔
      player_can_move board rows cols player_id = false := by
  unfold find_best_adjacent_move player_can_move
  cases hp : find_penguin board rows cols player_id with
  | none => simp
  | some pos =>
    obtain ⟨pr, pc⟩ := pos
    simp only []
    have fU : is_valid_move board rows cols player_id pr pc (pr - 1) pc = true →
        0 ≤ pr - 1 ∧ 0 ≤ (board (pr - 1) pc).fish := by
      intro h
      rw [is_valid_move_eq_true] at h
      exact ⟨h.1.1, hfish _ _ h.1.1 h.1.2.1 h.1.2.2.1 h.1.2.2.2⟩
    have fD : is_valid_move board rows cols player_id pr pc (pr + 1) pc = true →
        0 ≤ pr + 1 ∧ 0 ≤ (board (pr + 1) pc).fish := by
      intro h
      rw [is_valid_move_eq_true] at h
      exact ⟨h.1.1, hfish _ _ h.1.1 h.1.2.1 h.1.2.2.1 h.1.2.2.2⟩
    have fL : is_valid_move board rows cols player_id pr pc pr (pc - 1) = true →
        0 ≤ pr ∧ 0 ≤ (board pr (pc - 1)).fish := by
      intro h
      rw [is_valid_move_eq_true] at h
      exact ⟨h.1.1, hfish _ _ h.1.1 h.1.2.1 h.1.2.2.1 h.1.2.2.2⟩
    have fR : is_valid_move board rows cols player_id pr pc pr (pc + 1) = true →
        0 ≤ pr ∧ 0 ≤ (board pr (pc + 1)).fish := by
      intro h
      rw [is_valid_move_eq_true] at h
      exact ⟨h.1.1, hfish _ _ h.1.1 h.1.2.1 h.1.2.2.1 h.1.2.2.2⟩
    cases hU : is_valid_move board rows cols player_id pr pc (pr - 1) pc <;>
    cases hD : is_valid_move board rows cols player_id pr pc (pr + 1) pc <;>
    cases hL : is_valid_move board rows cols player_id pr pc pr (pc - 1) <;>
    cases hR : is_valid_move board rows cols player_id pr pc pr (pc + 1) <;>
    rw [hU] at fU <;> rw [hD] at fD <;> rw [hL] at fL <;> rw [hR] at fR <;>
    simp only [Bool.false_eq_true, if_false, if_true, true_implies, false_implies,
      reduceCtorEq, iff_false, iff_true] at fU fD fL fR ⊢
    all_goals (try split_ifs)
    all_goals (try dsimp only at *)
    all_goals first
      | rfl
      | (exfalso; omega)
      | simp

/-- Claim C10: on a board whose tiles hold 0 to 3 fish, `find_best_adjacent_move` returns
none exactly when `player_can_move` returns 0; hence the turn loop, which asks the AI for
a move only after `player_can_move` returned 1, never takes the branch for an AI without
valid moves. -/
theorem ai_finds_move_iff_can_move (board : Board) (rows cols : Int)
    (hfish : ∀ r c, 0 ≤ r → r < rows → 0 ≤ c → c < cols →
      0 ≤ (board r c).fish ∧ (board r c).fish ≤ 3) :
    (∀ player_id, find_best_adjacent_move board rows cols player_id = none ↔
      player_can_move board rows cols player_id = false) ∧
    (∀ (st : MoveState) (num_players mode : Int) (can_save : Bool) (input : List (List Char)),
      st.board = board →
      (movement_slot rows cols num_players mode can_save st input).event ≠ SlotEvent.ai_no_moves) := by
  have hiff : ∀ player_id, find_best_adjacent_move board rows cols player_id = none ↔
      player_can_move board rows cols player_id = false :=
    fun player_id => find_best_none_iff board rows cols player_id
      (fun r c h1 h2 h3 h4 => (hfish r c h1 h2 h3 h4).1)
  refine ⟨hiff, ?_⟩
  intro st num_players mode can_save input hst
  subst hst
  unfold movement_slot
  simp only []
  split_ifs with h1 h2 h3
  · simp
  · simp
  · split
    · simp
    · split
      · rename_i hnone
        rw [hiff] at hnone
        rw [hnone] at h2
        simp at h2
      · simp
  · split
    · simp
    · split <;> simp

/-- Witness for C10: on the scenario board player 1 can move and the AI finds a move,
player 3 has no piece and neither function succeeds. -/
theorem ai_finds_move_iff_can_move_witness :
    (∀ r c, 0 ≤ r → r < 3 → 0 ≤ c → c < 3 →
      0 ≤ (ex_ai_board r c).fish ∧ (ex_ai_board r c).fish ≤ 3) ∧
    player_can_move ex_ai_board 3 3 1 = true ∧
    find_best_adjacent_move ex_ai_board 3 3 3 = none ∧
    (find_best_adjacent_move ex_ai_board 3 3 1 = none ↔
      player_can_move ex_ai_board 3 3 1 = false) :=
  have hf : ∀ r c, 0 ≤ r → r < 3 → 0 ≤ c → c < 3 →
      0 ≤ (ex_ai_board r c).fish ∧ (ex_ai_board r c).fish ≤ 3 := by
    intro r c h1 h2 h3 h4
    interval_cases r <;> interval_cases c <;> decide
  ⟨hf, by decide, by decide, (ai_finds_move_iff_can_move ex_ai_board 3 3 hf).1 1⟩

/-! ### Steps of the game -/

/-- A successful row-major scan returns a tile inside the grid that passes the test. -/
theorem grid_scan_some (p : Int → Int → Prop) [∀ r c, Decidable (p r c)] (rows cols r c : Int)
    (h : ((upto rows).findSome? fun r => (upto cols).findSome? fun c =>
      if p r c then some (r, c) else none) = some (r, c)) :
    (0 ≤ r ∧ r < rows ∧ 0 ≤ c ∧ c < cols) ∧ p r c := by
  rw [List.findSome?_eq_some_iff] at h
  obtain ⟨l1, r0, l2, hl, hr0, _⟩ := h
  rw [List.findSome?_eq_some_iff] at hr0
  obtain ⟨m1, c0, m2, hm, hc0, _⟩ := hr0
  have hr0mem : r0 ∈ upto rows := by rw [hl]; simp
  have hc0mem : c0 ∈ upto cols := by rw [hm]; simp
  rw [mem_upto] at hr0mem hc0mem
  by_cases hp : p r0 c0
  · rw [if_pos hp] at hc0
    simp only [Option.some.injEq, Prod.mk.injEq] at hc0
    obtain ⟨rfl, rfl⟩ := hc0
    exact ⟨⟨hr0mem.1, hr0mem.2, hc0mem.1, hc0mem.2⟩, hp⟩
  · rw [if_neg hp] at hc0
    cases hc0

/-- The piece found by `find_penguin` is inside the grid and owned by the player. -/
theorem find_penguin_some (board : Board) (rows cols player_id r c : Int)
    (h : find_penguin board rows cols player_id = some (r, c)) :
    (0 ≤ r ∧ r < rows ∧ 0 ≤ c ∧ c < cols) ∧ (board r c).owner = player_id :=
  grid_scan_some (fun r c => (board r c).owner = player_id) rows cols r c h

/-- The tile found by `find_first_placement` is inside the grid, has one fish and no owner. -/
theorem find_first_placement_some (board : Board) (rows cols r c : Int)
    (h : find_first_placement board rows cols = some (r, c)) :
    (0 ≤ r ∧ r < rows ∧ 0 ≤ c ∧ c < cols) ∧ (board r c).fish = 1 ∧ (board r c).owner = 0 :=
  grid_scan_some (fun r c => (board r c).fish = 1 ∧ (board r c).owner = 0) rows cols r c h

/-- A coordinate accepted from a human is inside the grid, has one fish and no owner. -/
theorem human_placement_some (board : Board) (rows cols : Int) :
    ∀ (input : List (Int × Int)) (r c : Int) (rest : List (Int × Int)),
      human_placement board rows cols input = some ((r, c), rest) →
      (0 ≤ r ∧ r < rows ∧ 0 ≤ c ∧ c < cols) ∧ (board r c).fish = 1 ∧ (board r c).owner = 0 := by
  intro input
  induction input with
  | nil => intro r c rest h; simp [human_placement] at h
  | cons x xs ih =>
    intro r c rest h
    obtain ⟨r1, c1⟩ := x
    unfold human_placement at h
    simp only [] at h
    split_ifs at h with h1 h2 h3
    · exact ih r c rest h
    · exact ih r c rest h
    · exact ih r c rest h
    · simp only [Option.some.injEq, Prod.mk.injEq] at h
      obtain ⟨⟨rfl, rfl⟩, _⟩ := h
      simp only [ne_eq, not_not] at h2 h3
      exact ⟨by omega, h2, h3⟩

/-- A placement performed by `placement_phase` targets a tile inside the grid with one
fish and no owner, and its effect is that of `place_penguin`. -/
theorem placement_turn_placed (rows cols : Int) (st : PlaceState) (p : Int)
    (input : List (Int × Int)) (r c : Int)
    (h : (placement_turn rows cols st p input).event = PlaceEvent.placed r c) :
    ((0 ≤ r ∧ r < rows ∧ 0 ≤ c ∧ c < cols) ∧ (st.board r c).fish = 1 ∧ (st.board r c).owner = 0) ∧
      (placement_turn rows cols st p input).state = place_penguin st p r c := by
  unfold placement_turn at h ⊢
  split_ifs at h ⊢ with h1 h2 h3
  · cases hf : find_first_placement st.board rows cols with
    | none => rw [hf] at h; simp at h
    | some pos =>
      obtain ⟨r0, c0⟩ := pos
      rw [hf] at h
      simp only [PlaceEvent.placed.injEq] at h
      obtain ⟨rfl, rfl⟩ := h
      exact ⟨find_first_placement_some st.board rows cols r0 c0 hf, rfl⟩
  · cases hf : human_placement st.board rows cols input with
    | none => rw [hf] at h; simp at h
    | some res =>
      obtain ⟨⟨r0, c0⟩, rest⟩ := res
      rw [hf] at h
      simp only [PlaceEvent.placed.injEq] at h
      obtain ⟨rfl, rfl⟩ := h
      exact ⟨human_placement_some st.board rows cols input r0 c0 rest hf, rfl⟩

/-- A destination accepted from a human satisfies `is_valid_move`. -/
theorem human_move_valid (board : Board) (rows cols : Int) (players : Players)
    (num_players mode turn_index : Int) (active_flags : Flags) (can_save : Bool)
    (id pr pc : Int) : ∀ (input : List (List Char)) (tr tc : Int) (rest : List (List Char)),
      human_move board rows cols players num_players mode turn_index active_flags can_save
        id pr pc input = HumanMove.move tr tc rest →
      is_valid_move board rows cols id pr pc tr tc = true := by
  intro input
  induction input with
  | nil => intro tr tc rest h; simp [human_move] at h
  | cons line lines ih =>
    intro tr tc rest h
    unfold human_move at h
    simp only [] at h
    split at h
    · exact ih tr tc rest h
    · split_ifs at h with h1 h2 h3 h4 h5 h6 h7 h8 h9
      all_goals first
        | exact ih tr tc rest h
        | (simp only [HumanMove.move.injEq] at h
           obtain ⟨rfl, rfl, _⟩ := h
           assumption)

/-- A move applied by `movement_phase` starts at the piece `find_penguin` locates, ends on
a destination satisfying `is_valid_move`, and its effect is that of `apply_move` after
the turn index has advanced. -/
theorem movement_slot_moved (rows cols num_players mode : Int) (can_save : Bool)
    (st : MoveState) (input : List (List Char)) (pr pc tr tc : Int)
    (h : (movement_slot rows cols num_players mode can_save st input).event =
      SlotEvent.moved pr pc tr tc) :
    find_penguin st.board rows cols
        (st.players (Int.tmod st.turn_index num_players)).id = some (pr, pc) ∧
      is_valid_move st.board rows cols
        (st.players (Int.tmod st.turn_index num_players)).id pr pc tr tc = true ∧
      (movement_slot rows cols num_players mode can_save st input).idx =
        Int.tmod st.turn_index num_players ∧
      (movement_slot rows cols num_players mode can_save st input).state =
        apply_move
          { st with turn_index := Int.tmod (Int.tmod st.turn_index num_players + 1) num_players }
          (Int.tmod st.turn_index num_players) pr pc tr tc := by
  unfold movement_slot at h ⊢
  simp only [] at h ⊢
  split_ifs at h ⊢ with h1 h2 h3
  · cases hp : find_penguin st.board rows cols (st.players (Int.tmod st.turn_index num_players)).id with
    | none => rw [hp] at h; simp at h
    | some pos =>
      obtain ⟨pr0, pc0⟩ := pos
      rw [hp] at h
      simp only [] at h ⊢
      cases hb : find_best_adjacent_move st.board rows cols
          (st.players (Int.tmod st.turn_index num_players)).id with
      | none => rw [hb] at h; simp at h
      | some dest =>
        obtain ⟨tr0, tc0⟩ := dest
        rw [hb] at h
        simp only [SlotEvent.moved.injEq] at h
        obtain ⟨rfl, rfl, rfl, rfl⟩ := h
        exact ⟨rfl, (find_best_cases _ _ _ _ _ _ _ _ hp hb).1, rfl, rfl⟩
  · cases hp : find_penguin st.board rows cols (st.players (Int.tmod st.turn_index num_players)).id with
    | none => rw [hp] at h; simp at h
    | some pos =>
      obtain ⟨pr0, pc0⟩ := pos
      rw [hp] at h
      simp only [] at h ⊢
      cases hm : human_move st.board rows cols st.players num_players mode
          (Int.tmod (Int.tmod st.turn_index num_players + 1) num_players) st.active_flags can_save
          (st.players (Int.tmod st.turn_index num_players)).id pr0 pc0 input with
      | quit code saved => rw [hm] at h; simp at h
      | move tr0 tc0 rest =>
        rw [hm] at h
        simp only [SlotEvent.moved.injEq] at h
        obtain ⟨rfl, rfl, rfl, rfl⟩ := h
        exact ⟨rfl, human_move_valid _ _ _ _ _ _ _ _ _ _ _ _ _ _ _ _ hm, rfl, rfl⟩

/-- The board after `apply_move`: the origin is dead water, the destination holds no fish
and belongs to the mover, every other tile is as before. -/
theorem apply_move_board (st : MoveState) (idx pr pc tr tc r c : Int) :
    (apply_move st idx pr pc tr tc).board r c =
      if r = pr ∧ c = pc then ⟨0, 0⟩
      else if r = tr ∧ c = tc then ⟨0, (st.players idx).id⟩
      else st.board r c := by
  unfold apply_move set_tile set_player
  by_cases h1 : r = pr ∧ c = pc
  · simp [h1]
  · by_cases h2 : r = tr ∧ c = tc
    · obtain ⟨rfl, rfl⟩ := h2
      simp [h1]
    · simp [h1, h2]

/-- The players after `apply_move`: the mover gains the fish of the destination. -/
theorem apply_move_players (st : MoveState) (idx pr pc tr tc j : Int) :
    (apply_move st idx pr pc tr tc).players j =
      if j = idx then { st.players idx with score := (st.players idx).score + (st.board tr tc).fish }
      else st.players j := by
  unfold apply_move set_player
  rfl

/-- The board after `place_penguin`: the target holds no fish and belongs to the player. -/
theorem place_penguin_board (st : PlaceState) (p r c r' c' : Int) :
    (place_penguin st p r c).board r' c' =
      if r' = r ∧ c' = c then ⟨0, (st.players p).id⟩ else st.board r' c' := by
  unfold place_penguin set_tile set_player
  by_cases h1 : r' = r ∧ c' = c
  · simp [h1]
  · simp [h1]

/-- The players after `place_penguin`: the player gains the fish of the target and has one
placement fewer. -/
theorem place_penguin_players (st : PlaceState) (p r c j : Int) :
    (place_penguin st p r c).players j =
      if j = p then
        { st.players p with
          score := (st.players p).score + (st.board r c).fish, left := (st.players p).left - 1 }
      else st.players j := by
  unfold place_penguin set_player
  by_cases h1 : j = p
  · simp [h1]
  · simp [h1]

/-- What a step of the game does to a tile: it leaves the tile as it is, or the tile is
inside the grid, has no fish afterwards, and is dead water afterwards if it was before. -/
theorem game_step_tile (rows cols num_players mode : Int) (s s' : PlaceState)
    (h : GameStep rows cols num_players mode s s') (r c : Int) :
    s'.board r c = s.board r c ∨
      ((0 ≤ r ∧ r < rows ∧ 0 ≤ c ∧ c < cols) ∧ (s'.board r c).fish = 0 ∧
        ((s.board r c).fish = 0 ∧ (s.board r c).owner = 0 →
          (s'.board r c).fish = 0 ∧ (s'.board r c).owner = 0)) := by
  cases h with
  | placement st p input r0 c0 hev =>
    obtain ⟨⟨hin, hfish, _⟩, hst⟩ := placement_turn_placed rows cols s p input r0 c0 hev
    rw [hst, place_penguin_board]
    by_cases h1 : r = r0 ∧ c = c0
    · right
      obtain ⟨rfl, rfl⟩ := h1
      simp only [and_self, if_true, true_and]
      refine ⟨hin, ?_⟩
      intro hd
      rw [hd.1] at hfish
      exact absurd hfish (by decide)
    · left
      rw [if_neg h1]
  | move st can_save input pr pc tr tc hev =>
    obtain ⟨hp, hv, _, hst⟩ := movement_slot_moved rows cols num_players mode can_save st input
      pr pc tr tc hev
    rw [hst]
    show (apply_move _ _ pr pc tr tc).board r c = st.board r c ∨ _ ∧
      ((apply_move _ _ pr pc tr tc).board r c).fish = 0 ∧ (_ →
      ((apply_move _ _ pr pc tr tc).board r c).fish = 0 ∧
      ((apply_move _ _ pr pc tr tc).board r c).owner = 0)
    rw [apply_move_board]
    by_cases h1 : r = pr ∧ c = pc
    · right
      rw [if_pos h1]
      obtain ⟨rfl, rfl⟩ := h1
      exact ⟨(find_penguin_some _ _ _ _ _ _ hp).1, rfl, fun _ => ⟨rfl, rfl⟩⟩
    · rw [if_neg h1]
      by_cases h2 : r = tr ∧ c = tc
      · right
        rw [if_pos h2]
        obtain ⟨rfl, rfl⟩ := h2
        rw [is_valid_move_eq_true] at hv
        refine ⟨hv.1, rfl, ?_⟩
        intro hd
        exact absurd hd hv.2.2.1
      · left
        rw [if_neg h2]

/-- Claim C5: dead-water monotonicity.  Across any sequence of game steps (placements of
`placement_phase` and applied moves of `movement_phase`), a tile that has no fish and no
owner before still has no fish and no owner afterwards. -/
theorem dead_water_stays_dead (rows cols num_players mode : Int) (s s' : PlaceState)
    (h : Relation.ReflTransGen (GameStep rows cols num_players mode) s s') (r c : Int)
    (hd : (s.board r c).fish = 0 ∧ (s.board r c).owner = 0) :
    (s'.board r c).fish = 0 ∧ (s'.board r c).owner = 0 := by
  induction h with
  | refl => exact hd
  | tail _ hstep ih =>
    rcases game_step_tile rows cols num_players mode _ _ hstep r c with heq | ⟨_, _, himp⟩
    · rw [heq]
      exact ih
    · exact himp ih

/-- Witness for C5: on the scenario board the AI moves right; the dead water below the
piece is dead water before and after the move. -/
theorem dead_water_stays_dead_witness :
    ((ex_move_state.board 2 1).fish = 0 ∧ (ex_move_state.board 2 1).owner = 0) ∧
    (movement_slot 3 3 2 1 true ex_move_state []).event = SlotEvent.moved 1 1 1 2 ∧
    (((movement_slot 3 3 2 1 true ex_move_state []).state.board 2 1).fish = 0 ∧
      ((movement_slot 3 3 2 1 true ex_move_state []).state.board 2 1).owner = 0) :=
  ⟨by decide, by decide,
    dead_water_stays_dead 3 3 2 1 ⟨ex_move_state.board, ex_move_state.players⟩
      ⟨(movement_slot 3 3 2 1 true ex_move_state []).state.board,
        (movement_slot 3 3 2 1 true ex_move_state []).state.players⟩
      (Relation.ReflTransGen.single (GameStep.move ex_move_state true [] 1 1 1 2 (by decide)))
      2 1 (by decide)⟩

/-- The total is monotone in the fish of the tiles inside the grid. -/
theorem total_fish_mono (b b' : Board) (rows cols : Int)
    (h : ∀ r c, 0 ≤ r → r < rows → 0 ≤ c → c < cols → (b' r c).fish ≤ (b r c).fish) :
    total_fish b' rows cols ≤ total_fish b rows cols := by
  unfold total_fish
  apply List.sum_le_sum
  intro r hr
  apply List.sum_le_sum
  intro c hc
  rw [mem_upto] at hr hc
  exact h r c hr.1 hr.2 hc.1 hc.2

/-- A step of the game keeps the fish of every tile inside the grid between 0 and 3 and
raises the fish of no tile. -/
theorem game_step_fish (rows cols num_players mode : Int) (s s' : PlaceState)
    (h : GameStep rows cols num_players mode s s')
    (hinv : ∀ r c, 0 ≤ r → r < rows → 0 ≤ c → c < cols →
      0 ≤ (s.board r c).fish ∧ (s.board r c).fish ≤ 3) :
    (∀ r c, 0 ≤ r → r < rows → 0 ≤ c → c < cols →
      0 ≤ (s'.board r c).fish ∧ (s'.board r c).fish ≤ 3) ∧
    (∀ r c, 0 ≤ r → r < rows → 0 ≤ c → c < cols → (s'.board r c).fish ≤ (s.board r c).fish) := by
  constructor
  · intro r c h1 h2 h3 h4
    rcases game_step_tile rows cols num_players mode s s' h r c with heq | ⟨_, hz, _⟩
    · rw [heq]
      exact hinv r c h1 h2 h3 h4
    · rw [hz]
      exact ⟨le_refl _, by decide⟩
  · intro r c h1 h2 h3 h4
    rcases game_step_tile rows cols num_players mode s s' h r c with heq | ⟨_, hz, _⟩
    · rw [heq]
    · rw [hz]
      exact (hinv r c h1 h2 h3 h4).1

/-- Every state reached from an initialised board keeps the fish of every tile inside the
grid between 0 and 3, and its total is at most the initial total. -/
theorem reachable_fish (rows cols num_players mode : Int) (s0 s : PlaceState)
    (hinit : ∀ r c, 0 ≤ r → r < rows → 0 ≤ c → c < cols →
      (0 ≤ (s0.board r c).fish ∧ (s0.board r c).fish ≤ 3) ∧ (s0.board r c).owner = 0)
    (h : Relation.ReflTransGen (GameStep rows cols num_players mode) s0 s) :
    (∀ r c, 0 ≤ r → r < rows → 0 ≤ c → c < cols →
      0 ≤ (s.board r c).fish ∧ (s.board r c).fish ≤ 3) ∧
    total_fish s.board rows cols ≤ total_fish s0.board rows cols := by
  induction h with
  | refl => exact ⟨fun r c h1 h2 h3 h4 => (hinit r c h1 h2 h3 h4).1, le_refl _⟩
  | tail _ hstep ih =>
    obtain ⟨hinv, hle⟩ := game_step_fish rows cols num_players mode _ _ hstep ih.1
    exact ⟨hinv, le_trans (total_fish_mono _ _ rows cols hle) ih.2⟩

/-- Claim C7: in a game started from an initialised board (every tile has 0 to 3 fish and
owner 0) the total of the fish on the board never increases: every placement and every
applied move leaves a total at most the total before that step, hence at most the
initial total. -/
theorem total_fish_never_increases (rows cols num_players mode : Int) (s0 s s' : PlaceState)
    (hinit : ∀ r c, 0 ≤ r → r < rows → 0 ≤ c → c < cols →
      (0 ≤ (s0.board r c).fish ∧ (s0.board r c).fish ≤ 3) ∧ (s0.board r c).owner = 0)
    (hreach : Relation.ReflTransGen (GameStep rows cols num_players mode) s0 s)
    (hstep : GameStep rows cols num_players mode s s') :
    total_fish s'.board rows cols ≤ total_fish s.board rows cols ∧
      total_fish s'.board rows cols ≤ total_fish s0.board rows cols := by
  obtain ⟨hinv, hle0⟩ := reachable_fish rows cols num_players mode s0 s hinit hreach
  obtain ⟨_, hle⟩ := game_step_fish rows cols num_players mode s s' hstep hinv
  have h1 := total_fish_mono _ _ rows cols hle
  exact ⟨h1, le_trans h1 hle0⟩

/-- Witness for C7: on an initialised 2 x 2 board holding 7 fish the AI places first and
the human second; the total goes from 7 to 6 to 5. -/
theorem total_fish_never_increases_witness :
    total_fish ex_place_state.board 2 2 = 7 ∧
    total_fish (placement_turn 2 2 ex_place_state 0 []).state.board 2 2 = 6 ∧
    total_fish (placement_turn 2 2 (placement_turn 2 2 ex_place_state 0 []).state 1
      [(2, 1)]).state.board 2 2 = 5 ∧
    (total_fish (placement_turn 2 2 (placement_turn 2 2 ex_place_state 0 []).state 1
        [(2, 1)]).state.board 2 2 ≤
      total_fish (placement_turn 2 2 ex_place_state 0 []).state.board 2 2 ∧
    total_fish (placement_turn 2 2 (placement_turn 2 2 ex_place_state 0 []).state 1
        [(2, 1)]).state.board 2 2 ≤
      total_fish ex_place_state.board 2 2) :=
  ⟨by decide, by decide, by decide,
    total_fish_never_increases 2 2 2 1 ex_place_state
      (placement_turn 2 2 ex_place_state 0 []).state
      (placement_turn 2 2 (placement_turn 2 2 ex_place_state 0 []).state 1 [(2, 1)]).state
      (by
        intro r c h1 h2 h3 h4
        interval_cases r <;> interval_cases c <;> decide)
      (Relation.ReflTransGen.single (GameStep.placement ex_place_state 0 [] 0 0 (by decide)))
      (GameStep.placement (placement_turn 2 2 ex_place_state 0 []).state 1 [(2, 1)] 1 0
        (by decide))⟩

/-! ### The turn order -/

/-- Every slot is taken at `turn_index % num_players` and leaves `turn_index` one slot
further, whatever happens in the slot. -/
theorem movement_slot_turn (rows cols num_players mode : Int) (can_save : Bool)
    (st : MoveState) (input : List (List Char)) :
    (movement_slot rows cols num_players mode can_save st input).idx =
        Int.tmod st.turn_index num_players ∧
      (movement_slot rows cols num_players mode can_save st input).state.turn_index =
        Int.tmod (Int.tmod st.turn_index num_players + 1) num_players := by
  unfold movement_slot
  simp only []
  split_ifs
  · exact ⟨rfl, rfl⟩
  · exact ⟨rfl, rfl⟩
  · split
    · exact ⟨rfl, rfl⟩
    · split <;> exact ⟨rfl, rfl⟩
  · split
    · exact ⟨rfl, rfl⟩
    · split <;> exact ⟨rfl, rfl⟩

/-- Advancing by one slot and then by `k` slots is advancing by `k + 1` slots. -/
theorem emod_succ_add (t n : Int) (k : Nat) :
    ((t + 1) % n + (k : Int)) % n = (t + ((k + 1 : Nat) : Int)) % n := by
  rw [Int.emod_add_emod]
  congr 1
  push_cast
  ring

/-- The slots of a pass are visited in cyclic order from the turn index, each visit
advancing the turn index by one slot. -/
theorem movement_pass_loop_visits (rows cols num_players mode : Int) (can_save : Bool)
    (hnp : 0 < num_players) : ∀ (n : Nat) (st : MoveState) (input : List (List Char)),
    0 ≤ st.turn_index →
    (movement_pass_loop rows cols num_players mode can_save n st input).visits.length ≤ n ∧
    (∀ (k : Nat) (v : Visit),
      (movement_pass_loop rows cols num_players mode can_save n st input).visits[k]? = some v →
        v.idx = (st.turn_index + (k : Int)) % num_players ∧
        v.turn_index = (st.turn_index + ((k + 1 : Nat) : Int)) % num_players) ∧
    ((movement_pass_loop rows cols num_players mode can_save n st input).visits.length ≠ 0 →
      (movement_pass_loop rows cols num_players mode can_save n st input).state.turn_index =
        (st.turn_index + ((movement_pass_loop rows cols num_players mode can_save n st
          input).visits.length : Int)) % num_players) := by
  intro n
  induction n with
  | zero =>
    intro st input _
    simp [movement_pass_loop]
  | succ n ih =>
    intro st input ht
    obtain ⟨hidx, hturn⟩ := movement_slot_turn rows cols num_players mode can_save st input
    have h1 : Int.tmod st.turn_index num_players = st.turn_index % num_players :=
      Int.tmod_eq_emod ht (le_of_lt hnp)
    have h1nn : 0 ≤ st.turn_index % num_players := Int.emod_nonneg _ (ne_of_gt hnp)
    have h2 : Int.tmod (st.turn_index % num_players + 1) num_players =
        (st.turn_index + 1) % num_players := by
      rw [Int.tmod_eq_emod (by omega) (le_of_lt hnp), Int.emod_add_emod]
    rw [h1] at hidx hturn
    rw [h2] at hturn
    have hnn : 0 ≤ (movement_slot rows cols num_players mode can_save st input).state.turn_index := by
      rw [hturn]
      exact Int.emod_nonneg _ (ne_of_gt hnp)
    unfold movement_pass_loop
    simp only []
    split_ifs with hstop
    · refine ⟨by simp, ?_, ?_⟩
      · intro k v hk
        cases k with
        | zero =>
          simp only [List.getElem?_cons_zero, Option.some.injEq] at hk
          subst hk
          simp only [hidx, hturn]
          simp
        | succ k => simp at hk
      · intro _
        simp only [List.length_singleton, hturn]
        simp
    · obtain ⟨hlen, hvis, hfin⟩ := ih
        (movement_slot rows cols num_players mode can_save st input).state
        (movement_slot rows cols num_players mode can_save st input).input hnn
      refine ⟨by simp only [List.length_cons]; omega, ?_, ?_⟩
      · intro k v hk
        cases k with
        | zero =>
          simp only [List.getElem?_cons_zero, Option.some.injEq] at hk
          subst hk
          simp only [hidx, hturn]
          simp
        | succ k =>
          simp only [List.getElem?_cons_succ] at hk
          obtain ⟨e1, e2⟩ := hvis k v hk
          rw [hturn] at e1 e2
          rw [e1, e2, emod_succ_add, emod_succ_add]
          exact ⟨rfl, rfl⟩
      · intro _
        simp only [List.length_cons]
        by_cases hz : (movement_pass_loop rows cols num_players mode can_save n
            (movement_slot rows cols num_players mode can_save st input).state
            (movement_slot rows cols num_players mode can_save st input).input).visits.length = 0
        · have hnil := List.length_eq_zero.mp hz
          have hstate : (movement_pass_loop rows cols num_players mode can_save n
              (movement_slot rows cols num_players mode can_save st input).state
              (movement_slot rows cols num_players mode can_save st input).input).state =
              (movement_slot rows cols num_players mode can_save st input).state := by
            cases n with
            | zero => rfl
            | succ m =>
              exfalso
              revert hz
              unfold movement_pass_loop
              simp only []
              split_ifs <;> simp
          rw [hstate, hturn, hz]
          simp
        · rw [hfin hz, hturn, emod_succ_add]

/-- The slot indices `(t + k) % n` for `k < n` are the slots `0 .. n-1` in another order. -/
theorem cyclic_slots_perm (t n : Int) (hn : 0 < n) :
    ((List.range n.toNat).map fun (k : Nat) => (t + (k : Int)) % n).Perm (upto n) := by
  rw [List.perm_ext_iff_of_nodup]
  · intro a
    rw [mem_upto]
    simp only [List.mem_map, List.mem_range]
    constructor
    · rintro ⟨k, _, rfl⟩
      exact ⟨Int.emod_nonneg _ (ne_of_gt hn), Int.emod_lt_of_pos _ hn⟩
    · rintro ⟨h0, hlt⟩
      have hk0 : 0 ≤ (a - t) % n := Int.emod_nonneg _ (ne_of_gt hn)
      have hk1 : (a - t) % n < n := Int.emod_lt_of_pos _ hn
      refine ⟨((a - t) % n).toNat, by omega, ?_⟩
      rw [Int.toNat_of_nonneg hk0, Int.add_emod, Int.emod_emod, ← Int.add_emod]
      have : t + (a - t) = a := by ring
      rw [this]
      exact Int.emod_eq_of_lt h0 hlt
  · apply List.Nodup.map_on _ (List.nodup_range _)
    intro x hx y hy hxy
    rw [List.mem_range] at hx hy
    rw [Int.emod_eq_emod_iff_emod_sub_eq_zero] at hxy
    have hdvd : n ∣ (t + (x : Int)) - (t + (y : Int)) := Int.dvd_of_emod_eq_zero hxy
    have hz : (t + (x : Int)) - (t + (y : Int)) = 0 := by
      apply Int.eq_zero_of_abs_lt_dvd hdvd
      rw [abs_lt]
      constructor <;> omega
    omega
  · unfold upto
    exact List.Nodup.map (fun a b h => by simpa using h) (List.nodup_range _)

/-- Claim C8: in a pass of the turn loop that processes all N slots, the k-th visit is
slot `(turn_index + k) % N` and leaves `turn_index` at the next slot, whatever happens in
the visit; the visited slots are the slots `0 .. N-1`, each exactly once; and after the
pass `turn_index` is its value before the pass modulo N. -/
theorem movement_pass_round_robin (rows cols num_players mode : Int) (can_save : Bool)
    (st : MoveState) (input : List (List Char)) (hnp : 0 < num_players)
    (ht : 0 ≤ st.turn_index)
    (hfull : (movement_pass rows cols num_players mode can_save st input).visits.length =
      num_players.toNat) :
    (∀ k : Nat, k < num_players.toNat →
      ∃ v, (movement_pass rows cols num_players mode can_save st input).visits[k]? = some v ∧
        v.idx = (st.turn_index + (k : Int)) % num_players ∧
        v.turn_index = (st.turn_index + (k : Int) + 1) % num_players) ∧
    ((movement_pass rows cols num_players mode can_save st input).visits.map Visit.idx).Perm
      (upto num_players) ∧
    (movement_pass rows cols num_players mode can_save st input).state.turn_index =
      st.turn_index % num_players := by
  unfold movement_pass at hfull ⊢
  obtain ⟨_, hvis, hfin⟩ := movement_pass_loop_visits rows cols num_players mode can_save hnp
    num_players.toNat { st with any_move := 0 } input ht
  have hpos : num_players.toNat ≠ 0 := by omega
  have hvis2 : ∀ k : Nat, k < num_players.toNat →
      ∃ v, (movement_pass_loop rows cols num_players mode can_save num_players.toNat
          { st with any_move := 0 } input).visits[k]? = some v ∧
        v.idx = (st.turn_index + (k : Int)) % num_players ∧
        v.turn_index = (st.turn_index + (k : Int) + 1) % num_players := by
    intro k hk
    have hlt : k < (movement_pass_loop rows cols num_players mode can_save num_players.toNat
        { st with any_move := 0 } input).visits.length := by rw [hfull]; exact hk
    refine ⟨_, List.getElem?_eq_getElem hlt, ?_⟩
    have := hvis k _ (List.getElem?_eq_getElem hlt)
    refine ⟨this.1, ?_⟩
    rw [this.2]
    push_cast
    rw [add_assoc]
  refine ⟨hvis2, ?_, ?_⟩
  · have hlist : (movement_pass_loop rows cols num_players mode can_save num_players.toNat
        { st with any_move := 0 } input).visits.map Visit.idx =
        (List.range num_players.toNat).map fun (k : Nat) => (st.turn_index + (k : Int)) % num_players := by
      apply List.ext_getElem?
      intro k
      by_cases hk : k < num_players.toNat
      · obtain ⟨v, hv, hidx, _⟩ := hvis2 k hk
        rw [List.getElem?_map, hv, List.getElem?_map, List.getElem?_range hk]
        simp only [Option.map_some', hidx]
      · rw [List.getElem?_eq_none (by rw [List.length_map, hfull]; omega),
          List.getElem?_eq_none (by rw [List.length_map, List.length_range]; omega)]
    rw [hlist]
    exact cyclic_slots_perm st.turn_index num_players hnp
  · rw [hfin (by rw [hfull]; exact hpos), hfull, Int.toNat_of_nonneg (le_of_lt hnp)]
    exact Int.add_emod_self

/-- Witness for C8: a pass of two slots from turn index 0; the AI in slot 0 moves, the
human in slot 1 answers W; the visits are slots 0 and 1 and the turn index is 0 again. -/
theorem movement_pass_round_robin_witness :
    (movement_pass 3 3 2 1 true ex_move_state [['w', '\n']]).visits.length = 2 ∧
    (movement_pass 3 3 2 1 true ex_move_state [['w', '\n']]).visits.map Visit.idx = [0, 1] ∧
    ((∀ k : Nat, k < (2 : Int).toNat →
      ∃ v, (movement_pass 3 3 2 1 true ex_move_state [['w', '\n']]).visits[k]? = some v ∧
        v.idx = (ex_move_state.turn_index + (k : Int)) % 2 ∧
        v.turn_index = (ex_move_state.turn_index + (k : Int) + 1) % 2) ∧
    ((movement_pass 3 3 2 1 true ex_move_state [['w', '\n']]).visits.map Visit.idx).Perm
      (upto 2) ∧
    (movement_pass 3 3 2 1 true ex_move_state [['w', '\n']]).state.turn_index =
      ex_move_state.turn_index % 2) :=
  ⟨by decide, by decide,
    movement_pass_round_robin 3 3 2 1 true ex_move_state [['w', '\n']] (by decide) (by decide)
      (by decide)⟩

/-! ### Row-major scans -/

/-- In the index list of a loop, every index below `a` comes before `a`. -/
theorem upto_before (n a x : Int) (l1 l2 : List Int) (h : upto n = l1 ++ a :: l2)
    (hx : x ∈ upto n) (hlt : x < a) : x ∈ l1 := by
  have hp : (upto n).Pairwise (· < ·) := by
    unfold upto
    rw [List.pairwise_map]
    exact (List.pairwise_lt_range n.toNat).imp (fun h => by
      show ((_ : Nat) : Int) < ((_ : Nat) : Int)
      exact_mod_cast h)
  rw [h] at hp hx
  rw [List.pairwise_append] at hp
  obtain ⟨_, hp2, _⟩ := hp
  rw [List.pairwise_cons] at hp2
  rcases List.mem_append.mp hx with h1 | h1
  · exact h1
  · rcases List.mem_cons.mp h1 with h2 | h2
    · omega
    · have := hp2.1 x h2
      omega

/-- A successful row-major scan returns the first tile that passes the test: no tile
before it in row-major order passes. -/
theorem grid_scan_first (p : Int → Int → Prop) [∀ r c, Decidable (p r c)] (rows cols r c : Int)
    (h : ((upto rows).findSome? fun r => (upto cols).findSome? fun c =>
      if p r c then some (r, c) else none) = some (r, c)) :
    ∀ r' c', 0 ≤ r' → r' < rows → 0 ≤ c' → c' < cols → (r' < r ∨ (r' = r ∧ c' < c)) →
      ¬ p r' c' := by
  rw [List.findSome?_eq_some_iff] at h
  obtain ⟨l1, r0, l2, hl, hr0, hbefore⟩ := h
  rw [List.findSome?_eq_some_iff] at hr0
  obtain ⟨m1, c0, m2, hm, hc0, hcbefore⟩ := hr0
  have hrc : r0 = r ∧ c0 = c := by
    by_cases hp : p r0 c0
    · rw [if_pos hp] at hc0
      simpa using hc0
    · rw [if_neg hp] at hc0
      cases hc0
  obtain ⟨rfl, rfl⟩ := hrc
  intro r' c' h1 h2 h3 h4 hlt hp
  have hr'mem : r' ∈ upto rows := (mem_upto _ _).2 ⟨h1, h2⟩
  have hc'mem : c' ∈ upto cols := (mem_upto _ _).2 ⟨h3, h4⟩
  rcases hlt with hlt | ⟨rfl, hlt⟩
  · have hin := upto_before rows r0 r' l1 l2 hl hr'mem hlt
    have hnone := hbefore r' hin
    rw [List.findSome?_eq_none_iff] at hnone
    have := hnone c' hc'mem
    rw [if_pos hp] at this
    cases this
  · have hin := upto_before cols c0 c' m1 m2 hm hc'mem hlt
    have := hcbefore c' hin
    rw [if_pos hp] at this
    cases this

/-- A row-major scan fails exactly when no tile inside the grid passes the test. -/
theorem grid_scan_none (p : Int → Int → Prop) [∀ r c, Decidable (p r c)] (rows cols : Int) :
    ((upto rows).findSome? fun r => (upto cols).findSome? fun c =>
      if p r c then some (r, c) else none) = none ↔
    ∀ r c, 0 ≤ r → r < rows → 0 ≤ c → c < cols → ¬ p r c := by
  rw [List.findSome?_eq_none_iff]
  constructor
  · intro h r c h1 h2 h3 h4 hp
    have := h r ((mem_upto _ _).2 ⟨h1, h2⟩)
    rw [List.findSome?_eq_none_iff] at this
    have := this c ((mem_upto _ _).2 ⟨h3, h4⟩)
    rw [if_pos hp] at this
    cases this
  · intro h r hr
    rw [List.findSome?_eq_none_iff]
    intro c hc
    rw [mem_upto] at hr hc
    rw [if_neg (h r c hr.1 hr.2 hc.1 hc.2)]

/-- Claim C11: `find_first_placement` returns the first tile in row-major order with one
fish and no owner (the tile qualifies, lies inside the grid, and no tile before it in
row-major order qualifies), and it returns none exactly when no tile of the board has one
fish and no owner. -/
theorem find_first_placement_spec (board : Board) (rows cols : Int) :
    (∀ r c, find_first_placement board rows cols = some (r, c) →
      (0 ≤ r ∧ r < rows ∧ 0 ≤ c ∧ c < cols) ∧
      ((board r c).fish = 1 ∧ (board r c).owner = 0) ∧
      ∀ r' c', 0 ≤ r' → r' < rows → 0 ≤ c' → c' < cols → (r' < r ∨ (r' = r ∧ c' < c)) →
        ¬ ((board r' c').fish = 1 ∧ (board r' c').owner = 0)) ∧
    (find_first_placement board rows cols = none ↔
      ∀ r c, 0 ≤ r → r < rows → 0 ≤ c → c < cols →
        ¬ ((board r c).fish = 1 ∧ (board r c).owner = 0)) := by
  constructor
  · intro r c h
    have h1 := grid_scan_some (fun r c => (board r c).fish = 1 ∧ (board r c).owner = 0)
      rows cols r c h
    exact ⟨h1.1, h1.2,
      grid_scan_first (fun r c => (board r c).fish = 1 ∧ (board r c).owner = 0) rows cols r c h⟩
  · exact grid_scan_none (fun r c => (board r c).fish = 1 ∧ (board r c).owner = 0) rows cols

/-- Claim C12: `find_penguin` returns the first tile in row-major order whose owner is
`player_id` (the tile lies inside the grid and no tile before it in row-major order has
that owner), and it reports not-found exactly when no tile is owned by `player_id`. -/
theorem find_penguin_spec (board : Board) (rows cols player_id : Int) :
    (∀ r c, find_penguin board rows cols player_id = some (r, c) →
      (0 ≤ r ∧ r < rows ∧ 0 ≤ c ∧ c < cols) ∧ (board r c).owner = player_id ∧
      ∀ r' c', 0 ≤ r' → r' < rows → 0 ≤ c' → c' < cols → (r' < r ∨ (r' = r ∧ c' < c)) →
        (board r' c').owner ≠ player_id) ∧
    (find_penguin board rows cols player_id = none ↔
      ∀ r c, 0 ≤ r → r < rows → 0 ≤ c → c < cols → (board r c).owner ≠ player_id) := by
  constructor
  · intro r c h
    have h1 := grid_scan_some (fun r c => (board r c).owner = player_id) rows cols r c h
    exact ⟨h1.1, h1.2,
      grid_scan_first (fun r c => (board r c).owner = player_id) rows cols r c h⟩
  · exact grid_scan_none (fun r c => (board r c).owner = player_id) rows cols

/-- Claim C13: `player_can_move` returns 1 exactly when `find_penguin` locates a piece of
the player at some `(r, c)` and one of the neighbours `(r-1, c)`, `(r+1, c)`, `(r, c-1)`,
`(r, c+1)` satisfies `is_valid_move` from `(r, c)`; it returns 0 for a player without a
piece on the board. -/
theorem player_can_move_iff (board : Board) (rows cols player_id : Int) :
    (player_can_move board rows cols player_id = true ↔
      ∃ r c, find_penguin board rows cols player_id = some (r, c) ∧
        (is_valid_move board rows cols player_id r c (r - 1) c = true ∨
          is_valid_move board rows cols player_id r c (r + 1) c = true ∨
          is_valid_move board rows cols player_id r c r (c - 1) = true ∨
          is_valid_move board rows cols player_id r c r (c + 1) = true)) ∧
    (find_penguin board rows cols player_id = none →
      player_can_move board rows cols player_id = false) := by
  unfold player_can_move
  cases hp : find_penguin board rows cols player_id with
  | none => simp
  | some pos =>
    obtain ⟨r, c⟩ := pos
    simp only [Option.some.injEq, Prod.mk.injEq, reduceCtorEq, false_implies, and_true]
    constructor
    · intro h
      refine ⟨r, c, ⟨rfl, rfl⟩, ?_⟩
      split_ifs at h with h1 h2 h3 h4
      · exact Or.inl h1
      · exact Or.inr (Or.inl h2)
      · exact Or.inr (Or.inr (Or.inl h3))
      · exact Or.inr (Or.inr (Or.inr h4))
    · rintro ⟨r', c', ⟨rfl, rfl⟩, h⟩
      split_ifs with h1 h2 h3 h4
      · rfl
      · rfl
      · rfl
      · rfl
      · rcases h with h | h | h | h <;> contradiction

/-- Claim C14: `can_place` returns 1 exactly when some tile of the board has one fish and
no owner. -/
theorem can_place_iff (board : Board) (rows cols : Int) :
    can_place board rows cols = true ↔
      ∃ r c, (0 ≤ r ∧ r < rows ∧ 0 ≤ c ∧ c < cols) ∧
        (board r c).fish = 1 ∧ (board r c).owner = 0 := by
  unfold can_place
  simp only [List.any_eq_true, decide_eq_true_eq]
  constructor
  · rintro ⟨r, hr, c, hc, h⟩
    rw [mem_upto] at hr hc
    exact ⟨r, c, ⟨hr.1, hr.2, hc.1, hc.2⟩, h⟩
  · rintro ⟨r, c, ⟨h1, h2, h3, h4⟩, h⟩
    exact ⟨r, (mem_upto _ _).2 ⟨h1, h2⟩, c, (mem_upto _ _).2 ⟨h3, h4⟩, h⟩

/-! ### Effect of a move, and invalid input -/

/-- Claim C16: a move applied in the movement phase starts at the piece of the mover found
by `find_penguin` and ends on the validated destination; afterwards the destination has
no fish and belongs to the mover, the origin has no fish and no owner, and every other
tile is unchanged. -/
theorem move_updates_tiles (rows cols num_players mode : Int) (can_save : Bool)
    (st : MoveState) (input : List (List Char)) (pr pc tr tc : Int)
    (h : (movement_slot rows cols num_players mode can_save st input).event =
      SlotEvent.moved pr pc tr tc) :
    find_penguin st.board rows cols
        (st.players (movement_slot rows cols num_players mode can_save st input).idx).id
        = some (pr, pc) ∧
    is_valid_move st.board rows cols
        (st.players (movement_slot rows cols num_players mode can_save st input).idx).id
        pr pc tr tc = true ∧
    (movement_slot rows cols num_players mode can_save st input).state.board tr tc =
      ⟨0, (st.players (movement_slot rows cols num_players mode can_save st input).idx).id⟩ ∧
    (movement_slot rows cols num_players mode can_save st input).state.board pr pc = ⟨0, 0⟩ ∧
    ∀ r c, ¬ (r = pr ∧ c = pc) → ¬ (r = tr ∧ c = tc) →
      (movement_slot rows cols num_players mode can_save st input).state.board r c =
        st.board r c := by
  obtain ⟨hp, hv, hidx, hst⟩ := movement_slot_moved rows cols num_players mode can_save st input
    pr pc tr tc h
  rw [hst, hidx]
  have hne : ¬ (tr = pr ∧ tc = pc) := by
    have := (is_valid_move_eq_true _ _ _ _ _ _ _ _).1 hv
    omega
  refine ⟨hp, hv, ?_, ?_, ?_⟩
  · rw [apply_move_board, if_neg hne, if_pos ⟨rfl, rfl⟩]
  · rw [apply_move_board, if_pos ⟨rfl, rfl⟩]
  · intro r c h1 h2
    rw [apply_move_board, if_neg h1, if_neg h2]

/-- Witness for C16: on the scenario board the AI moves from the centre to the right. -/
theorem move_updates_tiles_witness :
    (movement_slot 3 3 2 1 true ex_move_state []).event = SlotEvent.moved 1 1 1 2 ∧
    (movement_slot 3 3 2 1 true ex_move_state []).state.board 1 2 = ⟨0, 1⟩ ∧
    (movement_slot 3 3 2 1 true ex_move_state []).state.board 1 1 = ⟨0, 0⟩ ∧
    ∀ r c, ¬ (r = 1 ∧ c = 1) → ¬ (r = 1 ∧ c = 2) →
      (movement_slot 3 3 2 1 true ex_move_state []).state.board r c = ex_move_state.board r c :=
  ⟨by decide,
    (move_updates_tiles 3 3 2 1 true ex_move_state [] 1 1 1 2 (by decide)).2.2.1,
    (move_updates_tiles 3 3 2 1 true ex_move_state [] 1 1 1 2 (by decide)).2.2.2.1,
    (move_updates_tiles 3 3 2 1 true ex_move_state [] 1 1 1 2 (by decide)).2.2.2.2⟩

/-- An invalid coordinate pair is dropped by the placement input loop. -/
theorem human_placement_invalid (board : Board) (rows cols : Int) (x : Int × Int)
    (rest : List (Int × Int)) (h : invalid_placement board rows cols x) :
    human_placement board rows cols (x :: rest) = human_placement board rows cols rest := by
  obtain ⟨r1, c1⟩ := x
  unfold invalid_placement at h
  rw [human_placement]
  split_ifs with h1 h2 h3
  · rfl
  · rfl
  · rfl
  · exfalso
    rcases h with h | h | h
    · exact h1 h
    · exact h2 h
    · exact h3 h

/-- An invalid input line is dropped by the movement input loop. -/
theorem human_move_invalid (board : Board) (rows cols : Int) (players : Players)
    (num_players mode turn_index : Int) (active_flags : Flags) (can_save : Bool)
    (id pr pc : Int) (line : List Char) (rest : List (List Char))
    (h : invalid_command board rows cols id pr pc line) :
    human_move board rows cols players num_players mode turn_index active_flags can_save
        id pr pc (line :: rest) =
      human_move board rows cols players num_players mode turn_index active_flags can_save
        id pr pc rest := by
  unfold invalid_command at h
  rw [human_move]
  simp only []
  cases hc : command_of line with
  | none => rfl
  | some cmd =>
    have h := h cmd (by rw [hc]; rfl)
    simp only []
    rcases h with ⟨rfl, hv⟩ | ⟨rfl, hv⟩ | ⟨rfl, hv⟩ | ⟨rfl, hv⟩ | ⟨h1, h2, h3, h4, h5⟩
    · simp [hv]
    · simp [hv]
    · simp [hv]
    · simp [hv]
    · simp [h1, h2, h3, h4, h5]

/-- Claim C17: a semantically invalid human input causes no state mutation.  In the
placement phase an out-of-bounds coordinate, a tile without exactly one fish or an
occupied tile, and in the movement phase a direction whose destination fails
`is_valid_move` or an unrecognised command, is dropped: the turn goes on from the same
board, players, turn index and active flags with the same player prompted for the next
input, so its outcome is that of the turn without the invalid input. -/
theorem invalid_input_no_mutation (rows cols : Int) :
    (∀ (st : PlaceState) (p : Int) (x : Int × Int) (rest : List (Int × Int)),
      (st.players p).left ≠ 0 → can_place st.board rows cols = true → (st.players p).is_ai = 0 →
      invalid_placement st.board rows cols x →
      placement_turn rows cols st p (x :: rest) = placement_turn rows cols st p rest) ∧
    (∀ (num_players mode : Int) (can_save : Bool) (st : MoveState) (pr pc : Int)
      (line : List Char) (rest : List (List Char)),
      st.active_flags (Int.tmod st.turn_index num_players) ≠ 0 →
      (st.players (Int.tmod st.turn_index num_players)).is_ai = 0 →
      find_penguin st.board rows cols (st.players (Int.tmod st.turn_index num_players)).id
        = some (pr, pc) →
      player_can_move st.board rows cols (st.players (Int.tmod st.turn_index num_players)).id
        = true →
      invalid_command st.board rows cols (st.players (Int.tmod st.turn_index num_players)).id
        pr pc line →
      movement_slot rows cols num_players mode can_save st (line :: rest) =
        movement_slot rows cols num_players mode can_save st rest) := by
  constructor
  · intro st p x rest hleft hcan hai hinv
    unfold placement_turn
    simp only [if_neg hleft, hcan, hai, Bool.not_true, Bool.false_eq_true, if_false, ne_eq,
      not_true_eq_false]
    rw [human_placement_invalid st.board rows cols x rest hinv]
  · intro num_players mode can_save st pr pc line rest hact hai hpen hcan hinv
    unfold movement_slot
    simp only []
    simp only [if_neg hact, hcan, hpen, hai, Bool.not_true, Bool.false_eq_true, if_false, ne_eq,
      not_true_eq_false]
    rw [human_move_invalid _ _ _ _ _ _ _ _ _ _ _ _ line rest hinv]

/-- Witness for C17: an out-of-bounds coordinate in the placement phase and a move to the
left off the board in the movement phase are dropped. -/
theorem invalid_input_no_mutation_witness :
    invalid_placement ex_place_state.board 2 2 (3, 3) ∧
    placement_turn 2 2 ex_place_state 1 [(3, 3), (2, 1)] =
      placement_turn 2 2 ex_place_state 1 [(2, 1)] ∧
    invalid_command ex_human_state.board 3 3 2 1 0 ['a', '\n'] ∧
    movement_slot 3 3 2 1 true ex_human_state [['a', '\n'], ['w', '\n']] =
      movement_slot 3 3 2 1 true ex_human_state [['w', '\n']] :=
  ⟨by unfold invalid_placement; decide,
    (invalid_input_no_mutation 2 2).1 ex_place_state 1 (3, 3) [(2, 1)] (by decide) (by decide)
      (by decide) (by unfold invalid_placement; decide),
    by unfold invalid_command; decide,
    (invalid_input_no_mutation 3 3).2 2 1 true ex_human_state 1 0 ['a', '\n'] [['w', '\n']]
      (by decide) (by decide) (by decide) (by decide) (by unfold invalid_command; decide)⟩

/-! ### Names longer than the field width -/

/-- The conversion `%s` of width `w` takes the first `w` characters of a token and leaves
the rest of the token in the stream. -/
theorem fscanf_s_prefix (w : Nat) (ws tok tail : List Char) (hws : ∀ c ∈ ws, isspace c = true)
    (hne : tok ≠ []) (hns : ∀ c ∈ tok, isspace c = false)
    (ht : ∀ c t, tail = c :: t → isspace c = true) :
    fscanf_s w (ws ++ (tok ++ tail)) = some (tok.take w, tok.drop w ++ tail) := by
  obtain ⟨d, ds, hds⟩ := List.exists_cons_of_ne_nil hne
  have hrun := takeWhile_run (p := fun x => !isspace x) tok tail
    (fun c hc => by simp [hns c hc]) (fun c t h => by simp [ht c t h])
  have hd : isspace d = false := hns d (by rw [hds]; exact List.mem_cons_self _ _)
  rw [fscanf_s_skip w ws _ hws]
  have hshape : tok ++ tail = d :: (ds ++ tail) := by rw [hds]; rfl
  rw [hshape, fscanf_s_cons _ _ _ hd, ← hshape, hrun.1]
  congr 2
  rw [List.length_take]
  by_cases hle : w ≤ tok.length
  · rw [Nat.min_eq_left hle, List.drop_append_of_le_length hle]
  · have hlt : tok.length ≤ w := by omega
    rw [Nat.min_eq_right hlt, List.drop_of_length_le hlt, List.nil_append,
      List.drop_append_of_le_length (le_refl _), List.drop_length, List.nil_append]

/-- One player line whose name may exceed 31 characters: the record gets the first 31
characters and the rest of the name stays in the stream before the line end. -/
theorem read_player_line_long (ws : List Char) (p : Player) (tail : List Char)
    (hws : ∀ c ∈ ws, isspace c = true) (hne : p.name ≠ [])
    (hns : ∀ c ∈ p.name, isspace c = false) :
    read_player (ws ++ (print_player p ++ tail)) =
      some ({ p with name := p.name.take 31 }, p.name.drop 31 ++ (['\n'] ++ tail)) := by
  have hshape : print_player p ++ tail =
      print_d p.id ++ ([' '] ++ (print_d p.is_ai ++ ([' '] ++ (print_d p.left ++ ([' '] ++
        (print_d p.score ++ ([' '] ++ (p.name ++ (['\n'] ++ tail))))))))) := by
    unfold print_player
    simp only [List.append_assoc]
  have hsp : ∀ c ∈ [' '], isspace c = true := all_space_one _ (by decide)
  have e1 : fscanf_d (ws ++ (print_d p.id ++ ([' '] ++ (print_d p.is_ai ++ ([' '] ++ (print_d p.left ++
      ([' '] ++ (print_d p.score ++ ([' '] ++ (p.name ++ (['\n'] ++ tail)))))))))))
      = some (p.id, [' '] ++ (print_d p.is_ai ++ ([' '] ++ (print_d p.left ++
      ([' '] ++ (print_d p.score ++ ([' '] ++ (p.name ++ (['\n'] ++ tail))))))))) :=
    fscanf_d_item ws _ _ hws (space_head ' ' _ (by decide))
  have e2 : fscanf_d ([' '] ++ (print_d p.is_ai ++ ([' '] ++ (print_d p.left ++
      ([' '] ++ (print_d p.score ++ ([' '] ++ (p.name ++ (['\n'] ++ tail)))))))))
      = some (p.is_ai, [' '] ++ (print_d p.left ++
      ([' '] ++ (print_d p.score ++ ([' '] ++ (p.name ++ (['\n'] ++ tail))))))) :=
    fscanf_d_item [' '] _ _ hsp (space_head ' ' _ (by decide))
  have e3 : fscanf_d ([' '] ++ (print_d p.left ++
      ([' '] ++ (print_d p.score ++ ([' '] ++ (p.name ++ (['\n'] ++ tail)))))))
      = some (p.left, [' '] ++ (print_d p.score ++ ([' '] ++ (p.name ++ (['\n'] ++ tail))))) :=
    fscanf_d_item [' '] _ _ hsp (space_head ' ' _ (by decide))
  have e4 : fscanf_d ([' '] ++ (print_d p.score ++ ([' '] ++ (p.name ++ (['\n'] ++ tail)))))
      = some (p.score, [' '] ++ (p.name ++ (['\n'] ++ tail))) :=
    fscanf_d_item [' '] _ _ hsp (space_head ' ' _ (by decide))
  have e5 : fscanf_s 31 ([' '] ++ (p.name ++ (['\n'] ++ tail))) =
      some (p.name.take 31, p.name.drop 31 ++ (['\n'] ++ tail)) :=
    fscanf_s_prefix 31 [' '] _ _ hsp hne hns (space_head '\n' _ (by decide))
  unfold read_player
  rw [hshape, e1]
  simp only []
  rw [e2]
  simp only []
  rw [e3]
  simp only []
  rw [e4]
  simp only []
  rw [e5]
  simp only [List.take_take, Nat.min_self]

/-- Reading the players of a concatenated slot list reads the first list and then the
second. -/
theorem read_players_append : ∀ (l1 l2 : List Int) (ps : Players) (fp : List Char),
    read_players (l1 ++ l2) ps fp =
      match read_players l1 ps fp with
      | none => none
      | some (ps1, fp1) => read_players l2 ps1 fp1 := by
  intro l1
  induction l1 with
  | nil => intro l2 ps fp; rfl
  | cons i l1 ih =>
    intro l2 ps fp
    simp only [List.cons_append, read_players]
    cases read_player fp with
    | none => rfl
    | some r => exact ih l2 _ r.2

/-- Without columns the row loop reads nothing. -/
theorem read_rows_no_cols (cols : Int) (hc : upto cols = []) :
    ∀ (rs : List Int) (b : Board) (fp : List Char), read_rows cols rs b fp = some (b, fp) := by
  intro rs
  induction rs with
  | nil => intro b fp; rfl
  | cons r rs ih =>
    intro b fp
    simp only [read_rows, hc, read_row]
    exact ih b fp

/-- The `%d` conversion fails on text whose first character is neither white space, nor a
sign, nor a digit. -/
theorem fscanf_d_fails (c : Char) (t : List Char) (hs : isspace c = false)
    (hd : isdigit c = false) (hm : c ≠ '-') (hp : c ≠ '+') : fscanf_d (c :: t) = none := by
  rw [fscanf_d_cons c t hs]
  simp [hm, hp, List.takeWhile, hd]

/-- The index list of a loop split at one of its indices: smaller indices before, larger
indices after, and nothing after exactly when the index is the last one. -/
theorem upto_split (n j : Int) (h0 : 0 ≤ j) (hn : j < n) :
    ∃ l1 l2, upto n = l1 ++ j :: l2 ∧ (∀ x ∈ l1, 0 ≤ x ∧ x < j) ∧
      (∀ x ∈ l2, j < x ∧ x < n) ∧ (l2 = [] ↔ j + 1 = n) := by
  have hmem : j ∈ upto n := (mem_upto _ _).2 ⟨h0, hn⟩
  obtain ⟨l1, l2, hl⟩ := List.append_of_mem hmem
  have hp : (upto n).Pairwise (· < ·) := by
    unfold upto
    rw [List.pairwise_map]
    exact (List.pairwise_lt_range n.toNat).imp (fun h => by
      show ((_ : Nat) : Int) < ((_ : Nat) : Int)
      exact_mod_cast h)
  have hp' := hp
  rw [hl, List.pairwise_append] at hp'
  obtain ⟨_, hp2, hp3⟩ := hp'
  rw [List.pairwise_cons] at hp2
  have h1 : ∀ x ∈ l1, 0 ≤ x ∧ x < j := by
    intro x hx
    have hxm : x ∈ upto n := by rw [hl]; exact List.mem_append_left _ hx
    exact ⟨((mem_upto _ _).1 hxm).1, hp3 x hx j (List.mem_cons_self _ _)⟩
  have h2 : ∀ x ∈ l2, j < x ∧ x < n := by
    intro x hx
    have hxm : x ∈ upto n := by
      rw [hl]
      exact List.mem_append_right _ (List.mem_cons_of_mem _ hx)
    exact ⟨hp2.1 x hx, ((mem_upto _ _).1 hxm).2⟩
  refine ⟨l1, l2, hl, h1, h2, ?_⟩
  constructor
  · intro he
    by_contra hne
    have hj1 : j + 1 ∈ upto n := (mem_upto _ _).2 ⟨by omega, by omega⟩
    rw [hl, he] at hj1
    rcases List.mem_append.mp hj1 with hx | hx
    · have := (h1 _ hx).2
      omega
    · simp at hx
  · intro he
    cases l2 with
    | nil => rfl
    | cons y ys =>
      have := h2 y (List.mem_cons_self _ _)
      omega

/-- After the header and the five numbers written by `save_game`, `load_game` runs its
three loops on the rest of the text. -/
theorem load_game_of_save (mem : Alloc) (out : LoadOut) (board : Board) (rows cols : Int)
    (players : Players) (num_players mode turn_index : Int) (active_flags : Flags)
    (hmem : mem.ok = true) :
    load_game mem
        (save_game true board rows cols players num_players mode turn_index (some active_flags)) out =
      match read_active (upto num_players) mem.active
          (['\n'] ++ ((upto num_players).flatMap (print_flag (some active_flags) num_players) ++
          (['\n'] ++ ((upto num_players).flatMap (fun i => print_player (players i)) ++
          ((upto rows).flatMap (fun r => (upto cols).flatMap (fun c => print_tile (board r c))) ++
            []))))) with
      | none => (false, out)
      | some (active, fp7) =>
        match read_players (upto num_players) mem.players fp7 with
        | none => (false, out)
        | some (players1, fp8) =>
          match read_rows cols (upto rows) mem.board fp8 with
          | none => (false, out)
          | some (board1, _) =>
            (true, ⟨board1, rows, cols, players1, num_players, mode, turn_index, active⟩) := by
  have hsp : ∀ c ∈ [' '], isspace c = true := all_space_one _ (by decide)
  have hnl : ∀ c ∈ ['\n'], isspace c = true := all_space_one _ (by decide)
  generalize hX : (['\n'] ++ ((upto num_players).flatMap (print_flag (some active_flags) num_players) ++
          (['\n'] ++ ((upto num_players).flatMap (fun i => print_player (players i)) ++
          ((upto rows).flatMap (fun r => (upto cols).flatMap (fun c => print_tile (board r c))) ++
            []))))) = X
  have hXs : ∀ c t, X = c :: t → isspace c = true := by
    rw [← hX]
    exact space_head '\n' _ (by decide)
  have htext : save_game true board rows cols players num_players mode turn_index (some active_flags)
      = some (save_header ++ (['\n'] ++ (print_d rows ++ ([' '] ++ (print_d cols ++ (['\n'] ++
          (print_d num_players ++ ([' '] ++ (print_d mode ++ ([' '] ++ (print_d turn_index ++
          X))))))))))) := by
    rw [← hX]
    unfold save_game
    simp only [Bool.not_true, Bool.false_eq_true, if_false, List.append_assoc, List.append_nil]
  have e0 : fscanf_s 63 (save_header ++ (['\n'] ++ (print_d rows ++ ([' '] ++ (print_d cols ++ (['\n'] ++
          (print_d num_players ++ ([' '] ++ (print_d mode ++ ([' '] ++ (print_d turn_index ++
          X)))))))))))
      = some (save_header, ['\n'] ++ (print_d rows ++ ([' '] ++ (print_d cols ++ (['\n'] ++
          (print_d num_players ++ ([' '] ++ (print_d mode ++ ([' '] ++ (print_d turn_index ++
          X)))))))))) :=
    fscanf_s_token 63 save_header _ (by decide) (by decide) (by decide)
      (space_head '\n' _ (by decide))
  have e1 : fscanf_d (['\n'] ++ (print_d rows ++ ([' '] ++ (print_d cols ++ (['\n'] ++
          (print_d num_players ++ ([' '] ++ (print_d mode ++ ([' '] ++ (print_d turn_index ++
          X))))))))))
      = some (rows, [' '] ++ (print_d cols ++ (['\n'] ++
          (print_d num_players ++ ([' '] ++ (print_d mode ++ ([' '] ++ (print_d turn_index ++
          X)))))))) :=
    fscanf_d_item ['\n'] _ _ hnl (space_head ' ' _ (by decide))
  have e2 : fscanf_d ([' '] ++ (print_d cols ++ (['\n'] ++
          (print_d num_players ++ ([' '] ++ (print_d mode ++ ([' '] ++ (print_d turn_index ++
          X))))))))
      = some (cols, ['\n'] ++
          (print_d num_players ++ ([' '] ++ (print_d mode ++ ([' '] ++ (print_d turn_index ++
          X)))))) :=
    fscanf_d_item [' '] _ _ hsp (space_head '\n' _ (by decide))
  have e3 : fscanf_d (['\n'] ++
          (print_d num_players ++ ([' '] ++ (print_d mode ++ ([' '] ++ (print_d turn_index ++
          X))))))
      = some (num_players, [' '] ++ (print_d mode ++ ([' '] ++ (print_d turn_index ++ X)))) :=
    fscanf_d_item ['\n'] _ _ hnl (space_head ' ' _ (by decide))
  have e4 : fscanf_d ([' '] ++ (print_d mode ++ ([' '] ++ (print_d turn_index ++ X))))
      = some (mode, [' '] ++ (print_d turn_index ++ X)) :=
    fscanf_d_item [' '] _ _ hsp (space_head ' ' _ (by decide))
  have e5 : fscanf_d ([' '] ++ (print_d turn_index ++ X)) = some (turn_index, X) :=
    fscanf_d_item [' '] _ _ hsp hXs
  rw [htext]
  unfold load_game
  simp only [e0, e1, e2, e3, e4, e5, hmem, c_string_save_header, ne_eq, not_true_eq_false,
    if_false, Bool.not_true, Bool.false_eq_true]
/-- A loop with a non-positive bound has no iterations. -/
theorem upto_nonpos (n : Int) (h : n ≤ 0) : upto n = [] := by
  unfold upto
  have : n.toNat = 0 := by omega
  rw [this]
  rfl

/-- A loop with a positive bound has a first iteration. -/
theorem upto_pos (n : Int) (h : 0 < n) : ∃ rest, upto n = 0 :: rest := by
  unfold upto
  obtain ⟨k, hk⟩ : ∃ k, n.toNat = k + 1 := ⟨n.toNat - 1, by omega⟩
  rw [hk, List.range_succ_eq_map]
  exact ⟨_, rfl⟩

/-- Claim C18 (amended): in a save record whose player `j` has a name token longer than 31
characters, `%31s` reads the first 31 characters as the name and leaves the rest of the
token in the stream, where the next conversion starts.  If a number field follows (a
further player or a tile) and the 32nd character of the name is neither a digit nor a
sign, `load_game` returns 0 and leaves the outputs unmodified.  If no field follows (the
player is the last one and the board has no tile), `load_game` succeeds, that player's
name is the first 31 characters of the token, and all other loaded fields are those of
the record. -/
theorem load_game_long_name (mem : Alloc) (out : LoadOut) (board : Board) (rows cols : Int)
    (players : Players) (num_players mode turn_index : Int) (active_flags : Flags) (j : Int)
    (hmem : mem.ok = true) (hj0 : 0 ≤ j) (hjn : j < num_players)
    (hlong : 31 < (players j).name.length)
    (hjns : ∀ c ∈ (players j).name, isspace c = false)
    (hnames : ∀ i, 0 ≤ i → i < num_players → i ≠ j →
      (players i).name ≠ [] ∧ (∀ c ∈ (players i).name, isspace c = false) ∧
        (players i).name.length ≤ 31) :
    (∀ c, (players j).name[31]? = some c → isdigit c = false → c ≠ '-' → c ≠ '+' →
      (j + 1 < num_players ∨ (0 < rows ∧ 0 < cols)) →
      load_game mem
        (save_game true board rows cols players num_players mode turn_index (some active_flags))
        out = (false, out)) ∧
    (j + 1 = num_players → (rows ≤ 0 ∨ cols ≤ 0) →
      ∃ res, load_game mem
          (save_game true board rows cols players num_players mode turn_index (some active_flags))
          out = (true, res) ∧
        res.players j = { players j with name := (players j).name.take 31 } ∧
        res.rows = rows ∧ res.cols = cols ∧ res.num_players = num_players ∧ res.mode = mode ∧
        res.turn_index = turn_index ∧
        (∀ i, 0 ≤ i → i < num_players → i ≠ j → res.players i = players i) ∧
        (∀ i, 0 ≤ i → i < num_players → res.active_flags i = active_flags i)) := by
  have hnl : ∀ c ∈ ['\n'], isspace c = true := all_space_one _ (by decide)
  have hne : (players j).name ≠ [] := by
    intro h
    rw [h] at hlong
    simp at hlong
  have hupto : upto num_players = (List.range' 0 num_players.toNat).map Int.ofNat := by
    unfold upto
    rw [List.range_eq_range']
  obtain ⟨l1, l2, hl, hl1, hl2, hlast⟩ := upto_split num_players j hj0 hjn
  -- the flags
  obtain ⟨fl', ws1, hfl, hws1, hflin, _⟩ :=
    read_active_save active_flags num_players num_players.toNat (by omega) num_players.toNat 0
      (by omega) mem.active ['\n']
      (['\n'] ++ ((upto num_players).flatMap (fun i => print_player (players i)) ++
        ((upto rows).flatMap (fun r => (upto cols).flatMap (fun c => print_tile (board r c))) ++ [])))
      hnl (space_head '\n' _ (by decide))
  rw [← hupto] at hfl hflin
  -- the players before `j`
  obtain ⟨ps1, ws2, hps1, hws2, hps1in, _⟩ :=
    read_players_save players l1 mem.players (ws1 ++ ['\n'])
      (print_player (players j) ++ (l2.flatMap (fun i => print_player (players i)) ++
        ((upto rows).flatMap (fun r => (upto cols).flatMap (fun c => print_tile (board r c))) ++ [])))
      (by
        intro c hc
        rcases List.mem_append.mp hc with h | h
        · exact hws1 c h
        · exact hnl c h)
      (by
        intro i hi
        have := hl1 i hi
        exact hnames i this.1 (by omega) (by omega))
  -- player `j`
  have hpj := read_player_line_long ws2 (players j)
    (l2.flatMap (fun i => print_player (players i)) ++
      ((upto rows).flatMap (fun r => (upto cols).flatMap (fun c => print_tile (board r c))) ++ []))
    hws2 hne hjns
  -- the stream in front of the player loop
  have hstream : ws1 ++ (['\n'] ++ ((upto num_players).flatMap (fun i => print_player (players i)) ++
        ((upto rows).flatMap (fun r => (upto cols).flatMap (fun c => print_tile (board r c))) ++ [])))
      = (ws1 ++ ['\n']) ++ (l1.flatMap (fun i => print_player (players i)) ++
        (print_player (players j) ++ (l2.flatMap (fun i => print_player (players i)) ++
        ((upto rows).flatMap (fun r => (upto cols).flatMap (fun c => print_tile (board r c))) ++ [])))) := by
    rw [hl, List.flatMap_append, List.flatMap_cons]
    simp only [List.append_assoc]
  have hplayers : read_players (upto num_players) mem.players
      (ws1 ++ (['\n'] ++ ((upto num_players).flatMap (fun i => print_player (players i)) ++
        ((upto rows).flatMap (fun r => (upto cols).flatMap (fun c => print_tile (board r c))) ++ []))))
      = read_players l2 (set_player ps1 j { players j with name := (players j).name.take 31 })
          ((players j).name.drop 31 ++ (['\n'] ++
            (l2.flatMap (fun i => print_player (players i)) ++
            ((upto rows).flatMap (fun r => (upto cols).flatMap (fun c => print_tile (board r c))) ++ [])))) := by
    rw [hstream]
    conv_lhs => rw [hl]
    rw [read_players_append, hps1]
    simp only []
    rw [read_players, hpj]
  have hload := load_game_of_save mem out board rows cols players num_players mode turn_index
    active_flags hmem
  rw [hfl] at hload
  simp only [] at hload
  rw [hplayers] at hload
  constructor
  · intro c hc hdig hm hp hfollow
    have hlt : 31 < (players j).name.length := hlong
    have hget : (players j).name[31] = c := by
      rw [List.getElem?_eq_getElem hlt] at hc
      exact Option.some.inj hc
    have hdrop : (players j).name.drop 31 = c :: (players j).name.drop 32 := by
      rw [← hget]
      exact List.drop_eq_getElem_cons hlt
    have hcs : isspace c = false := hjns c (by rw [← hget]; exact List.getElem_mem _)
    rw [hload, hdrop]
    cases l2 with
    | cons i l2' =>
      rw [List.cons_append, read_players, read_player, fscanf_d_fails c _ hcs hdig hm hp]
    | nil =>
      have htiles : 0 < rows ∧ 0 < cols := by
        rcases hfollow with h | h
        · have := hlast.1 rfl
          omega
        · exact h
      obtain ⟨rs, hrs⟩ := upto_pos rows htiles.1
      obtain ⟨cs, hcs'⟩ := upto_pos cols htiles.2
      rw [List.cons_append, read_players]
      simp only []
      rw [hrs, read_rows, hcs', read_row, fscanf_d_fails c _ hcs hdig hm hp]
  · intro hjlast hnotiles
    have hl2 : l2 = [] := hlast.2 hjlast
    subst hl2
    have hrows : ∀ fp, read_rows cols (upto rows) mem.board fp = some (mem.board, fp) := by
      intro fp
      rcases hnotiles with h | h
      · rw [upto_nonpos rows h]
        rfl
      · exact read_rows_no_cols cols (upto_nonpos cols h) _ _ _
    rw [read_players] at hload
    simp only [] at hload
    rw [hrows] at hload
    simp only [] at hload
    refine ⟨_, hload, ?_, rfl, rfl, rfl, rfl, rfl, ?_, ?_⟩
    · show set_player ps1 j _ j = _
      unfold set_player
      rw [if_pos rfl]
    · intro i h0 hn hij
      show set_player ps1 j _ i = _
      unfold set_player
      rw [if_neg hij]
      have hi : i ∈ upto num_players := (mem_upto _ _).2 ⟨h0, hn⟩
      rw [hl] at hi
      rcases List.mem_append.mp hi with h | h
      · exact hps1in i h
      · simp at h
        exact absurd h hij
    · intro i h0 hn
      exact hflin i ((mem_upto _ _).2 ⟨h0, hn⟩)
/-- Witness for C18: the state with one player named by 32 letters and one tile is saved as
the example record, and loading that record fails with the outputs untouched. -/
theorem load_game_long_name_witness :
    save_game true (fun _ _ => ⟨2, 0⟩) 1 1 ex_long_players 1 1 0 (some ex_flags)
      = some ex_file_long_name ∧
    load_game ex_mem
      (save_game true (fun _ _ => ⟨2, 0⟩) 1 1 ex_long_players 1 1 0 (some ex_flags)) ex_out
      = (false, ex_out) :=
  ⟨by decide,
    (load_game_long_name ex_mem ex_out (fun _ _ => ⟨2, 0⟩) 1 1 ex_long_players 1 1 0 ex_flags 0
      rfl (by decide) (by decide) (by decide) (by decide)
      (by intro i h0 h1 hne; omega)).1 'A' (by decide) (by decide) (by decide) (by decide)
      (Or.inr ⟨by decide, by decide⟩)⟩

/-- Counterexample to C18 as stated: a well-formed 1 x 1 record whose only player has a
name of 32 letters is rejected by `load_game`; and when the 32nd character is the digit 7
the load succeeds but the tile is read as 7 fish owned by 2 instead of the record's 2 fish
and no owner. -/
theorem load_game_rejects_long_name :
    first_token ex_file_long_name = save_header ∧
    (load_game ex_mem (some ex_file_long_name) ex_out).1 = false ∧
    (load_game ex_mem (some ex_file_long_name_digit) ex_out).1 = true ∧
    ((load_game ex_mem (some ex_file_long_name_digit) ex_out).2.players 0).name
      = List.replicate 31 'A' ∧
    (load_game ex_mem (some ex_file_long_name_digit) ex_out).2.board 0 0 = ⟨7, 2⟩ := by
  decide

/-! ### The placement phase -/

/-- A turn of the placement phase either leaves the state as it is or places a penguin for
a player that has a placement left. -/
theorem placement_turn_cases (rows cols : Int) (st : PlaceState) (p : Int)
    (input : List (Int × Int)) :
    ((placement_turn rows cols st p input).state = st ∧
      ∀ r c, (placement_turn rows cols st p input).event ≠ PlaceEvent.placed r c) ∨
    (∃ r c, (placement_turn rows cols st p input).event = PlaceEvent.placed r c ∧
      (st.players p).left ≠ 0 ∧ can_place st.board rows cols = true) := by
  unfold placement_turn
  split_ifs with h1 h2 h3
  · left
    exact ⟨rfl, fun r c h => by cases h⟩
  · left
    exact ⟨rfl, fun r c h => by cases h⟩
  · simp only [Bool.not_eq_true', Bool.not_eq_false] at h2
    cases find_first_placement st.board rows cols with
    | none =>
      left
      exact ⟨rfl, fun r c h => by cases h⟩
    | some pos =>
      right
      exact ⟨pos.1, pos.2, rfl, h1, h2⟩
  · simp only [Bool.not_eq_true', Bool.not_eq_false] at h2
    cases human_placement st.board rows cols input with
    | none =>
      left
      exact ⟨rfl, fun r c h => by cases h⟩
    | some res =>
      right
      exact ⟨res.1.1, res.1.2, rfl, h1, h2⟩

/-- During the placement phase of a game whose players start with one placement each,
every player has one placement left or none. -/
theorem placement_reach_left (rows cols num_players : Int) (s0 st : PlaceState)
    (hinit : ∀ i, 0 ≤ i → i < num_players → (s0.players i).left = 1)
    (h : PlacementReach rows cols num_players s0 st) :
    ∀ i, 0 ≤ i → i < num_players → (st.players i).left = 0 ∨ (st.players i).left = 1 := by
  induction h with
  | start => exact fun i h0 hn => Or.inr (hinit i h0 hn)
  | turn st p input _ _ _ ih =>
    intro i h0 hn
    rcases placement_turn_cases rows cols st p input with ⟨hst, _⟩ | ⟨r, c, hev, hleft, _⟩
    · rw [hst]
      exact ih i h0 hn
    · rw [(placement_turn_placed rows cols st p input r c hev).2, place_penguin_players]
      by_cases hip : i = p
      · rw [if_pos hip]
        left
        show (st.players p).left - 1 = 0
        rcases ih p (by omega) (by omega) with h | h
        · exact absurd h hleft
        · omega
      · rw [if_neg hip]
        exact ih i h0 hn

/-- Claim C15: every placement performed by `placement_phase`, by a human or by the AI, in
a game whose players start with one placement each, targets a tile with one fish and no
owner, and its effect is exactly this: the score of the placing player grows by 1, the
tile gets 0 fish and the id of the player as owner, the remaining placements of the player
go from 1 to 0; no other tile, no other player and no other field of the player is
changed. -/
theorem placement_effect (rows cols num_players : Int) (s0 st : PlaceState) (p : Int)
    (input : List (Int × Int)) (r c : Int)
    (hinit : ∀ i, 0 ≤ i → i < num_players → (s0.players i).left = 1)
    (hreach : PlacementReach rows cols num_players s0 st) (hp0 : 0 ≤ p) (hpn : p < num_players)
    (hev : (placement_turn rows cols st p input).event = PlaceEvent.placed r c) :
    ((0 ≤ r ∧ r < rows ∧ 0 ≤ c ∧ c < cols) ∧ (st.board r c).fish = 1 ∧ (st.board r c).owner = 0) ∧
    ((placement_turn rows cols st p input).state.players p).score = (st.players p).score + 1 ∧
    (placement_turn rows cols st p input).state.board r c = ⟨0, (st.players p).id⟩ ∧
    ((st.players p).left = 1 ∧ ((placement_turn rows cols st p input).state.players p).left = 0) ∧
    (∀ r' c', ¬ (r' = r ∧ c' = c) →
      (placement_turn rows cols st p input).state.board r' c' = st.board r' c') ∧
    (∀ j, j ≠ p → (placement_turn rows cols st p input).state.players j = st.players j) ∧
    (((placement_turn rows cols st p input).state.players p).id = (st.players p).id ∧
      ((placement_turn rows cols st p input).state.players p).name = (st.players p).name ∧
      ((placement_turn rows cols st p input).state.players p).is_ai = (st.players p).is_ai) := by
  obtain ⟨htile, hst⟩ := placement_turn_placed rows cols st p input r c hev
  have hleft : (st.players p).left = 1 := by
    rcases placement_turn_cases rows cols st p input with ⟨_, hno⟩ | ⟨_, _, _, hl, _⟩
    · exact absurd hev (hno r c)
    · rcases placement_reach_left rows cols num_players s0 st hinit hreach p hp0 hpn with h | h
      · exact absurd h hl
      · exact h
  rw [hst]
  refine ⟨htile, ?_, ?_, ⟨hleft, ?_⟩, ?_, ?_, ?_⟩
  · rw [place_penguin_players, if_pos rfl]
    show (st.players p).score + (st.board r c).fish = _
    rw [htile.2.1]
  · rw [place_penguin_board, if_pos ⟨rfl, rfl⟩]
  · rw [place_penguin_players, if_pos rfl]
    show (st.players p).left - 1 = 0
    omega
  · intro r' c' hne
    rw [place_penguin_board, if_neg hne]
  · intro j hj
    rw [place_penguin_players, if_neg hj]
  · rw [place_penguin_players, if_pos rfl]
    exact ⟨rfl, rfl, rfl⟩

/-- Witness for C15: on the initialised 2 x 2 board the AI in slot 0 places on the first
tile with one fish. -/
theorem placement_effect_witness :
    (placement_turn 2 2 ex_place_state 0 []).event = PlaceEvent.placed 0 0 ∧
    ((placement_turn 2 2 ex_place_state 0 []).state.players 0).score = 1 ∧
    (placement_turn 2 2 ex_place_state 0 []).state.board 0 0 = ⟨0, 1⟩ ∧
    ((ex_place_state.players 0).left = 1 ∧
      ((placement_turn 2 2 ex_place_state 0 []).state.players 0).left = 0) :=
  ⟨by decide,
    (placement_effect 2 2 2 ex_place_state ex_place_state 0 [] 0 0
      (by intro i h0 h2; interval_cases i <;> decide) (PlacementReach.start) (by decide)
      (by decide) (by decide)).2.1,
    (placement_effect 2 2 2 ex_place_state ex_place_state 0 [] 0 0
      (by intro i h0 h2; interval_cases i <;> decide) (PlacementReach.start) (by decide)
      (by decide) (by decide)).2.2.1,
    (placement_effect 2 2 2 ex_place_state ex_place_state 0 [] 0 0
      (by intro i h0 h2; interval_cases i <;> decide) (PlacementReach.start) (by decide)
      (by decide) (by decide)).2.2.2.1⟩

/-! ### Termination of the movement phase -/

/-- The grid holds exactly the coordinates inside the bounds. -/
theorem mem_grid (rows cols r c : Int) :
    (r, c) ∈ grid rows cols ↔ 0 ≤ r ∧ r < rows ∧ 0 ≤ c ∧ c < cols := by
  unfold grid
  simp only [List.mem_flatMap, List.mem_map, Prod.mk.injEq]
  constructor
  · rintro ⟨r', hr, c', hc, rfl, rfl⟩
    rw [mem_upto] at hr hc
    exact ⟨hr.1, hr.2, hc.1, hc.2⟩
  · rintro ⟨h1, h2, h3, h4⟩
    exact ⟨r, (mem_upto _ _).2 ⟨h1, h2⟩, c, (mem_upto _ _).2 ⟨h3, h4⟩, rfl, rfl⟩

/-- A filter that accepts no more than another one keeps no more elements. -/
theorem filter_length_le {α : Type} (p q : α → Bool) (l : List α)
    (h : ∀ x ∈ l, q x = true → p x = true) : (l.filter q).length ≤ (l.filter p).length := by
  induction l with
  | nil => simp
  | cons a l ih =>
    have ih' := ih (fun x hx => h x (List.mem_cons_of_mem _ hx))
    have ha := h a (List.mem_cons_self _ _)
    simp only [List.filter_cons]
    cases hq : q a with
    | false =>
      cases hp : p a with
      | false => simpa using ih'
      | true => simp only [Bool.false_eq_true, if_false, if_true, List.length_cons]; omega
    | true =>
      rw [ha hq]
      simpa using ih'

/-- A filter that accepts no more than another one and rejects an element the other one
accepts keeps fewer elements. -/
theorem filter_length_lt {α : Type} (p q : α → Bool) (l : List α)
    (h : ∀ x ∈ l, q x = true → p x = true) (a : α) (ha : a ∈ l) (hpa : p a = true)
    (hqa : q a = false) : (l.filter q).length < (l.filter p).length := by
  induction l with
  | nil => simp at ha
  | cons b l ih =>
    have hle := filter_length_le p q l (fun x hx => h x (List.mem_cons_of_mem _ hx))
    have hb := h b (List.mem_cons_self _ _)
    simp only [List.filter_cons]
    rcases List.mem_cons.mp ha with rfl | hal
    · rw [hpa, hqa]
      simp only [Bool.false_eq_true, if_false, if_true, List.length_cons]
      omega
    · have ih' := ih (fun x hx => h x (List.mem_cons_of_mem _ hx)) hal
      cases hq : q b with
      | false =>
        cases hp : p b with
        | false => simpa using ih'
        | true => simp only [Bool.false_eq_true, if_false, if_true, List.length_cons]; omega
      | true =>
        rw [hb hq]
        simpa using ih'

/-- An applied move uses up an unowned tile with fish. -/
theorem apply_move_free (rows cols : Int) (st : MoveState) (idx id pr pc tr tc : Int)
    (hv : is_valid_move st.board rows cols id pr pc tr tc = true) :
    free_tiles (apply_move st idx pr pc tr tc).board rows cols < free_tiles st.board rows cols := by
  rw [is_valid_move_eq_true] at hv
  obtain ⟨hin, hdist, hnd, hown⟩ := hv
  unfold free_tiles
  apply filter_length_lt _ _ _ _ (tr, tc) ((mem_grid _ _ _ _).2 hin)
  · simp only [decide_eq_true_eq]
    refine ⟨hown, fun hf => hnd ⟨hf, hown⟩⟩
  · simp only [decide_eq_false_iff_not, not_and, not_not]
    intro _
    rw [apply_move_board]
    by_cases h1 : tr = pr ∧ tc = pc
    · rw [if_pos h1]
    · rw [if_neg h1, if_pos ⟨rfl, rfl⟩]
  · rintro ⟨r, c⟩ _ hq
    simp only [decide_eq_true_eq] at hq ⊢
    rw [apply_move_board] at hq
    split_ifs at hq with h1 h2
    · exact absurd rfl hq.2
    · exact absurd rfl hq.2
    · exact hq

/-- A slot of the turn loop either applies a move, or changes neither the board, nor the
players, nor the flag `any_move`. -/
theorem movement_slot_cases (rows cols num_players mode : Int) (can_save : Bool)
    (st : MoveState) (input : List (List Char)) :
    (∃ pr pc tr tc, (movement_slot rows cols num_players mode can_save st input).event =
      SlotEvent.moved pr pc tr tc) ∨
    ((∀ pr pc tr tc, (movement_slot rows cols num_players mode can_save st input).event ≠
        SlotEvent.moved pr pc tr tc) ∧
      (movement_slot rows cols num_players mode can_save st input).state.board = st.board ∧
      (movement_slot rows cols num_players mode can_save st input).state.players = st.players ∧
      (movement_slot rows cols num_players mode can_save st input).state.any_move =
        st.any_move) := by
  unfold movement_slot
  simp only []
  split_ifs
  · right
    exact ⟨fun _ _ _ _ h => (by cases h), rfl, rfl, rfl⟩
  · right
    exact ⟨fun _ _ _ _ h => (by cases h), rfl, rfl, rfl⟩
  · split
    · right
      exact ⟨fun _ _ _ _ h => (by cases h), rfl, rfl, rfl⟩
    · split
      · right
        exact ⟨fun _ _ _ _ h => (by cases h), rfl, rfl, rfl⟩
      · left
        exact ⟨_, _, _, _, rfl⟩
  · split
    · right
      exact ⟨fun _ _ _ _ h => (by cases h), rfl, rfl, rfl⟩
    · split
      · right
        exact ⟨fun _ _ _ _ h => (by cases h), rfl, rfl, rfl⟩
      · left
        exact ⟨_, _, _, _, rfl⟩

/-- Counting the moves of a visit list with one more visit in front. -/
theorem count_moves_cons (v : Visit) (vs : List Visit) :
    count_moves (v :: vs) =
      (match v.event with
        | SlotEvent.moved _ _ _ _ => 1
        | _ => 0) + count_moves vs := by
  unfold count_moves
  rw [List.filter_cons]
  cases v.event <;> simp
  omega

/-- Counting the moves of two visit lists one after the other. -/
theorem count_moves_append (vs ws : List Visit) :
    count_moves (vs ++ ws) = count_moves vs + count_moves ws := by
  unfold count_moves
  rw [List.filter_append, List.length_append]

/-- What one slot does to the number of unowned tiles with fish: a move uses one up and
sets `any_move`; anything else leaves the number and `any_move` as they are. -/
theorem movement_slot_free (rows cols num_players mode : Int) (can_save : Bool)
    (st : MoveState) (input : List (List Char)) :
    free_tiles (movement_slot rows cols num_players mode can_save st input).state.board rows cols +
        count_moves [⟨(movement_slot rows cols num_players mode can_save st input).idx,
          (movement_slot rows cols num_players mode can_save st input).event,
          (movement_slot rows cols num_players mode can_save st input).state.turn_index⟩]
      ≤ free_tiles st.board rows cols ∧
    ((movement_slot rows cols num_players mode can_save st input).state.any_move = st.any_move ∨
      1 ≤ count_moves [⟨(movement_slot rows cols num_players mode can_save st input).idx,
          (movement_slot rows cols num_players mode can_save st input).event,
          (movement_slot rows cols num_players mode can_save st input).state.turn_index⟩]) := by
  rcases movement_slot_cases rows cols num_players mode can_save st input with
    ⟨pr, pc, tr, tc, hev⟩ | ⟨hno, hb, _, ha⟩
  · obtain ⟨_, hv, _, hst⟩ := movement_slot_moved rows cols num_players mode can_save st input
      pr pc tr tc hev
    have hfree : free_tiles (apply_move
        { st with turn_index := Int.tmod (Int.tmod st.turn_index num_players + 1) num_players }
        (Int.tmod st.turn_index num_players) pr pc tr tc).board rows cols <
        free_tiles st.board rows cols :=
      apply_move_free rows cols
        { st with turn_index := Int.tmod (Int.tmod st.turn_index num_players + 1) num_players }
        (Int.tmod st.turn_index num_players) _ pr pc tr tc hv
    rw [count_moves_cons, hev, hst]
    simp only [count_moves, List.filter_nil, List.length_nil]
    exact ⟨by omega, Or.inr (by omega)⟩
  · rw [count_moves_cons, hb]
    have hz : (match (movement_slot rows cols num_players mode can_save st input).event with
        | SlotEvent.moved _ _ _ _ => 1
        | _ => 0) = 0 := by
      cases hev : (movement_slot rows cols num_players mode can_save st input).event with
      | moved pr pc tr tc => exact absurd hev (hno pr pc tr tc)
      | _ => rfl
    rw [hz]
    simp only [count_moves, List.filter_nil, List.length_nil]
    exact ⟨by omega, Or.inl ha⟩
/-- The moves of a pass use up as many unowned tiles with fish, and a pass that changes
`any_move` applies a move. -/
theorem movement_pass_loop_free (rows cols num_players mode : Int) (can_save : Bool) :
    ∀ (n : Nat) (st : MoveState) (input : List (List Char)),
      free_tiles (movement_pass_loop rows cols num_players mode can_save n st input).state.board
          rows cols +
          count_moves (movement_pass_loop rows cols num_players mode can_save n st input).visits
        ≤ free_tiles st.board rows cols ∧
      ((movement_pass_loop rows cols num_players mode can_save n st input).state.any_move =
          st.any_move ∨
        1 ≤ count_moves (movement_pass_loop rows cols num_players mode can_save n st input).visits)
  | 0, st, input => by
    refine ⟨?_, Or.inl ?_⟩ <;> simp [movement_pass_loop, count_moves]
  | n + 1, st, input => by
    obtain ⟨h1, h2⟩ := movement_slot_free rows cols num_players mode can_save st input
    obtain ⟨ih1, ih2⟩ := movement_pass_loop_free rows cols num_players mode can_save n
      (movement_slot rows cols num_players mode can_save st input).state
      (movement_slot rows cols num_players mode can_save st input).input
    simp only [movement_pass_loop]
    split_ifs
    · exact ⟨h1, h2⟩
    · simp only []
      have e := count_moves_append
        [⟨(movement_slot rows cols num_players mode can_save st input).idx,
          (movement_slot rows cols num_players mode can_save st input).event,
          (movement_slot rows cols num_players mode can_save st input).state.turn_index⟩]
        (movement_pass_loop rows cols num_players mode can_save n
          (movement_slot rows cols num_players mode can_save st input).state
          (movement_slot rows cols num_players mode can_save st input).input).visits
      rw [List.singleton_append] at e
      rw [e]
      constructor
      · omega
      · rcases h2 with h2 | h2
        · rcases ih2 with ih2 | ih2
          · exact Or.inl (ih2.trans h2)
          · right
            omega
        · right
          omega

/-- A pass that ended in `exit` has a quit among its visits. -/
theorem pass_exit_some (visits : List Visit) (code : Int) (h : pass_exit visits = some code) :
    ∃ v ∈ visits, ∃ saved, v.event = SlotEvent.quit code saved := by
  unfold pass_exit at h
  cases hl : visits.getLast? with
  | none => rw [hl] at h; cases h
  | some v =>
    rw [hl] at h
    refine ⟨v, List.mem_of_getLast?_eq_some hl, ?_⟩
    cases hev : v.event with
    | quit code2 saved =>
      simp only [hev, Option.some.injEq] at h
      exact ⟨saved, by rw [h]⟩
    | _ => simp only [hev] at h; cases h

/-- The loop of the movement phase ends within as many passes as there are unowned tiles
with fish, plus one; it applies at most that many moves; and it ends by its own
condition unless a player quits. -/
theorem movement_phase_loop_free (rows cols num_players mode : Int) (can_save : Bool) :
    ∀ (fuel : Nat) (st : MoveState) (input : List (List Char)),
      free_tiles st.board rows cols < fuel →
      (movement_phase_loop rows cols num_players mode can_save fuel st input).status ≠
          PhaseStatus.out_of_fuel ∧
        free_tiles
            (movement_phase_loop rows cols num_players mode can_save fuel st input).state.board
            rows cols +
          count_moves (movement_phase_loop rows cols num_players mode can_save fuel st input).visits
          ≤ free_tiles st.board rows cols ∧
        ((∀ v ∈ (movement_phase_loop rows cols num_players mode can_save fuel st input).visits,
            ∀ code saved, v.event ≠ SlotEvent.quit code saved) →
          (movement_phase_loop rows cols num_players mode can_save fuel st input).status =
            PhaseStatus.finished)
  | 0, st, input, h => absurd h (Nat.not_lt_zero _)
  | fuel + 1, st, input, h => by
    obtain ⟨hp1, hp2⟩ := movement_pass_loop_free rows cols num_players mode can_save
      num_players.toNat { st with any_move := 0 } input
    have hp1 : free_tiles (movement_pass rows cols num_players mode can_save st input).state.board
          rows cols +
          count_moves (movement_pass rows cols num_players mode can_save st input).visits
        ≤ free_tiles st.board rows cols := hp1
    have hp2 : (movement_pass rows cols num_players mode can_save st input).state.any_move = 0 ∨
        1 ≤ count_moves (movement_pass rows cols num_players mode can_save st input).visits := hp2
    simp only [movement_phase_loop]
    by_cases hact : st.active_count > 0
    · rw [if_pos hact]
      cases hex : pass_exit (movement_pass rows cols num_players mode can_save st input).visits with
      | some code =>
        simp only []
        refine ⟨fun hc => (by cases hc), hp1, fun hq => ?_⟩
        obtain ⟨v, hv, saved, hev⟩ := pass_exit_some _ _ hex
        exact absurd hev (hq v hv code saved)
      | none =>
        simp only []
        by_cases hany : (movement_pass rows cols num_players mode can_save st input).state.any_move = 0
        · rw [if_pos hany]
          exact ⟨fun hc => (by cases hc), hp1, fun _ => rfl⟩
        · rw [if_neg hany]
          have hmv : 1 ≤
              count_moves (movement_pass rows cols num_players mode can_save st input).visits := by
            rcases hp2 with hp2 | hp2
            · exact absurd hp2 hany
            · exact hp2
          obtain ⟨i1, i2, i3⟩ := movement_phase_loop_free rows cols num_players mode can_save fuel
            (movement_pass rows cols num_players mode can_save st input).state
            (movement_pass rows cols num_players mode can_save st input).input (by omega)
          simp only []
          refine ⟨i1, ?_, fun hq => i3 (fun v hv => hq v (List.mem_append_right _ hv))⟩
          rw [count_moves_append]
          omega
    · rw [if_neg hact]
      refine ⟨fun hc => (by cases hc), ?_, fun _ => rfl⟩
      simp [count_moves]

/-- C19: `movement_phase` terminates: on every finite board, with any players and any
answers to the prompts, the loop ends within the passes counted by the unowned tiles with
fish; it returns by its own condition unless a prompt is answered with Q or by the end of
the input; and the moves it applies are at most as many as the unowned tiles with fish at
its start. -/
theorem movement_phase_terminates (rows cols num_players mode : Int) (can_save : Bool)
    (board : Board) (players : Players) (turn_index : Int) (active_flags : Flags)
    (input : List (List Char)) :
    (movement_phase rows cols num_players mode can_save board players turn_index active_flags
        input).status ≠ PhaseStatus.out_of_fuel ∧
      ((∀ v ∈ (movement_phase rows cols num_players mode can_save board players turn_index
            active_flags input).visits, ∀ code saved, v.event ≠ SlotEvent.quit code saved) →
        (movement_phase rows cols num_players mode can_save board players turn_index active_flags
          input).status = PhaseStatus.finished) ∧
      count_moves (movement_phase rows cols num_players mode can_save board players turn_index
        active_flags input).visits ≤ free_tiles board rows cols := by
  obtain ⟨h1, h2, h3⟩ := movement_phase_loop_free rows cols num_players mode can_save
    (free_tiles board rows cols + 1)
    ⟨board, players, turn_index, active_flags, count_active active_flags num_players, 0⟩ input
    (Nat.lt_succ_self _)
  refine ⟨h1, h3, ?_⟩
  have h2' : free_tiles (movement_phase rows cols num_players mode can_save board players
        turn_index active_flags input).state.board rows cols +
      count_moves (movement_phase rows cols num_players mode can_save board players turn_index
        active_flags input).visits ≤ free_tiles board rows cols := h2
  omega

/-! ### The end of a game started by `play_game` -/

/-- A move of another player does not change which tiles a player owns. -/
theorem find_penguin_apply (rows cols : Int) (st : MoveState) (idx pr pc tr tc a : Int)
    (ha0 : a ≠ 0) (hab : a ≠ (st.players idx).id)
    (hfrom : (st.board pr pc).owner = (st.players idx).id) (hto : (st.board tr tc).owner = 0) :
    find_penguin (apply_move st idx pr pc tr tc).board rows cols a =
      find_penguin st.board rows cols a := by
  have hiff : ∀ r c, ((apply_move st idx pr pc tr tc).board r c).owner = a ↔
      (st.board r c).owner = a := by
    intro r c
    rw [apply_move_board]
    by_cases h1 : r = pr ∧ c = pc
    · rw [if_pos h1, h1.1, h1.2, hfrom]
      exact ⟨fun h => absurd h.symm ha0, fun h => absurd h.symm hab⟩
    · rw [if_neg h1]
      by_cases h2 : r = tr ∧ c = tc
      · rw [if_pos h2, h2.1, h2.2, hto]
        exact ⟨fun h => absurd h.symm hab, fun h => absurd h.symm ha0⟩
      · rw [if_neg h2]
  unfold find_penguin
  congr 1
  funext r
  congr 1
  funext c
  exact if_congr (hiff r c) rfl rfl

/-- A move opens no target: a step that is valid after a move was valid before it. -/
theorem is_valid_move_apply (rows cols : Int) (st : MoveState) (idx pr pc tr tc a r c r' c' : Int)
    (hid : (st.players idx).id ≠ 0)
    (h : is_valid_move (apply_move st idx pr pc tr tc).board rows cols a r c r' c' = true) :
    is_valid_move st.board rows cols a r c r' c' = true := by
  rw [is_valid_move_eq_true] at h ⊢
  obtain ⟨hin, hadj, hnd, hown⟩ := h
  rw [apply_move_board] at hnd hown
  by_cases h1 : r' = pr ∧ c' = pc
  · rw [if_pos h1] at hnd
    exact absurd ⟨rfl, rfl⟩ hnd
  · rw [if_neg h1] at hnd hown
    by_cases h2 : r' = tr ∧ c' = tc
    · rw [if_pos h2] at hown
      exact absurd hown hid
    · rw [if_neg h2] at hnd hown
      exact ⟨hin, hadj, hnd, hown⟩

/-- A player who cannot move still cannot move after the move of another player. -/
theorem player_can_move_apply (rows cols : Int) (st : MoveState) (idx pr pc tr tc a : Int)
    (ha0 : a ≠ 0) (hab : a ≠ (st.players idx).id) (hid : (st.players idx).id ≠ 0)
    (hfrom : (st.board pr pc).owner = (st.players idx).id) (hto : (st.board tr tc).owner = 0)
    (h : player_can_move st.board rows cols a = false) :
    player_can_move (apply_move st idx pr pc tr tc).board rows cols a = false := by
  have hv : ∀ r c r' c', is_valid_move st.board rows cols a r c r' c' = false →
      is_valid_move (apply_move st idx pr pc tr tc).board rows cols a r c r' c' = false := by
    intro r c r' c' hf
    cases hc : is_valid_move (apply_move st idx pr pc tr tc).board rows cols a r c r' c' with
    | false => rfl
    | true =>
      rw [is_valid_move_apply rows cols st idx pr pc tr tc a r c r' c' hid hc] at hf
      cases hf
  unfold player_can_move at h ⊢
  rw [find_penguin_apply rows cols st idx pr pc tr tc a ha0 hab hfrom hto]
  cases hfp : find_penguin st.board rows cols a with
  | none => rfl
  | some rc =>
    obtain ⟨r, c⟩ := rc
    rw [hfp] at h
    simp only [] at h ⊢
    cases h1 : is_valid_move st.board rows cols a r c (r - 1) c with
    | true => rw [h1] at h; simp at h
    | false =>
      cases h2 : is_valid_move st.board rows cols a r c (r + 1) c with
      | true => rw [h1, h2] at h; simp at h
      | false =>
        cases h3 : is_valid_move st.board rows cols a r c r (c - 1) with
        | true => rw [h1, h2, h3] at h; simp at h
        | false =>
          cases h4 : is_valid_move st.board rows cols a r c r (c + 1) with
          | true => rw [h1, h2, h3, h4] at h; simp at h
          | false =>
            rw [hv _ _ _ _ h1, hv _ _ _ _ h2, hv _ _ _ _ h3, hv _ _ _ _ h4]
            simp

/-- Clearing a set flag of a slot lowers the number of set flags by one. -/
theorem count_active_clear (flags : Flags) (num_players idx : Int) (h0 : 0 ≤ idx)
    (hn : idx < num_players) (hset : flags idx ≠ 0) :
    count_active (set_flag flags idx 0) num_players = count_active flags num_players - 1 := by
  obtain ⟨l1, l2, hsplit, hl1, hl2, _⟩ := upto_split num_players idx h0 hn
  unfold count_active
  rw [hsplit]
  have e1 : (l1.filter fun p => decide (set_flag flags idx 0 p ≠ 0)) =
      l1.filter fun p => decide (flags p ≠ 0) := by
    apply List.filter_congr
    intro x hx
    have := hl1 x hx
    unfold set_flag
    rw [if_neg (by omega)]
  have e2 : (l2.filter fun p => decide (set_flag flags idx 0 p ≠ 0)) =
      l2.filter fun p => decide (flags p ≠ 0) := by
    apply List.filter_congr
    intro x hx
    have := hl2 x hx
    unfold set_flag
    rw [if_neg (by omega)]
  have e3 : decide (set_flag flags idx 0 idx ≠ 0) = false := by
    unfold set_flag
    simp
  have e4 : decide (flags idx ≠ 0) = true := by simpa using hset
  rw [List.filter_append, List.filter_append, List.filter_cons, List.filter_cons, e1, e2, e3, e4]
  simp only [Bool.false_eq_true, if_false, if_true, List.length_append, List.length_cons]
  push_cast
  omega

/-- When no flag is counted, every flag of a slot is clear. -/
theorem count_active_zero (flags : Flags) (num_players : Int)
    (h : count_active flags num_players ≤ 0) :
    ∀ i, 0 ≤ i → i < num_players → flags i = 0 := by
  intro i h0 hn
  unfold count_active at h
  have hlen : ((upto num_players).filter fun p => decide (flags p ≠ 0)).length = 0 := by
    omega
  have hnil := List.length_eq_zero.mp hlen
  by_contra hne
  have hmem : i ∈ (upto num_players).filter fun p => decide (flags p ≠ 0) := by
    rw [List.mem_filter]
    exact ⟨(mem_upto _ _).2 ⟨h0, hn⟩, by simpa using hne⟩
  rw [hnil] at hmem
  cases hmem

/-- After the loop of `play_game` every flag of a slot is 1. -/
theorem init_flags_spec (heap : Flags) (num_players : Int) :
    ∀ i, 0 ≤ i → i < num_players → init_flags heap num_players i = 1 := by
  have hgen : ∀ (l : List Int) (flags : Flags) (i : Int),
      (l.foldl (fun flags i => set_flag flags i 1) flags) i = if i ∈ l then 1 else flags i := by
    intro l
    induction l with
    | nil => intro flags i; simp
    | cons a l ih =>
      intro flags i
      rw [List.foldl_cons, ih]
      by_cases hil : i ∈ l
      · rw [if_pos hil, if_pos (List.mem_cons_of_mem _ hil)]
      · rw [if_neg hil]
        unfold set_flag
        by_cases hia : i = a
        · rw [if_pos hia, if_pos (by rw [hia]; exact List.mem_cons_self _ _)]
        · rw [if_neg hia, if_neg (by simp [hia, hil])]
  intro i h0 hn
  unfold init_flags
  rw [hgen, if_pos ((mem_upto _ _).2 ⟨h0, hn⟩)]

/-- The four ways a slot of the turn loop can end, with the state each one leaves. -/
theorem movement_slot_spec (rows cols num_players mode : Int) (can_save : Bool)
    (st : MoveState) (input : List (List Char)) :
    ((movement_slot rows cols num_players mode can_save st input).state =
        { st with turn_index := Int.tmod (Int.tmod st.turn_index num_players + 1) num_players } ∧
      (movement_slot rows cols num_players mode can_save st input).stop = false ∧
      st.active_flags (Int.tmod st.turn_index num_players) = 0) ∨
    ((movement_slot rows cols num_players mode can_save st input).state =
        deactivate
          { st with turn_index := Int.tmod (Int.tmod st.turn_index num_players + 1) num_players }
          (Int.tmod st.turn_index num_players) ∧
      (movement_slot rows cols num_players mode can_save st input).stop =
        decide (st.active_count - 1 = 0) ∧
      st.active_flags (Int.tmod st.turn_index num_players) ≠ 0 ∧
      (player_can_move st.board rows cols (st.players (Int.tmod st.turn_index num_players)).id =
          false ∨
        find_best_adjacent_move st.board rows cols
          (st.players (Int.tmod st.turn_index num_players)).id = none)) ∨
    ((∃ pr pc tr tc, (movement_slot rows cols num_players mode can_save st input).event =
        SlotEvent.moved pr pc tr tc) ∧
      (movement_slot rows cols num_players mode can_save st input).stop = false ∧
      st.active_flags (Int.tmod st.turn_index num_players) ≠ 0) ∨
    ((movement_slot rows cols num_players mode can_save st input).state =
        { st with turn_index := Int.tmod (Int.tmod st.turn_index num_players + 1) num_players } ∧
      (movement_slot rows cols num_players mode can_save st input).stop = true ∧
      ∃ code saved, (movement_slot rows cols num_players mode can_save st input).event =
        SlotEvent.quit code saved) := by
  unfold movement_slot
  simp only []
  by_cases h1 : st.active_flags (Int.tmod st.turn_index num_players) = 0
  · rw [if_pos h1]
    exact Or.inl ⟨rfl, rfl, h1⟩
  · rw [if_neg h1]
    by_cases hnc : (!player_can_move st.board rows cols
        (st.players (Int.tmod st.turn_index num_players)).id) = true
    · rw [if_pos hnc]
      refine Or.inr (Or.inl ⟨rfl, rfl, h1, Or.inl ?_⟩)
      simpa using hnc
    · rw [if_neg hnc]
      have hcm : player_can_move st.board rows cols
          (st.players (Int.tmod st.turn_index num_players)).id = true := by
        simpa using hnc
      cases hfp : find_penguin st.board rows cols
          (st.players (Int.tmod st.turn_index num_players)).id with
      | none =>
        unfold player_can_move at hcm
        rw [hfp] at hcm
        cases hcm
      | some rc =>
        obtain ⟨pr, pc⟩ := rc
        simp only []
        by_cases hai : (st.players (Int.tmod st.turn_index num_players)).is_ai ≠ 0
        · rw [if_pos hai]
          cases hfb : find_best_adjacent_move st.board rows cols
              (st.players (Int.tmod st.turn_index num_players)).id with
          | none => exact Or.inr (Or.inl ⟨rfl, rfl, h1, Or.inr rfl⟩)
          | some t =>
            obtain ⟨tr, tc⟩ := t
            exact Or.inr (Or.inr (Or.inl ⟨⟨pr, pc, tr, tc, rfl⟩, rfl, h1⟩))
        · rw [if_neg hai]
          cases hhm : human_move st.board rows cols st.players num_players mode
              (Int.tmod (Int.tmod st.turn_index num_players + 1) num_players) st.active_flags
              can_save (st.players (Int.tmod st.turn_index num_players)).id pr pc input with
          | quit code saved => exact Or.inr (Or.inr (Or.inr ⟨rfl, rfl, code, saved, rfl⟩))
          | move tr tc rest =>
            exact Or.inr (Or.inr (Or.inl ⟨⟨pr, pc, tr, tc, rfl⟩, rfl, h1⟩))

/-- A slot of the turn loop keeps the facts of `move_inv`. -/
theorem movement_slot_inv (rows cols num_players mode : Int) (can_save : Bool)
    (st : MoveState) (input : List (List Char)) (h : move_inv rows cols num_players st) :
    move_inv rows cols num_players
      (movement_slot rows cols num_players mode can_save st input).state := by
  obtain ⟨⟨hid, hfish, hscore⟩, hcount, ⟨ht0, htn⟩, hblock⟩ := h
  have hnp : 0 < num_players := by omega
  have hidx : Int.tmod st.turn_index num_players = st.turn_index := by
    rw [Int.tmod_eq_emod ht0 (by omega)]
    exact Int.emod_eq_of_lt ht0 htn
  have hturn : 0 ≤ Int.tmod (Int.tmod st.turn_index num_players + 1) num_players ∧
      Int.tmod (Int.tmod st.turn_index num_players + 1) num_players < num_players := by
    rw [hidx, Int.tmod_eq_emod (by omega) (by omega)]
    exact ⟨Int.emod_nonneg _ (by omega), Int.emod_lt_of_pos _ hnp⟩
  have hturn2 : 0 ≤ Int.tmod (st.turn_index + 1) num_players ∧
      Int.tmod (st.turn_index + 1) num_players < num_players := by
    rw [hidx] at hturn
    exact hturn
  have hfish0 : ∀ r c, 0 ≤ r → r < rows → 0 ≤ c → c < cols → 0 ≤ (st.board r c).fish :=
    fun r c h1 h2 h3 h4 => (hfish r c h1 h2 h3 h4).1
  rcases movement_slot_spec rows cols num_players mode can_save st input with
    ⟨hst, _, _⟩ | ⟨hst, _, hflag, hcan⟩ | ⟨⟨pr, pc, tr, tc, hev⟩, _, hflag⟩ | ⟨hst, _, _⟩
  · rw [hst]
    exact ⟨⟨hid, hfish, hscore⟩, hcount, hturn, hblock⟩
  · rw [hst]
    have hcan' : player_can_move st.board rows cols
        (st.players (Int.tmod st.turn_index num_players)).id = false := by
      rcases hcan with hcan | hcan
      · exact hcan
      · exact (find_best_none_iff st.board rows cols _ hfish0).1 hcan
    rw [hidx] at hflag hcan' ⊢
    refine ⟨⟨hid, hfish, hscore⟩, ?_, hturn2, ?_⟩
    · show count_active (set_flag st.active_flags st.turn_index 0) num_players =
        st.active_count - 1
      rw [count_active_clear st.active_flags num_players st.turn_index ht0 htn hflag, hcount]
    · intro i h0 hn hz
      show player_can_move st.board rows cols (st.players i).id = false
      by_cases hi : i = st.turn_index
      · rw [hi]
        exact hcan'
      · apply hblock i h0 hn
        have hz' : set_flag st.active_flags st.turn_index 0 i = 0 := hz
        unfold set_flag at hz'
        rw [if_neg hi] at hz'
        exact hz'
  · obtain ⟨hfp, hv, _, hst⟩ := movement_slot_moved rows cols num_players mode can_save st input
      pr pc tr tc hev
    rw [hst]
    rw [hidx] at hfp hv hflag ⊢
    obtain ⟨_, hown⟩ := find_penguin_some _ _ _ _ _ _ hfp
    rw [is_valid_move_eq_true] at hv
    obtain ⟨hin, _, hnd, hto⟩ := hv
    have hfpos : 1 ≤ (st.board tr tc).fish := by
      have := hfish0 tr tc hin.1 hin.2.1 hin.2.2.1 hin.2.2.2
      have hne : (st.board tr tc).fish ≠ 0 := fun hf => hnd ⟨hf, hto⟩
      omega
    have hidt := hid st.turn_index ht0 htn
    refine ⟨⟨?_, ?_, ?_⟩, hcount, hturn2, ?_⟩
    · intro i h0 hn
      rw [apply_move_players]
      by_cases hi : i = st.turn_index
      · rw [if_pos hi, hi]
        exact hidt
      · rw [if_neg hi]
        exact hid i h0 hn
    · intro r c h1 h2 h3 h4
      rw [apply_move_board]
      by_cases hc1 : r = pr ∧ c = pc
      · rw [if_pos hc1]
        exact ⟨le_refl _, (by show (0 : Int) ≤ 3; decide)⟩
      · rw [if_neg hc1]
        by_cases hc2 : r = tr ∧ c = tc
        · rw [if_pos hc2]
          exact ⟨le_refl _, (by show (0 : Int) ≤ 3; decide)⟩
        · rw [if_neg hc2]
          exact hfish r c h1 h2 h3 h4
    · intro i h0 hn
      rw [apply_move_players]
      by_cases hi : i = st.turn_index
      · rw [if_pos hi]
        have := hscore st.turn_index ht0 htn
        constructor
        · show 0 ≤ (st.players st.turn_index).score + (st.board tr tc).fish
          omega
        · intro _
          show 1 ≤ (st.players st.turn_index).score + (st.board tr tc).fish
          omega
      · rw [if_neg hi]
        exact hscore i h0 hn
    · intro i h0 hn hz
      have hi : i ≠ st.turn_index := by
        intro hi
        rw [hi] at hz
        exact hflag hz
      have hidi := hid i h0 hn
      have hpl : ((apply_move
          { st with turn_index := Int.tmod (st.turn_index + 1) num_players }
          st.turn_index pr pc tr tc).players i).id = (st.players i).id := by
        rw [apply_move_players, if_neg hi]
      rw [hpl]
      exact player_can_move_apply rows cols
        { st with turn_index := Int.tmod (st.turn_index + 1) num_players }
        st.turn_index pr pc tr tc (st.players i).id (by omega)
        (by
          show (st.players i).id ≠ (st.players st.turn_index).id
          omega)
        (by
          show (st.players st.turn_index).id ≠ 0
          omega)
        hown hto (hblock i h0 hn hz)
  · rw [hst]
    exact ⟨⟨hid, hfish, hscore⟩, hcount, hturn, hblock⟩

/-- What every slot keeps, the inner loop keeps. -/
theorem movement_pass_loop_inv (rows cols num_players mode : Int) (can_save : Bool)
    (P : MoveState → Prop)
    (hslot : ∀ st input, P st → P (movement_slot rows cols num_players mode can_save st input).state) :
    ∀ (n : Nat) (st : MoveState) (input : List (List Char)), P st →
      P (movement_pass_loop rows cols num_players mode can_save n st input).state
  | 0, st, input, h => h
  | n + 1, st, input, h => by
    simp only [movement_pass_loop]
    split_ifs
    · exact hslot st input h
    · exact movement_pass_loop_inv rows cols num_players mode can_save P hslot n _ _
        (hslot st input h)

/-- What every slot keeps and the reset of `any_move` keeps, the movement phase keeps. -/
theorem movement_phase_loop_inv (rows cols num_players mode : Int) (can_save : Bool)
    (P : MoveState → Prop)
    (hslot : ∀ st input, P st → P (movement_slot rows cols num_players mode can_save st input).state)
    (hreset : ∀ st : MoveState, P st → P { st with any_move := 0 }) :
    ∀ (fuel : Nat) (st : MoveState) (input : List (List Char)), P st →
      P (movement_phase_loop rows cols num_players mode can_save fuel st input).state
  | 0, st, input, h => h
  | fuel + 1, st, input, h => by
    have hp : P (movement_pass rows cols num_players mode can_save st input).state :=
      movement_pass_loop_inv rows cols num_players mode can_save P hslot _ _ _ (hreset st h)
    simp only [movement_phase_loop]
    by_cases hact : st.active_count > 0
    · rw [if_pos hact]
      cases hex : pass_exit (movement_pass rows cols num_players mode can_save st input).visits with
      | some code => exact hp
      | none =>
        simp only []
        by_cases hany : (movement_pass rows cols num_players mode can_save st input).state.any_move = 0
        · rw [if_pos hany]
          exact hp
        · rw [if_neg hany]
          exact movement_phase_loop_inv rows cols num_players mode can_save P hslot hreset fuel _ _ hp
    · rw [if_neg hact]
      exact h

/-- A slot that neither ends the pass nor leaves `any_move` set leaves its own flag clear. -/
theorem movement_slot_clear (rows cols num_players mode : Int) (can_save : Bool)
    (st : MoveState) (input : List (List Char))
    (hstop : (movement_slot rows cols num_players mode can_save st input).stop = false)
    (hany : (movement_slot rows cols num_players mode can_save st input).state.any_move = 0) :
    (movement_slot rows cols num_players mode can_save st input).state.active_flags
      (Int.tmod st.turn_index num_players) = 0 := by
  rcases movement_slot_spec rows cols num_players mode can_save st input with
    ⟨hst, _, hflag⟩ | ⟨hst, _, _, _⟩ | ⟨⟨pr, pc, tr, tc, hev⟩, _, _⟩ | ⟨_, hs, _⟩
  · rw [hst]
    exact hflag
  · rw [hst]
    show set_flag st.active_flags (Int.tmod st.turn_index num_players) 0
      (Int.tmod st.turn_index num_players) = 0
    unfold set_flag
    rw [if_pos rfl]
  · obtain ⟨_, _, _, hst⟩ := movement_slot_moved rows cols num_players mode can_save st input
      pr pc tr tc hev
    rw [hst] at hany
    have h1 : (1 : Int) = 0 := hany
    exact absurd h1 (by decide)
  · rw [hs] at hstop
    cases hstop

/-- A slot that ends the pass has brought the active count to 0, or is a quit. -/
theorem movement_slot_stop (rows cols num_players mode : Int) (can_save : Bool)
    (st : MoveState) (input : List (List Char))
    (hstop : (movement_slot rows cols num_players mode can_save st input).stop = true) :
    (movement_slot rows cols num_players mode can_save st input).state.active_count = 0 ∨
      ∃ code saved, (movement_slot rows cols num_players mode can_save st input).event =
        SlotEvent.quit code saved := by
  rcases movement_slot_spec rows cols num_players mode can_save st input with
    ⟨_, hs, _⟩ | ⟨hst, hs, _, _⟩ | ⟨_, hs, _⟩ | ⟨_, _, hq⟩
  · rw [hs] at hstop
    cases hstop
  · left
    rw [hst]
    rw [hs] at hstop
    show st.active_count - 1 = 0
    simpa using hstop
  · rw [hs] at hstop
    cases hstop
  · exact Or.inr hq

/-- A slot does not clear `any_move` and does not set a flag. -/
theorem movement_slot_mono (rows cols num_players mode : Int) (can_save : Bool)
    (st : MoveState) (input : List (List Char)) :
    (st.any_move ≠ 0 →
      (movement_slot rows cols num_players mode can_save st input).state.any_move ≠ 0) ∧
    ∀ i, st.active_flags i = 0 →
      (movement_slot rows cols num_players mode can_save st input).state.active_flags i = 0 := by
  rcases movement_slot_spec rows cols num_players mode can_save st input with
    ⟨hst, _, _⟩ | ⟨hst, _, _, _⟩ | ⟨⟨pr, pc, tr, tc, hev⟩, _, _⟩ | ⟨hst, _, _⟩
  · rw [hst]
    exact ⟨fun h => h, fun i h => h⟩
  · rw [hst]
    refine ⟨fun h => h, fun i h => ?_⟩
    show set_flag st.active_flags (Int.tmod st.turn_index num_players) 0 i = 0
    unfold set_flag
    split_ifs
    · rfl
    · exact h
  · obtain ⟨_, _, _, hst⟩ := movement_slot_moved rows cols num_players mode can_save st input
      pr pc tr tc hev
    rw [hst]
    exact ⟨fun _ => (by show (1 : Int) ≠ 0; decide), fun i h => h⟩
  · rw [hst]
    exact ⟨fun h => h, fun i h => h⟩

/-- A pass that was left early has brought the active count to 0, or ended in a quit. -/
theorem movement_pass_loop_stopped (rows cols num_players mode : Int) (can_save : Bool) :
    ∀ (n : Nat) (st : MoveState) (input : List (List Char)),
      (movement_pass_loop rows cols num_players mode can_save n st input).stopped = true →
      (movement_pass_loop rows cols num_players mode can_save n st input).state.active_count = 0 ∨
        ∃ code, pass_exit
          (movement_pass_loop rows cols num_players mode can_save n st input).visits = some code
  | 0, st, input, h => by
    simp only [movement_pass_loop] at h
    cases h
  | n + 1, st, input, h => by
    simp only [movement_pass_loop] at h ⊢
    by_cases hs : (movement_slot rows cols num_players mode can_save st input).stop = true
    · rw [if_pos hs]
      rcases movement_slot_stop rows cols num_players mode can_save st input hs with
        hz | ⟨code, saved, hq⟩
      · exact Or.inl hz
      · right
        refine ⟨code, ?_⟩
        simp only [pass_exit, List.getLast?_singleton, hq]
    · rw [if_neg hs] at h ⊢
      rcases movement_pass_loop_stopped rows cols num_players mode can_save n _ _ h with
        hz | ⟨code, hq⟩
      · exact Or.inl hz
      · right
        refine ⟨code, ?_⟩
        simp only []
        cases hvis : (movement_pass_loop rows cols num_players mode can_save n
            (movement_slot rows cols num_players mode can_save st input).state
            (movement_slot rows cols num_players mode can_save st input).input).visits with
        | nil =>
          rw [hvis] at hq
          simp [pass_exit] at hq
        | cons w ws =>
          rw [hvis] at hq
          unfold pass_exit at hq ⊢
          rw [List.getLast?_cons_cons]
          exact hq

/-- A pass that goes through its `n` slots and leaves `any_move` at 0 leaves the flags of
these `n` slots clear. -/
theorem movement_pass_loop_clear (rows cols num_players mode : Int) (can_save : Bool)
    (hnp : 0 < num_players) :
    ∀ (n : Nat) (st : MoveState) (input : List (List Char)), 0 ≤ st.turn_index →
      (movement_pass_loop rows cols num_players mode can_save n st input).stopped = false →
      (movement_pass_loop rows cols num_players mode can_save n st input).state.any_move = 0 →
      ∀ k : Nat, k < n →
        (movement_pass_loop rows cols num_players mode can_save n st input).state.active_flags
          ((st.turn_index + (k : Int)) % num_players) = 0
  | 0, st, input, _, _, _ => fun k hk => absurd hk (Nat.not_lt_zero _)
  | n + 1, st, input, ht, hstopped, hany => by
    simp only [movement_pass_loop] at hstopped hany ⊢
    by_cases hs : (movement_slot rows cols num_players mode can_save st input).stop = true
    · rw [if_pos hs] at hstopped
      cases hstopped
    · rw [if_neg hs] at hstopped hany ⊢
      simp only [] at hstopped hany ⊢
      have hs' : (movement_slot rows cols num_players mode can_save st input).stop = false := by
        simpa using hs
      have hany1 : (movement_slot rows cols num_players mode can_save st input).state.any_move
          = 0 := by
        by_contra hne
        exact movement_pass_loop_inv rows cols num_players mode can_save
          (fun s => s.any_move ≠ 0)
          (fun s inp => (movement_slot_mono rows cols num_players mode can_save s inp).1)
          n _ _ hne hany
      have hclr := movement_slot_clear rows cols num_players mode can_save st input hs' hany1
      have htm : Int.tmod st.turn_index num_players = st.turn_index % num_players :=
        Int.tmod_eq_emod ht (by omega)
      have hturn : (movement_slot rows cols num_players mode can_save st input).state.turn_index =
          (st.turn_index + 1) % num_players := by
        rw [(movement_slot_turn rows cols num_players mode can_save st input).2, htm,
          Int.tmod_eq_emod (by have := Int.emod_nonneg st.turn_index (by omega : num_players ≠ 0); omega)
            (by omega),
          Int.emod_add_emod]
      intro k hk
      cases k with
      | zero =>
        have := movement_pass_loop_inv rows cols num_players mode can_save
          (fun s => s.active_flags (Int.tmod st.turn_index num_players) = 0)
          (fun s inp => (movement_slot_mono rows cols num_players mode can_save s inp).2 _)
          n _ (movement_slot rows cols num_players mode can_save st input).input hclr
        rw [htm] at this
        simpa using this
      | succ k =>
        have ih := movement_pass_loop_clear rows cols num_players mode can_save hnp n
          (movement_slot rows cols num_players mode can_save st input).state
          (movement_slot rows cols num_players mode can_save st input).input
          (by rw [hturn]; exact Int.emod_nonneg _ (by omega)) hstopped hany k (by omega)
        rw [hturn, emod_succ_add] at ih
        exact ih

/-- A turn of the placement phase keeps the facts of `place_inv`. -/
theorem placement_turn_inv (rows cols num_players : Int) (st : PlaceState) (p : Int)
    (input : List (Int × Int)) (h0 : 0 ≤ p) (hn : p < num_players)
    (h : place_inv rows cols num_players st) :
    place_inv rows cols num_players (placement_turn rows cols st p input).state := by
  rcases placement_turn_cases rows cols st p input with ⟨hst, _⟩ | ⟨r, c, hev, hleft, _⟩
  · rw [hst]
    exact h
  · obtain ⟨⟨hid, hfish, hscore⟩, hlefts⟩ := h
    obtain ⟨⟨_, hf1, _⟩, hst⟩ := placement_turn_placed rows cols st p input r c hev
    rw [hst]
    have hl1 : (st.players p).left = 1 := by
      rcases hlefts p h0 hn with hl | hl
      · exact absurd hl hleft
      · exact hl
    refine ⟨⟨?_, ?_, ?_⟩, ?_⟩
    · intro i hi0 hin
      rw [place_penguin_players]
      by_cases hip : i = p
      · rw [if_pos hip, hip]
        exact hid p h0 hn
      · rw [if_neg hip]
        exact hid i hi0 hin
    · intro r' c' h1 h2 h3 h4
      rw [place_penguin_board]
      by_cases hrc : r' = r ∧ c' = c
      · rw [if_pos hrc]
        exact ⟨le_refl _, (by show (0 : Int) ≤ 3; decide)⟩
      · rw [if_neg hrc]
        exact hfish r' c' h1 h2 h3 h4
    · intro i hi0 hin
      rw [place_penguin_players]
      by_cases hip : i = p
      · rw [if_pos hip]
        have := hscore p h0 hn
        constructor
        · show 0 ≤ (st.players p).score + (st.board r c).fish
          omega
        · intro _
          show 1 ≤ (st.players p).score + (st.board r c).fish
          omega
      · rw [if_neg hip]
        exact hscore i hi0 hin
    · intro i hi0 hin
      rw [place_penguin_players]
      by_cases hip : i = p
      · rw [if_pos hip]
        left
        show (st.players p).left - 1 = 0
        omega
      · rw [if_neg hip]
        exact hlefts i hi0 hin

/-- A player with no placement left has none left after any turn. -/
theorem placement_turn_left_zero (rows cols : Int) (st : PlaceState) (p : Int)
    (input : List (Int × Int)) (i : Int) (h : (st.players i).left = 0) :
    ((placement_turn rows cols st p input).state.players i).left = 0 := by
  rcases placement_turn_cases rows cols st p input with ⟨hst, _⟩ | ⟨r, c, hev, hleft, _⟩
  · rw [hst]
    exact h
  · rw [(placement_turn_placed rows cols st p input r c hev).2, place_penguin_players]
    by_cases hip : i = p
    · rw [hip] at h
      exact absurd h hleft
    · rw [if_neg hip]
      exact h

/-- What the turns of the listed slots keep, the player loop keeps. -/
theorem placement_round_inv (rows cols : Int) (P : PlaceState → Prop) :
    ∀ (ps : List Int) (st : PlaceState) (input : List (Int × Int)),
      (∀ p ∈ ps, ∀ s inp, P s → P (placement_turn rows cols s p inp).state) → P st →
      P (placement_round rows cols ps st input).state
  | [], st, input, _, h => h
  | p :: ps, st, input, hturn, h => by
    have hrest : ∀ q ∈ ps, ∀ s inp, P s → P (placement_turn rows cols s q inp).state :=
      fun q hq => hturn q (List.mem_cons_of_mem _ hq)
    simp only [placement_round]
    cases hev : (placement_turn rows cols st p input).event with
    | no_tile => exact h
    | quit code => exact h
    | placed r c =>
      exact placement_round_inv rows cols P ps _ _ hrest
        (hturn p (List.mem_cons_self _ _) st input h)
    | skipped => exact placement_round_inv rows cols P ps st input hrest h
    | ai_failed => exact placement_round_inv rows cols P ps st input hrest h

/-- What the turns of the slots keep, the placement phase keeps. -/
theorem placement_phase_loop_inv (rows cols num_players : Int) (P : PlaceState → Prop)
    (hturn : ∀ p, 0 ≤ p → p < num_players → ∀ s inp, P s →
      P (placement_turn rows cols s p inp).state) :
    ∀ (fuel : Nat) (st : PlaceState) (input : List (Int × Int)), P st →
      P (placement_phase_loop rows cols num_players fuel st input).state
  | 0, st, input, h => h
  | fuel + 1, st, input, h => by
    have hr : P (placement_round rows cols (upto num_players) st input).state :=
      placement_round_inv rows cols P _ st input
        (fun p hp => hturn p ((mem_upto _ _).1 hp).1 ((mem_upto _ _).1 hp).2) h
    simp only [placement_phase_loop]
    split_ifs
    · exact h
    · cases hex : (placement_round rows cols (upto num_players) st input).exited with
      | some code => exact hr
      | none =>
        exact placement_phase_loop_inv rows cols num_players P hturn fuel _ _ hr

/-- A player in the log of a round has no placement left after the round. -/
theorem placement_round_log (rows cols num_players : Int) :
    ∀ (ps : List Int) (st : PlaceState) (input : List (Int × Int)),
      (∀ p ∈ ps, 0 ≤ p ∧ p < num_players) → place_inv rows cols num_players st →
      ∀ p r c, (p, r, c) ∈ (placement_round rows cols ps st input).log →
        ((placement_round rows cols ps st input).state.players p).left = 0
  | [], st, input, _, _ => by
    intro p r c hmem
    simp [placement_round] at hmem
  | q :: ps, st, input, hps, h => by
    have hrest : ∀ p ∈ ps, 0 ≤ p ∧ p < num_players :=
      fun p hp => hps p (List.mem_cons_of_mem _ hp)
    have hq := hps q (List.mem_cons_self _ _)
    intro p r c
    simp only [placement_round]
    cases hev : (placement_turn rows cols st q input).event with
    | no_tile => intro hmem; simp at hmem
    | quit code => intro hmem; simp at hmem
    | placed r' c' =>
      simp only [List.mem_cons]
      have hinv := placement_turn_inv rows cols num_players st q input hq.1 hq.2 h
      rintro (hhead | htail)
      · have hpq : p = q := (Prod.mk.inj hhead).1
        rw [hpq]
        apply placement_round_inv rows cols (fun s => (s.players q).left = 0) ps _ _
          (fun p' _ s inp hs => placement_turn_left_zero rows cols s p' inp q hs)
        rw [(placement_turn_placed rows cols st q input r' c' hev).2, place_penguin_players,
          if_pos rfl]
        have hne := (placement_turn_cases rows cols st q input)
        rcases hne with ⟨_, hno⟩ | ⟨_, _, _, hleft, _⟩
        · exact absurd hev (hno r' c')
        · show (st.players q).left - 1 = 0
          rcases h.2 q hq.1 hq.2 with hl | hl
          · exact absurd hl hleft
          · omega
      · exact placement_round_log rows cols num_players ps _ _ hrest hinv p r c htail
    | skipped => exact placement_round_log rows cols num_players ps st input hrest h p r c
    | ai_failed => exact placement_round_log rows cols num_players ps st input hrest h p r c

/-- A player in the log of the placement phase has no placement left after the phase. -/
theorem placement_phase_loop_log (rows cols num_players : Int) :
    ∀ (fuel : Nat) (st : PlaceState) (input : List (Int × Int)),
      place_inv rows cols num_players st →
      ∀ p r c, (p, r, c) ∈ (placement_phase_loop rows cols num_players fuel st input).log →
        ((placement_phase_loop rows cols num_players fuel st input).state.players p).left = 0
  | 0, st, input, _ => by
    intro p r c hmem
    simp [placement_phase_loop] at hmem
  | fuel + 1, st, input, h => by
    have hturn : ∀ p, 0 ≤ p → p < num_players → ∀ s inp, place_inv rows cols num_players s →
        place_inv rows cols num_players (placement_turn rows cols s p inp).state :=
      fun p h0 hn s inp hs => placement_turn_inv rows cols num_players s p inp h0 hn hs
    have hr : place_inv rows cols num_players
        (placement_round rows cols (upto num_players) st input).state :=
      placement_round_inv rows cols _ _ st input
        (fun p hp => hturn p ((mem_upto _ _).1 hp).1 ((mem_upto _ _).1 hp).2) h
    have hlog := placement_round_log rows cols num_players (upto num_players) st input
      (fun p hp => (mem_upto _ _).1 hp) h
    intro p r c
    simp only [placement_phase_loop]
    split_ifs
    · intro hmem
      simp at hmem
    · cases hex : (placement_round rows cols (upto num_players) st input).exited with
      | some code => exact hlog p r c
      | none =>
        simp only [List.mem_append]
        rintro (h1 | h2)
        · exact placement_phase_loop_inv rows cols num_players (fun s => (s.players p).left = 0)
            (fun q _ _ s inp hs => placement_turn_left_zero rows cols s q inp p hs) fuel _ _
            (hlog p r c h1)
        · exact placement_phase_loop_log rows cols num_players fuel _ _ hr p r c h2

/-- A slot of the turn loop changes no `left` field. -/
theorem movement_slot_left (rows cols num_players mode : Int) (can_save : Bool)
    (st : MoveState) (input : List (List Char)) (i : Int) :
    ((movement_slot rows cols num_players mode can_save st input).state.players i).left =
      (st.players i).left := by
  rcases movement_slot_cases rows cols num_players mode can_save st input with
    ⟨pr, pc, tr, tc, hev⟩ | ⟨_, _, hp, _⟩
  · rw [(movement_slot_moved rows cols num_players mode can_save st input pr pc tr tc hev).2.2.2,
      apply_move_players]
    split_ifs with hi
    · rw [hi]
    · rfl
  · rw [hp]

/-- When the movement phase of a game started by `play_game` returns, the flag of every
slot is clear. -/
theorem movement_phase_loop_flags (rows cols num_players mode : Int) (can_save : Bool) :
    ∀ (fuel : Nat) (st : MoveState) (input : List (List Char)),
      move_inv rows cols num_players st →
      (movement_phase_loop rows cols num_players mode can_save fuel st input).status =
        PhaseStatus.finished →
      ∀ i, 0 ≤ i → i < num_players →
        (movement_phase_loop rows cols num_players mode can_save fuel st input).state.active_flags
          i = 0
  | 0, st, input, _, hfin => by
    simp only [movement_phase_loop] at hfin
    cases hfin
  | fuel + 1, st, input, h, hfin => by
    have hp : move_inv rows cols num_players
        (movement_pass rows cols num_players mode can_save st input).state :=
      movement_pass_loop_inv rows cols num_players mode can_save
        (move_inv rows cols num_players)
        (fun s inp hs => movement_slot_inv rows cols num_players mode can_save s inp hs) _ _ _ h
    simp only [movement_phase_loop] at hfin ⊢
    by_cases hact : st.active_count > 0
    · rw [if_pos hact] at hfin ⊢
      cases hex : pass_exit (movement_pass rows cols num_players mode can_save st input).visits with
      | some code =>
        rw [hex] at hfin
        cases hfin
      | none =>
        rw [hex] at hfin
        simp only [] at hfin ⊢
        by_cases hany : (movement_pass rows cols num_players mode can_save st input).state.any_move = 0
        · rw [if_pos hany]
          intro i h0 hn
          cases hstopped : (movement_pass rows cols num_players mode can_save st input).stopped with
          | true =>
            rcases movement_pass_loop_stopped rows cols num_players mode can_save _ _ _ hstopped
              with hz | ⟨code, hq⟩
            · exact count_active_zero _ num_players (by rw [hp.2.1]; exact le_of_eq hz) i h0 hn
            · rw [show pass_exit (movement_pass_loop rows cols num_players mode can_save
                  num_players.toNat { st with any_move := 0 } input).visits =
                pass_exit (movement_pass rows cols num_players mode can_save st input).visits
                from rfl, hex] at hq
              cases hq
          | false =>
            have hnp : 0 < num_players := by omega
            have hclr := movement_pass_loop_clear rows cols num_players mode can_save hnp
              num_players.toNat { st with any_move := 0 } input h.2.2.1.1 hstopped hany
            have hmem : i ∈ (List.range num_players.toNat).map
                fun (k : Nat) => (st.turn_index + (k : Int)) % num_players :=
              (cyclic_slots_perm st.turn_index num_players hnp).mem_iff.2
                ((mem_upto _ _).2 ⟨h0, hn⟩)
            obtain ⟨k, hk, hki⟩ := List.mem_map.1 hmem
            rw [← hki]
            exact hclr k (List.mem_range.1 hk)
        · rw [if_neg hany] at hfin ⊢
          exact movement_phase_loop_flags rows cols num_players mode can_save fuel _ _ hp hfin
    · rw [if_neg hact]
      exact count_active_zero _ num_players (by rw [h.2.1]; omega)

/-- What `init_players` does to the listed slots: `players[i]` gets the id `i + 1`, one
placement and the score 0. -/
theorem init_players_spec : ∀ (l : List Int) (players : Players) (names : List (List Char))
    (i : Int),
    (i ∈ l ∨ ((players i).id = i + 1 ∧ (players i).left = 1 ∧ (players i).score = 0)) →
    (init_players l players names i).id = i + 1 ∧ (init_players l players names i).left = 1 ∧
      (init_players l players names i).score = 0
  | [], players, names, i, h => by
    rcases h with h | h
    · cases h
    · exact h
  | a :: rest, players, names, i, h => by
    have key : ∀ (nm : List Char),
        i ∈ rest ∨
          (((set_player players a
              { players a with id := a + 1, left := 1, score := 0, name := nm }) i).id = i + 1 ∧
            ((set_player players a
              { players a with id := a + 1, left := 1, score := 0, name := nm }) i).left = 1 ∧
            ((set_player players a
              { players a with id := a + 1, left := 1, score := 0, name := nm }) i).score = 0) := by
      intro nm
      by_cases hia : i = a
      · right
        unfold set_player
        rw [if_pos hia, hia]
        exact ⟨rfl, rfl, rfl⟩
      · rcases h with h | h
        · rcases List.mem_cons.1 h with h | h
          · exact absurd h hia
          · exact Or.inl h
        · right
          unfold set_player
          rw [if_neg hia]
          exact h
    unfold init_players
    simp only []
    split_ifs
    · exact init_players_spec rest _ names i (key ['A', 'I'])
    · cases names with
      | nil => exact init_players_spec rest _ [] i (key (players a).name)
      | cons name more => exact init_players_spec rest _ more i (key (name.take 31))

/-- The placement part of the outcome of `play_game` is the outcome of the placement phase. -/
theorem play_game_placement (rows cols num_players : Int) (board : Board) (players : Players)
    (mem_ok can_save : Bool) (heap : Flags) (place_input : List (Int × Int))
    (move_input : List (List Char)) :
    (play_game rows cols num_players board players mem_ok can_save heap place_input
      move_input).placement =
      placement_phase rows cols num_players ⟨board, players⟩ place_input := by
  unfold play_game
  simp only []
  cases (placement_phase rows cols num_players ⟨board, players⟩ place_input).status with
  | finished =>
    cases mem_ok <;> rfl
  | exited code => rfl
  | out_of_fuel => rfl

/-- The movement part of the outcome of `play_game`, when there is one, is the outcome of
the movement phase on the state the placement phase leaves, with mode 1, turn index 0 and
every flag set by the loop of `play_game`. -/
theorem play_game_movement (rows cols num_players : Int) (board : Board) (players : Players)
    (mem_ok can_save : Bool) (heap : Flags) (place_input : List (Int × Int))
    (move_input : List (List Char)) (mv : MovementResult)
    (h : (play_game rows cols num_players board players mem_ok can_save heap place_input
      move_input).movement = some mv) :
    mv = movement_phase rows cols num_players 1 can_save
      (placement_phase rows cols num_players ⟨board, players⟩ place_input).state.board
      (placement_phase rows cols num_players ⟨board, players⟩ place_input).state.players 0
      (init_flags heap num_players) move_input := by
  unfold play_game at h
  simp only [] at h
  cases hst : (placement_phase rows cols num_players ⟨board, players⟩ place_input).status with
  | finished =>
    rw [hst] at h
    cases mem_ok with
    | false => simp at h
    | true =>
      simp only [Bool.not_true, Bool.false_eq_true, if_false, Option.some.injEq] at h
      exact h.symm
  | exited code =>
    rw [hst] at h
    simp at h
  | out_of_fuel =>
    rw [hst] at h
    simp at h

/-- C20: in a game started by `play_game` (tiles with 0 to 3 fish; `players[i]` with
id `i + 1`, one placement and score 0, as `init_players` leaves them; every flag set before
the movement phase), when `movement_phase` returns, the active flag of every player is 0,
`player_can_move` is false for every player, and every player who placed a penguin has a
score of at least 1. -/
theorem play_game_ends_blocked (rows cols num_players : Int) (board : Board) (players : Players)
    (mem_ok can_save : Bool) (heap : Flags) (place_input : List (Int × Int))
    (move_input : List (List Char)) (mv : MovementResult)
    (hfish : ∀ r c, 0 ≤ r → r < rows → 0 ≤ c → c < cols →
      0 ≤ (board r c).fish ∧ (board r c).fish ≤ 3)
    (hplayers : ∀ i, 0 ≤ i → i < num_players →
      (players i).id = i + 1 ∧ (players i).left = 1 ∧ (players i).score = 0)
    (hmv : (play_game rows cols num_players board players mem_ok can_save heap place_input
      move_input).movement = some mv)
    (hfin : mv.status = PhaseStatus.finished) :
    ∀ i, 0 ≤ i → i < num_players →
      mv.state.active_flags i = 0 ∧
      player_can_move mv.state.board rows cols (mv.state.players i).id = false ∧
      ∀ r c, (i, r, c) ∈ (play_game rows cols num_players board players mem_ok can_save heap
          place_input move_input).placement.log →
        1 ≤ (mv.state.players i).score := by
  intro i h0 hn
  have hnp : 0 < num_players := by omega
  have hp0 : place_inv rows cols num_players ⟨board, players⟩ := by
    refine ⟨⟨fun j hj0 hjn => (hplayers j hj0 hjn).1, hfish, fun j hj0 hjn => ?_⟩,
      fun j hj0 hjn => Or.inr (hplayers j hj0 hjn).2.1⟩
    obtain ⟨_, hl, hs⟩ := hplayers j hj0 hjn
    show 0 ≤ (players j).score ∧ ((players j).left = 0 → 1 ≤ (players j).score)
    rw [hl, hs]
    exact ⟨le_refl _, fun hc => absurd hc (by decide)⟩
  have hpl : place_inv rows cols num_players
      (placement_phase rows cols num_players ⟨board, players⟩ place_input).state :=
    placement_phase_loop_inv rows cols num_players (place_inv rows cols num_players)
      (fun p hp0 hpn s inp hs => placement_turn_inv rows cols num_players s p inp hp0 hpn hs)
      _ _ _ hp0
  have hlog : ∀ p r c,
      (p, r, c) ∈ (placement_phase rows cols num_players ⟨board, players⟩ place_input).log →
      ((placement_phase rows cols num_players ⟨board, players⟩ place_input).state.players p).left
        = 0 :=
    placement_phase_loop_log rows cols num_players _ _ _ hp0
  have hm0 : move_inv rows cols num_players
      ⟨(placement_phase rows cols num_players ⟨board, players⟩ place_input).state.board,
        (placement_phase rows cols num_players ⟨board, players⟩ place_input).state.players, 0,
        init_flags heap num_players, count_active (init_flags heap num_players) num_players, 0⟩ := by
    refine ⟨hpl.1, rfl, ⟨le_refl _, hnp⟩, fun j hj0 hjn hz => ?_⟩
    have h1 := init_flags_spec heap num_players j hj0 hjn
    have hz' : init_flags heap num_players j = 0 := hz
    rw [h1] at hz'
    exact absurd hz' (by decide)
  have hmv' := play_game_movement rows cols num_players board players mem_ok can_save heap
    place_input move_input mv hmv
  have hfinal := movement_phase_loop_inv rows cols num_players 1 can_save
    (fun s => move_inv rows cols num_players s ∧ ∀ j, (s.players j).left =
      ((placement_phase rows cols num_players ⟨board, players⟩ place_input).state.players j).left)
    (fun s inp hs => ⟨movement_slot_inv rows cols num_players 1 can_save s inp hs.1,
      fun j => by rw [movement_slot_left]; exact hs.2 j⟩)
    (fun s hs => hs)
    (free_tiles (placement_phase rows cols num_players ⟨board, players⟩
      place_input).state.board rows cols + 1) _ move_input ⟨hm0, fun j => rfl⟩
  have hflags := movement_phase_loop_flags rows cols num_players 1 can_save
    (free_tiles (placement_phase rows cols num_players ⟨board, players⟩
      place_input).state.board rows cols + 1) _ move_input hm0
  rw [play_game_placement]
  rw [hmv'] at hfin ⊢
  have hflag := hflags hfin i h0 hn
  refine ⟨hflag, hfinal.1.2.2.2 i h0 hn hflag, fun r c hmem => ?_⟩
  exact (hfinal.1.1.2.2 i h0 hn).2 ((hfinal.2 i).trans (hlog i r c hmem))

/-- When the placement phase returns and the flag array is allocated, `play_game` runs the
movement phase. -/
theorem play_game_movement_some (rows cols num_players : Int) (board : Board)
    (players : Players) (can_save : Bool) (heap : Flags) (place_input : List (Int × Int))
    (move_input : List (List Char))
    (h : (placement_phase rows cols num_players ⟨board, players⟩ place_input).status =
      PhaseStatus.finished) :
    (play_game rows cols num_players board players true can_save heap place_input
      move_input).movement =
      some (movement_phase rows cols num_players 1 can_save
        (placement_phase rows cols num_players ⟨board, players⟩ place_input).state.board
        (placement_phase rows cols num_players ⟨board, players⟩ place_input).state.players 0
        (init_flags heap num_players) move_input) := by
  unfold play_game
  simp only [h, Bool.not_true, Bool.false_eq_true, if_false]

/-- Witness for C20: on the initialised 2 x 2 board the AI places on (0, 0) and moves to
(0, 1), the human places on (1, 0) and moves to (1, 1); then both are blocked, both flags
are cleared, and the scores are 4 and 3. -/
theorem play_game_ends_blocked_witness :
    (ex_game_movement.status = PhaseStatus.finished ∧
      count_moves ex_game_movement.visits = 2) ∧
    (ex_game_movement.state.active_flags 0 = 0 ∧
      player_can_move ex_game_movement.state.board 2 2 (ex_game_movement.state.players 0).id
        = false ∧
      1 ≤ (ex_game_movement.state.players 0).score) ∧
    (ex_game_movement.state.active_flags 1 = 0 ∧
      player_can_move ex_game_movement.state.board 2 2 (ex_game_movement.state.players 1).id
        = false ∧
      1 ≤ (ex_game_movement.state.players 1).score) :=
  ⟨⟨by decide, by decide⟩,
    ⟨(play_game_ends_blocked 2 2 2 ex_init_board ex_place_state.players true true (fun _ => 0)
        [(2, 1)] [['d', '\n']] ex_game_movement
        (by intro r c _ _ _ _; unfold ex_init_board; split_ifs <;> decide)
        (by intro i h0 h2; interval_cases i <;> decide)
        (play_game_movement_some 2 2 2 ex_init_board ex_place_state.players true (fun _ => 0)
          [(2, 1)] [['d', '\n']] (by decide))
        (by decide) 0 (by decide) (by decide)).1,
      (play_game_ends_blocked 2 2 2 ex_init_board ex_place_state.players true true (fun _ => 0)
        [(2, 1)] [['d', '\n']] ex_game_movement
        (by intro r c _ _ _ _; unfold ex_init_board; split_ifs <;> decide)
        (by intro i h0 h2; interval_cases i <;> decide)
        (play_game_movement_some 2 2 2 ex_init_board ex_place_state.players true (fun _ => 0)
          [(2, 1)] [['d', '\n']] (by decide))
        (by decide) 0 (by decide) (by decide)).2.1,
      (play_game_ends_blocked 2 2 2 ex_init_board ex_place_state.players true true (fun _ => 0)
        [(2, 1)] [['d', '\n']] ex_game_movement
        (by intro r c _ _ _ _; unfold ex_init_board; split_ifs <;> decide)
        (by intro i h0 h2; interval_cases i <;> decide)
        (play_game_movement_some 2 2 2 ex_init_board ex_place_state.players true (fun _ => 0)
          [(2, 1)] [['d', '\n']] (by decide))
        (by decide) 0 (by decide) (by decide)).2.2 0 0 (by decide)⟩,
    ⟨(play_game_ends_blocked 2 2 2 ex_init_board ex_place_state.players true true (fun _ => 0)
        [(2, 1)] [['d', '\n']] ex_game_movement
        (by intro r c _ _ _ _; unfold ex_init_board; split_ifs <;> decide)
        (by intro i h0 h2; interval_cases i <;> decide)
        (play_game_movement_some 2 2 2 ex_init_board ex_place_state.players true (fun _ => 0)
          [(2, 1)] [['d', '\n']] (by decide))
        (by decide) 1 (by decide) (by decide)).1,
      (play_game_ends_blocked 2 2 2 ex_init_board ex_place_state.players true true (fun _ => 0)
        [(2, 1)] [['d', '\n']] ex_game_movement
        (by intro r c _ _ _ _; unfold ex_init_board; split_ifs <;> decide)
        (by intro i h0 h2; interval_cases i <;> decide)
        (play_game_movement_some 2 2 2 ex_init_board ex_place_state.players true (fun _ => 0)
          [(2, 1)] [['d', '\n']] (by decide))
        (by decide) 1 (by decide) (by decide)).2.1,
      (play_game_ends_blocked 2 2 2 ex_init_board ex_place_state.players true true (fun _ => 0)
        [(2, 1)] [['d', '\n']] ex_game_movement
        (by intro r c _ _ _ _; unfold ex_init_board; split_ifs <;> decide)
        (by intro i h0 h2; interval_cases i <;> decide)
        (play_game_movement_some 2 2 2 ex_init_board ex_place_state.players true (fun _ => 0)
          [(2, 1)] [['d', '\n']] (by decide))
        (by decide) 1 (by decide) (by decide)).2.2 1 0 (by decide)⟩⟩

/-! ### One tile per player -/

/-- The index list of a loop is strictly increasing. -/
theorem upto_sorted (n : Int) : (upto n).Pairwise (· < ·) := by
  unfold upto
  rw [List.pairwise_map]
  exact (List.pairwise_lt_range n.toNat).imp (fun h => by
    show ((_ : Nat) : Int) < ((_ : Nat) : Int)
    exact_mod_cast h)

/-- No coordinate occurs twice in the grid. -/
theorem grid_nodup (rows cols : Int) : (grid rows cols).Nodup := by
  unfold grid
  rw [List.nodup_flatMap]
  constructor
  · intro r _
    apply List.Nodup.map (fun a b h => (Prod.mk.inj h).2)
    exact (upto_sorted cols).imp (fun h => ne_of_lt h)
  · apply (upto_sorted rows).imp
    intro r r' hlt
    show List.Disjoint _ _
    intro x hx hx'
    obtain ⟨c, _, rfl⟩ := List.mem_map.1 hx
    obtain ⟨c', _, hc'⟩ := List.mem_map.1 hx'
    have := (Prod.mk.inj hc').1
    omega

/-- A filter whose accepted elements of a list without repetition are all equal keeps at
most one element. -/
theorem filter_length_le_one {α : Type} (p : α → Bool) :
    ∀ (l : List α), l.Nodup →
      (∀ x ∈ l, ∀ y ∈ l, p x = true → p y = true → x = y) → (l.filter p).length ≤ 1
  | [], _, _ => by simp
  | a :: l, hnd, h => by
    have hnd' := (List.nodup_cons.1 hnd)
    have ih := filter_length_le_one p l hnd'.2
      (fun x hx y hy => h x (List.mem_cons_of_mem _ hx) y (List.mem_cons_of_mem _ hy))
    rw [List.filter_cons]
    cases hpa : p a with
    | false => simpa using ih
    | true =>
      have hnil : l.filter p = [] := by
        rw [List.filter_eq_nil_iff]
        intro x hx hpx
        have := h a (List.mem_cons_self _ _) x (List.mem_cons_of_mem _ hx) hpa hpx
        rw [← this] at hx
        exact hnd'.1 hx
      simp [hnil]

/-- The slot index of a turn loop with a turn index that is not negative is a slot. -/
theorem tmod_slot (t n : Int) (h0 : 0 ≤ t) (hn : 0 < n) :
    0 ≤ Int.tmod t n ∧ Int.tmod t n < n := by
  rw [Int.tmod_eq_emod h0 (by omega)]
  exact ⟨Int.emod_nonneg _ (by omega), Int.emod_lt_of_pos _ hn⟩
/-- A step of the game keeps the facts of `own_inv`. -/
theorem play_step_own (rows cols num_players : Int) (s s' : PlaceState)
    (h : PlayStep rows cols num_players s s') (hinv : own_inv rows cols num_players s) :
    own_inv rows cols num_players s' := by
  obtain ⟨hid, hinj, hleft, hnone, huniq⟩ := hinv
  cases h with
  | placement st p input r c hp0 hpn hev =>
    obtain ⟨⟨hin, _, hown⟩, hst⟩ := placement_turn_placed rows cols s p input r c hev
    have hl1 : (s.players p).left = 1 := by
      rcases placement_turn_cases rows cols s p input with ⟨_, hno⟩ | ⟨_, _, _, hl, _⟩
      · exact absurd hev (hno r c)
      · rcases hleft p hp0 hpn with h0 | h1
        · exact absurd h0 hl
        · exact h1
    have hpid : ∀ i, ((place_penguin s p r c).players i).id = (s.players i).id := by
      intro i
      rw [place_penguin_players]
      split_ifs with hi
      · rw [hi]
      · rfl
    have hnone_p := hnone p hp0 hpn hl1
    rw [hst]
    refine ⟨?_, ?_, ?_, ?_, ?_⟩
    · intro i h0 hn
      rw [hpid]
      exact hid i h0 hn
    · intro i j hi0 hin hj0 hjn
      rw [hpid, hpid]
      exact hinj i j hi0 hin hj0 hjn
    · intro i h0 hn
      rw [place_penguin_players]
      by_cases hip : i = p
      · rw [if_pos hip]
        left
        show (s.players p).left - 1 = 0
        omega
      · rw [if_neg hip]
        exact hleft i h0 hn
    · intro i h0 hn hl r' c' h1 h2 h3 h4
      rw [hpid]
      have hip : i ≠ p := by
        intro hip
        rw [place_penguin_players, if_pos hip] at hl
        have hl' : (s.players p).left - 1 = 1 := hl
        omega
      rw [place_penguin_players, if_neg hip] at hl
      rw [place_penguin_board]
      by_cases hrc : r' = r ∧ c' = c
      · rw [if_pos hrc]
        exact fun he => hip (hinj p i hp0 hpn h0 hn he).symm
      · rw [if_neg hrc]
        exact hnone i h0 hn hl r' c' h1 h2 h3 h4
    · intro i h0 hn r1 c1 r2 c2 a1 a2 a3 a4 b1 b2 b3 b4
      rw [hpid, place_penguin_board, place_penguin_board]
      by_cases hip : i = p
      · rw [hip]
        by_cases hrc1 : r1 = r ∧ c1 = c
        · by_cases hrc2 : r2 = r ∧ c2 = c
          · intro _ _
            exact ⟨hrc1.1.trans hrc2.1.symm, hrc1.2.trans hrc2.2.symm⟩
          · rw [if_neg hrc2]
            intro _ he
            exact absurd he (hnone_p r2 c2 b1 b2 b3 b4)
        · rw [if_neg hrc1]
          intro he
          exact absurd he (hnone_p r1 c1 a1 a2 a3 a4)
      · have hne : (s.players p).id ≠ (s.players i).id :=
          fun he => hip (hinj p i hp0 hpn h0 hn he).symm
        by_cases hrc1 : r1 = r ∧ c1 = c
        · rw [if_pos hrc1]
          intro he
          exact absurd he hne
        · rw [if_neg hrc1]
          by_cases hrc2 : r2 = r ∧ c2 = c
          · rw [if_pos hrc2]
            intro _ he
            exact absurd he hne
          · rw [if_neg hrc2]
            exact huniq i h0 hn r1 c1 r2 c2 a1 a2 a3 a4 b1 b2 b3 b4
  | move st mode can_save input pr pc tr tc ht0 hnp hev =>
    obtain ⟨hfp, hv, _, hst⟩ := movement_slot_moved rows cols num_players mode can_save st input
      pr pc tr tc hev
    obtain ⟨hpin, hpown⟩ := find_penguin_some _ _ _ _ _ _ hfp
    rw [is_valid_move_eq_true] at hv
    obtain ⟨htin, hadj, _, hto⟩ := hv
    obtain ⟨hx0, hxn⟩ := tmod_slot st.turn_index num_players ht0 hnp
    have hid : ∀ i, 0 ≤ i → i < num_players → (st.players i).id ≠ 0 := hid
    have hinj : ∀ i j, 0 ≤ i → i < num_players → 0 ≤ j → j < num_players →
        (st.players i).id = (st.players j).id → i = j := hinj
    have hleft : ∀ i, 0 ≤ i → i < num_players →
        (st.players i).left = 0 ∨ (st.players i).left = 1 := hleft
    have hnone : ∀ i, 0 ≤ i → i < num_players → (st.players i).left = 1 →
        ∀ r c, 0 ≤ r → r < rows → 0 ≤ c → c < cols →
          (st.board r c).owner ≠ (st.players i).id := hnone
    have huniq : ∀ i, 0 ≤ i → i < num_players →
        ∀ r1 c1 r2 c2, 0 ≤ r1 → r1 < rows → 0 ≤ c1 → c1 < cols →
          0 ≤ r2 → r2 < rows → 0 ≤ c2 → c2 < cols →
          (st.board r1 c1).owner = (st.players i).id →
          (st.board r2 c2).owner = (st.players i).id → r1 = r2 ∧ c1 = c2 := huniq
    have hpl : ∀ i, ((movement_slot rows cols num_players mode can_save st input).state.players
          i).id = (st.players i).id ∧
        ((movement_slot rows cols num_players mode can_save st input).state.players i).left =
          (st.players i).left := by
      intro i
      rw [hst, apply_move_players]
      split_ifs with hi
      · rw [hi]
        exact ⟨rfl, rfl⟩
      · exact ⟨rfl, rfl⟩
    have hbd : ∀ r c, (movement_slot rows cols num_players mode can_save st input).state.board
          r c =
        if r = pr ∧ c = pc then ⟨0, 0⟩
        else if r = tr ∧ c = tc then ⟨0, (st.players (Int.tmod st.turn_index num_players)).id⟩
        else st.board r c := by
      intro r c
      rw [hst, apply_move_board]
    have hmover := hid _ hx0 hxn
    refine ⟨?_, ?_, ?_, ?_, ?_⟩
    · intro i h0 hn
      show ((movement_slot rows cols num_players mode can_save st input).state.players i).id ≠ 0
      rw [(hpl i).1]
      exact hid i h0 hn
    · intro i j hi0 hin hj0 hjn
      show ((movement_slot rows cols num_players mode can_save st input).state.players i).id =
        ((movement_slot rows cols num_players mode can_save st input).state.players j).id → i = j
      rw [(hpl i).1, (hpl j).1]
      exact hinj i j hi0 hin hj0 hjn
    · intro i h0 hn
      show ((movement_slot rows cols num_players mode can_save st input).state.players i).left = 0 ∨
        ((movement_slot rows cols num_players mode can_save st input).state.players i).left = 1
      rw [(hpl i).2]
      exact hleft i h0 hn
    · intro i h0 hn hl r c h1 h2 h3 h4
      have hl' : ((movement_slot rows cols num_players mode can_save st input).state.players
          i).left = 1 := hl
      rw [(hpl i).2] at hl'
      show ((movement_slot rows cols num_players mode can_save st input).state.board r c).owner ≠
        ((movement_slot rows cols num_players mode can_save st input).state.players i).id
      rw [(hpl i).1, hbd]
      have hne : (st.players (Int.tmod st.turn_index num_players)).id ≠ (st.players i).id := by
        intro he
        exact hnone i h0 hn hl' pr pc hpin.1 hpin.2.1 hpin.2.2.1 hpin.2.2.2 (hpown.trans he)
      by_cases hc1 : r = pr ∧ c = pc
      · rw [if_pos hc1]
        exact fun he => hid i h0 hn he.symm
      · rw [if_neg hc1]
        by_cases hc2 : r = tr ∧ c = tc
        · rw [if_pos hc2]
          exact hne
        · rw [if_neg hc2]
          exact hnone i h0 hn hl' r c h1 h2 h3 h4
    · intro i h0 hn r1 c1 r2 c2 a1 a2 a3 a4 b1 b2 b3 b4
      show ((movement_slot rows cols num_players mode can_save st input).state.board r1 c1).owner =
          ((movement_slot rows cols num_players mode can_save st input).state.players i).id →
        ((movement_slot rows cols num_players mode can_save st input).state.board r2 c2).owner =
          ((movement_slot rows cols num_players mode can_save st input).state.players i).id →
        r1 = r2 ∧ c1 = c2
      rw [(hpl i).1, hbd, hbd]
      have hz : (0 : Int) ≠ (st.players i).id := fun he => hid i h0 hn he.symm
      have key : ∀ r c, 0 ≤ r → r < rows → 0 ≤ c → c < cols →
          (if r = pr ∧ c = pc then (⟨0, 0⟩ : Tile)
            else if r = tr ∧ c = tc then
              ⟨0, (st.players (Int.tmod st.turn_index num_players)).id⟩
            else st.board r c).owner = (st.players i).id →
          (i = Int.tmod st.turn_index num_players → r = tr ∧ c = tc) ∧
          (i ≠ Int.tmod st.turn_index num_players → (st.board r c).owner = (st.players i).id) := by
        intro r c h1 h2 h3 h4
        by_cases hc1 : r = pr ∧ c = pc
        · rw [if_pos hc1]
          intro he
          exact absurd he hz
        · rw [if_neg hc1]
          by_cases hc2 : r = tr ∧ c = tc
          · rw [if_pos hc2]
            intro he
            refine ⟨fun _ => hc2, fun hi => ?_⟩
            exact absurd (hinj _ _ hx0 hxn h0 hn he).symm hi
          · rw [if_neg hc2]
            intro he
            refine ⟨fun hi => ?_, fun _ => he⟩
            rw [hi] at he
            exact absurd (huniq _ hx0 hxn r c pr pc h1 h2 h3 h4 hpin.1 hpin.2.1 hpin.2.2.1
              hpin.2.2.2 he hpown) hc1
      intro he1 he2
      obtain ⟨k1, k1'⟩ := key r1 c1 a1 a2 a3 a4 he1
      obtain ⟨k2, k2'⟩ := key r2 c2 b1 b2 b3 b4 he2
      by_cases hi : i = Int.tmod st.turn_index num_players
      · exact ⟨(k1 hi).1.trans (k2 hi).1.symm, (k1 hi).2.trans (k2 hi).2.symm⟩
      · exact huniq i h0 hn r1 c1 r2 c2 a1 a2 a3 a4 b1 b2 b3 b4 (k1' hi) (k2' hi)
/-- A step of the game changes the id of no player. -/
theorem play_step_ids (rows cols num_players : Int) (s s' : PlaceState)
    (h : PlayStep rows cols num_players s s') (i : Int) :
    (s'.players i).id = (s.players i).id := by
  cases h with
  | placement st p input r c hp0 hpn hev =>
    rw [(placement_turn_placed rows cols s p input r c hev).2, place_penguin_players]
    split_ifs with hi
    · rw [hi]
    · rfl
  | move st mode can_save input pr pc tr tc ht0 hnp hev =>
    show ((movement_slot rows cols num_players mode can_save st input).state.players i).id =
      (st.players i).id
    rw [(movement_slot_moved rows cols num_players mode can_save st input pr pc tr tc hev).2.2.2,
      apply_move_players]
    split_ifs with hi
    · rw [hi]
    · rfl

/-- Every state reached from an initialised board, with players of distinct ids other
than 0 and one placement each, has the facts of `own_inv` and the ids of the start. -/
theorem reachable_own (rows cols num_players : Int) (s0 s : PlaceState)
    (howner : ∀ r c, 0 ≤ r → r < rows → 0 ≤ c → c < cols → (s0.board r c).owner = 0)
    (hids : ∀ i, 0 ≤ i → i < num_players → (s0.players i).id ≠ 0)
    (hdist : ∀ i j, 0 ≤ i → i < num_players → 0 ≤ j → j < num_players →
      (s0.players i).id = (s0.players j).id → i = j)
    (hleft : ∀ i, 0 ≤ i → i < num_players → (s0.players i).left = 1)
    (h : Relation.ReflTransGen (PlayStep rows cols num_players) s0 s) :
    own_inv rows cols num_players s ∧ ∀ i, (s.players i).id = (s0.players i).id := by
  induction h with
  | refl =>
    refine ⟨⟨hids, hdist, fun i h0 hn => Or.inr (hleft i h0 hn), ?_, ?_⟩, fun i => rfl⟩
    · intro i h0 hn _ r c h1 h2 h3 h4 he
      rw [howner r c h1 h2 h3 h4] at he
      exact hids i h0 hn he.symm
    · intro i h0 hn r1 c1 r2 c2 a1 a2 a3 a4 _ _ _ _ he _
      rw [howner r1 c1 a1 a2 a3 a4] at he
      exact absurd he.symm (hids i h0 hn)
  | tail _ hstep ih =>
    exact ⟨play_step_own rows cols num_players _ _ hstep ih.1,
      fun i => (play_step_ids rows cols num_players _ _ hstep i).trans (ih.2 i)⟩

/-- Claim C22: in a game started from an initialised board (every owner 0) with players of
distinct ids 1..N that have one placement each, after every placement and every applied
move the number of tiles owned by the id of any player is at most 1; the ids are those of
the start. -/
theorem one_tile_per_player (rows cols num_players : Int) (s0 s : PlaceState)
    (howner : ∀ r c, 0 ≤ r → r < rows → 0 ≤ c → c < cols → (s0.board r c).owner = 0)
    (hids : ∀ i, 0 ≤ i → i < num_players →
      1 ≤ (s0.players i).id ∧ (s0.players i).id ≤ num_players)
    (hdist : ∀ i j, 0 ≤ i → i < num_players → 0 ≤ j → j < num_players →
      (s0.players i).id = (s0.players j).id → i = j)
    (hleft : ∀ i, 0 ≤ i → i < num_players → (s0.players i).left = 1)
    (hreach : Relation.ReflTransGen (PlayStep rows cols num_players) s0 s) :
    ∀ i, 0 ≤ i → i < num_players →
      (s.players i).id = (s0.players i).id ∧
      owned_tiles s.board rows cols (s.players i).id ≤ 1 := by
  intro i h0 hn
  obtain ⟨⟨_, _, _, _, huniq⟩, hsame⟩ := reachable_own rows cols num_players s0 s howner
    (fun j hj0 hjn => by have := (hids j hj0 hjn).1; omega) hdist hleft hreach
  refine ⟨hsame i, ?_⟩
  unfold owned_tiles
  apply filter_length_le_one _ _ (grid_nodup rows cols)
  rintro ⟨r1, c1⟩ hx ⟨r2, c2⟩ hy hp1 hp2
  rw [mem_grid] at hx hy
  simp only [decide_eq_true_eq] at hp1 hp2
  obtain ⟨e1, e2⟩ := huniq i h0 hn r1 c1 r2 c2 hx.1 hx.2.1 hx.2.2.1 hx.2.2.2 hy.1 hy.2.1
    hy.2.2.1 hy.2.2.2 hp1 hp2
  rw [e1, e2]

/-- Witness for C22: after both placements on the initialised 2 x 2 board the AI, with
id 1, owns exactly one tile. -/
theorem one_tile_per_player_witness :
    owned_tiles (placement_turn 2 2 (placement_turn 2 2 ex_place_state 0 []).state 1
      [(2, 1)]).state.board 2 2 1 = 1 ∧
    (((placement_turn 2 2 (placement_turn 2 2 ex_place_state 0 []).state 1
        [(2, 1)]).state.players 0).id = (ex_place_state.players 0).id ∧
      owned_tiles (placement_turn 2 2 (placement_turn 2 2 ex_place_state 0 []).state 1
          [(2, 1)]).state.board 2 2
        ((placement_turn 2 2 (placement_turn 2 2 ex_place_state 0 []).state 1
          [(2, 1)]).state.players 0).id ≤ 1) :=
  ⟨by decide,
    one_tile_per_player 2 2 2 ex_place_state
      (placement_turn 2 2 (placement_turn 2 2 ex_place_state 0 []).state 1 [(2, 1)]).state
      (by
        intro r c h1 h2 h3 h4
        interval_cases r <;> interval_cases c <;> decide)
      (by intro i h0 h2; interval_cases i <;> decide)
      (by intro i j hi0 hi2 hj0 hj2; interval_cases i <;> interval_cases j <;> decide)
      (by intro i h0 h2; interval_cases i <;> decide)
      (Relation.ReflTransGen.tail
        (Relation.ReflTransGen.single
          (PlayStep.placement ex_place_state 0 [] 0 0 (by decide) (by decide) (by decide)))
        (PlayStep.placement (placement_turn 2 2 ex_place_state 0 []).state 1 [(2, 1)] 1 0
          (by decide) (by decide) (by decide)))
      0 (by decide) (by decide)⟩

/-! ### The placement phase -/

/-- The function `can_place` returns 0 exactly when no tile of the grid has one fish and no
owner. -/
theorem can_place_eq_false (board : Board) (rows cols : Int) :
    can_place board rows cols = false ↔
      ∀ r c, 0 ≤ r → r < rows → 0 ≤ c → c < cols →
        ¬ ((board r c).fish = 1 ∧ (board r c).owner = 0) := by
  unfold can_place
  rw [List.any_eq_false]
  constructor
  · intro h r c h1 h2 h3 h4 hp
    have hr := h r ((mem_upto _ _).2 ⟨h1, h2⟩)
    simp only [Bool.not_eq_true] at hr
    rw [List.any_eq_false] at hr
    have hc := hr c ((mem_upto _ _).2 ⟨h3, h4⟩)
    simp only [decide_eq_true_eq] at hc
    exact hc hp
  · intro h r hr
    simp only [Bool.not_eq_true]
    rw [List.any_eq_false]
    intro c hc
    rw [mem_upto] at hr hc
    simp only [decide_eq_true_eq]
    exact h r c hr.1 hr.2 hc.1 hc.2

/-- What the event of a placement turn tells: a skipped player has no placement left; the
loop is left when no tile can be placed on; the AI always finds a tile when one can be
placed on; and a placing player had a placement left. -/
theorem placement_turn_facts (rows cols : Int) (st : PlaceState) (p : Int)
    (input : List (Int × Int)) :
    ((placement_turn rows cols st p input).event = PlaceEvent.skipped →
      (st.players p).left = 0) ∧
    ((placement_turn rows cols st p input).event = PlaceEvent.no_tile →
      can_place st.board rows cols = false) ∧
    (placement_turn rows cols st p input).event ≠ PlaceEvent.ai_failed ∧
    (∀ r c, (placement_turn rows cols st p input).event = PlaceEvent.placed r c →
      (st.players p).left ≠ 0) := by
  unfold placement_turn
  by_cases hl : (st.players p).left = 0
  · rw [if_pos hl]
    exact ⟨fun _ => hl, fun h => (by cases h), fun h => (by cases h), fun _ _ h => (by cases h)⟩
  · rw [if_neg hl]
    by_cases hc : (!can_place st.board rows cols) = true
    · rw [if_pos hc]
      refine ⟨fun h => (by cases h), fun _ => ?_, fun h => (by cases h),
        fun _ _ h => (by cases h)⟩
      simpa using hc
    · rw [if_neg hc]
      have hcp : can_place st.board rows cols = true := by simpa using hc
      by_cases hai : (st.players p).is_ai ≠ 0
      · rw [if_pos hai]
        cases hf : find_first_placement st.board rows cols with
        | none =>
          exfalso
          have hnone := (grid_scan_none
            (fun r c => (st.board r c).fish = 1 ∧ (st.board r c).owner = 0) rows cols).1 hf
          rw [(can_place_eq_false st.board rows cols).2 hnone] at hcp
          cases hcp
        | some rc =>
          obtain ⟨r, c⟩ := rc
          exact ⟨fun h => (by cases h), fun h => (by cases h), fun h => (by cases h),
            fun _ _ _ => hl⟩
      · rw [if_neg hai]
        cases hh : human_placement st.board rows cols input with
        | none =>
          exact ⟨fun h => (by cases h), fun h => (by cases h), fun h => (by cases h),
            fun _ _ h => (by cases h)⟩
        | some x =>
          obtain ⟨⟨r, c⟩, rest⟩ := x
          exact ⟨fun h => (by cases h), fun h => (by cases h), fun h => (by cases h),
            fun _ _ _ => hl⟩

/-- A placement turn changes no player but the one whose turn it is. -/
theorem placement_turn_other (rows cols : Int) (st : PlaceState) (p : Int)
    (input : List (Int × Int)) (i : Int) (hip : i ≠ p) :
    (placement_turn rows cols st p input).state.players i = st.players i := by
  rcases placement_turn_cases rows cols st p input with ⟨hst, _⟩ | ⟨r, c, hev, _, _⟩
  · rw [hst]
  · rw [(placement_turn_placed rows cols st p input r c hev).2, place_penguin_players,
      if_neg hip]

/-- A placement uses up a tile with one fish and no owner. -/
theorem place_penguin_tiles (rows cols : Int) (st : PlaceState) (p r c : Int)
    (hin : 0 ≤ r ∧ r < rows ∧ 0 ≤ c ∧ c < cols)
    (hf : (st.board r c).fish = 1) (ho : (st.board r c).owner = 0) :
    placeable_tiles (place_penguin st p r c).board rows cols <
      placeable_tiles st.board rows cols := by
  unfold placeable_tiles
  apply filter_length_lt _ _ _ _ (r, c) ((mem_grid _ _ _ _).2 hin)
  · simp only [decide_eq_true_eq]
    exact ⟨hf, ho⟩
  · simp only [decide_eq_false_iff_not, not_and]
    rw [place_penguin_board, if_pos ⟨rfl, rfl⟩]
    intro h0
    have h0' : (0 : Int) = 1 := h0
    exact absurd h0' (by decide)
  · rintro ⟨r', c'⟩ _ hq
    simp only [decide_eq_true_eq] at hq ⊢
    rw [place_penguin_board] at hq
    split_ifs at hq with h1
    · have h0' : (0 : Int) = 1 := hq.1
      exact absurd h0' (by decide)
    · exact hq
/-- The slots of the placements of a round are taken from the visited slots, in order. -/
theorem placement_round_slots (rows cols : Int) :
    ∀ (ps : List Int) (st : PlaceState) (input : List (Int × Int)),
      ((placement_round rows cols ps st input).log.map fun e => e.1).Sublist ps
  | [], st, input => by simp [placement_round]
  | q :: ps, st, input => by
    simp only [placement_round]
    cases hev : (placement_turn rows cols st q input).event with
    | no_tile => simp
    | quit code => simp
    | placed r c =>
      simp only [List.map_cons]
      exact List.Sublist.cons₂ _ (placement_round_slots rows cols ps _ _)
    | skipped => exact List.Sublist.cons _ (placement_round_slots rows cols ps st input)
    | ai_failed => exact List.Sublist.cons _ (placement_round_slots rows cols ps st input)

/-- A round without a placement leaves the state as it is. -/
theorem placement_round_nil (rows cols : Int) :
    ∀ (ps : List Int) (st : PlaceState) (input : List (Int × Int)),
      (placement_round rows cols ps st input).log = [] →
      (placement_round rows cols ps st input).state = st
  | [], st, input => fun _ => rfl
  | q :: ps, st, input => by
    simp only [placement_round]
    cases hev : (placement_turn rows cols st q input).event with
    | no_tile => exact fun _ => rfl
    | quit code => exact fun _ => rfl
    | placed r c =>
      intro h
      simp at h
    | skipped => exact placement_round_nil rows cols ps st input
    | ai_failed => exact placement_round_nil rows cols ps st input

/-- Every placement of a round uses up a tile with one fish and no owner. -/
theorem placement_round_tiles (rows cols : Int) :
    ∀ (ps : List Int) (st : PlaceState) (input : List (Int × Int)),
      placeable_tiles (placement_round rows cols ps st input).state.board rows cols +
          (placement_round rows cols ps st input).log.length ≤
        placeable_tiles st.board rows cols
  | [], st, input => by simp [placement_round]
  | q :: ps, st, input => by
    simp only [placement_round]
    cases hev : (placement_turn rows cols st q input).event with
    | no_tile => simp
    | quit code => simp
    | placed r c =>
      obtain ⟨⟨hin, hf, ho⟩, hst⟩ := placement_turn_placed rows cols st q input r c hev
      have h1 := place_penguin_tiles rows cols st q r c hin hf ho
      have ih := placement_round_tiles rows cols ps
        (placement_turn rows cols st q input).state (placement_turn rows cols st q input).input
      rw [hst] at ih ⊢
      simp only [List.length_cons]
      omega
    | skipped => exact placement_round_tiles rows cols ps st input
    | ai_failed => exact placement_round_tiles rows cols ps st input

/-- A player who places in a round of increasing slots had a placement left when the
round began. -/
theorem placement_round_left (rows cols : Int) :
    ∀ (ps : List Int) (st : PlaceState) (input : List (Int × Int)), ps.Pairwise (· < ·) →
      ∀ p r c, (p, r, c) ∈ (placement_round rows cols ps st input).log →
        (st.players p).left ≠ 0
  | [], st, input, _ => by
    intro p r c h
    simp [placement_round] at h
  | q :: ps, st, input, hsorted => by
    have hps := (List.pairwise_cons.1 hsorted)
    intro p r c
    simp only [placement_round]
    cases hev : (placement_turn rows cols st q input).event with
    | no_tile => intro h; simp at h
    | quit code => intro h; simp at h
    | placed r' c' =>
      simp only [List.mem_cons]
      rintro (hhead | htail)
      · rw [(Prod.mk.inj hhead).1]
        exact (placement_turn_facts rows cols st q input).2.2.2 r' c' hev
      · have hmem : p ∈ ps :=
          (placement_round_slots rows cols ps _ _).subset
            (List.mem_map.2 ⟨(p, r, c), htail, rfl⟩)
        have hne : p ≠ q := ne_of_gt (hps.1 p hmem)
        have ih := placement_round_left rows cols ps _ _ hps.2 p r c htail
        rw [placement_turn_other rows cols st q input p hne] at ih
        exact ih
    | skipped => exact placement_round_left rows cols ps st input hps.2 p r c
    | ai_failed => exact placement_round_left rows cols ps st input hps.2 p r c

/-- In a round of increasing slots that is not ended by `exit`, every visited player with
a placement left places, unless no tile that can be placed on remains. -/
theorem placement_round_all (rows cols : Int) :
    ∀ (ps : List Int) (st : PlaceState) (input : List (Int × Int)), ps.Pairwise (· < ·) →
      (placement_round rows cols ps st input).exited = none →
      ∀ p ∈ ps, (st.players p).left ≠ 0 →
        (∃ r c, (p, r, c) ∈ (placement_round rows cols ps st input).log) ∨
          can_place (placement_round rows cols ps st input).state.board rows cols = false
  | [], st, input, _, _ => by
    intro p hp
    cases hp
  | q :: ps, st, input, hsorted, hex => by
    have hps := (List.pairwise_cons.1 hsorted)
    obtain ⟨hskip, hnotile, hai, _⟩ := placement_turn_facts rows cols st q input
    intro p hp hleft
    simp only [placement_round] at hex ⊢
    cases hev : (placement_turn rows cols st q input).event with
    | no_tile => exact Or.inr (hnotile hev)
    | quit code =>
      rw [hev] at hex
      cases hex
    | placed r c =>
      rw [hev] at hex
      simp only [] at hex ⊢
      rcases List.mem_cons.1 hp with hpq | hmem
      · left
        exact ⟨r, c, by rw [hpq]; exact List.mem_cons_self _ _⟩
      · have hne : p ≠ q := ne_of_gt (hps.1 p hmem)
        rcases placement_round_all rows cols ps _ _ hps.2 hex p hmem
            (by rw [placement_turn_other rows cols st q input p hne]; exact hleft) with
          ⟨r', c', h⟩ | h
        · exact Or.inl ⟨r', c', List.mem_cons_of_mem _ h⟩
        · exact Or.inr h
    | skipped =>
      rw [hev] at hex
      rcases List.mem_cons.1 hp with hpq | hmem
      · rw [hpq] at hleft
        exact absurd (hskip hev) hleft
      · exact placement_round_all rows cols ps st input hps.2 hex p hmem hleft
    | ai_failed => exact absurd hev hai
/-- The flag `done` is set exactly when no player of a slot has a placement left. -/
theorem placement_done_iff (players : Players) (num_players : Int) :
    placement_done players num_players = true ↔
      ∀ p, 0 ≤ p → p < num_players → (players p).left ≤ 0 := by
  unfold placement_done
  rw [List.all_eq_true]
  constructor
  · intro h p h0 hn
    have := h p ((mem_upto _ _).2 ⟨h0, hn⟩)
    simp only [decide_eq_true_eq] at this
    omega
  · intro h p hp
    rw [mem_upto] at hp
    have := h p hp.1 hp.2
    simp only [decide_eq_true_eq]
    omega

/-- A round that is entered and not ended by `exit` performs a placement. -/
theorem placement_round_progress (rows cols num_players : Int) (st : PlaceState)
    (input : List (Int × Int)) (hdone : placement_done st.players num_players = false)
    (hcan : can_place st.board rows cols = true)
    (hex : (placement_round rows cols (upto num_players) st input).exited = none) :
    (placement_round rows cols (upto num_players) st input).log ≠ [] := by
  intro hnil
  have hp : ∃ p, (0 ≤ p ∧ p < num_players) ∧ (st.players p).left ≠ 0 := by
    by_contra hno
    have hall : placement_done st.players num_players = true := by
      rw [placement_done_iff]
      intro p h0 hn
      by_contra hlt
      exact hno ⟨p, ⟨h0, hn⟩, by omega⟩
    rw [hall] at hdone
    cases hdone
  obtain ⟨p, hrange, hleft⟩ := hp
  have hst := placement_round_nil rows cols (upto num_players) st input hnil
  rcases placement_round_all rows cols (upto num_players) st input (upto_sorted num_players)
      hex p ((mem_upto _ _).2 hrange) hleft with ⟨r, c, hmem⟩ | hno
  · rw [hnil] at hmem
    cases hmem
  · rw [hst, hcan] at hno
    cases hno

/-- The placement phase ends within as many rounds as there are tiles with one fish and no
owner, plus one. -/
theorem placement_phase_loop_total (rows cols num_players : Int) :
    ∀ (fuel : Nat) (st : PlaceState) (input : List (Int × Int)),
      placeable_tiles st.board rows cols < fuel →
      (placement_phase_loop rows cols num_players fuel st input).status ≠
        PhaseStatus.out_of_fuel
  | 0, st, input, h => absurd h (Nat.not_lt_zero _)
  | fuel + 1, st, input, h => by
    simp only [placement_phase_loop]
    by_cases hc : (placement_done st.players num_players ||
        !can_place st.board rows cols) = true
    · rw [if_pos hc]
      exact fun hx => (by cases hx)
    · rw [if_neg hc]
      have hdone : placement_done st.players num_players = false := by
        cases hd : placement_done st.players num_players with
        | false => rfl
        | true => rw [hd] at hc; simp at hc
      have hcan : can_place st.board rows cols = true := by
        cases hd : can_place st.board rows cols with
        | true => rfl
        | false => rw [hd] at hc; simp at hc
      cases hex : (placement_round rows cols (upto num_players) st input).exited with
      | some code => exact fun hx => (by cases hx)
      | none =>
        have hlog := placement_round_progress rows cols num_players st input hdone hcan hex
        have htiles := placement_round_tiles rows cols (upto num_players) st input
        have hlen : 0 < (placement_round rows cols (upto num_players) st input).log.length :=
          List.length_pos.2 hlog
        exact placement_phase_loop_total rows cols num_players fuel _ _ (by omega)

/-- When the placement phase returns, no player has a placement left or no tile can be
placed on. -/
theorem placement_phase_loop_end (rows cols num_players : Int) :
    ∀ (fuel : Nat) (st : PlaceState) (input : List (Int × Int)),
      (placement_phase_loop rows cols num_players fuel st input).status =
        PhaseStatus.finished →
      placement_done (placement_phase_loop rows cols num_players fuel st input).state.players
          num_players = true ∨
        can_place (placement_phase_loop rows cols num_players fuel st input).state.board
          rows cols = false
  | 0, st, input => by
    intro h
    simp only [placement_phase_loop] at h
    cases h
  | fuel + 1, st, input => by
    simp only [placement_phase_loop]
    by_cases hc : (placement_done st.players num_players ||
        !can_place st.board rows cols) = true
    · rw [if_pos hc]
      intro _
      simpa using hc
    · rw [if_neg hc]
      cases hex : (placement_round rows cols (upto num_players) st input).exited with
      | some code =>
        intro h
        cases h
      | none => exact placement_phase_loop_end rows cols num_players fuel _ _
/-- Claim C23: `placement_phase` returns or ends in `exit` within its rounds; when it
returns, no player has a remaining placement above 0 or no tile with one fish and no
owner remains; and in each round (the player loop over the slots in order, from any
state): the placements are made in increasing slot order; every placing player had a
placement left; unless the round ends in `exit`, each player with a placement left places
exactly once or no placeable tile remains after the round; and an entered round (some
player has a placement left and some tile can be placed on) performs at least one
placement. -/
theorem placement_phase_spec (rows cols num_players : Int) (st : PlaceState)
    (input : List (Int × Int)) :
    ((placement_phase rows cols num_players st input).status ≠ PhaseStatus.out_of_fuel ∧
      ((placement_phase rows cols num_players st input).status = PhaseStatus.finished →
        (∀ p, 0 ≤ p → p < num_players →
          ((placement_phase rows cols num_players st input).state.players p).left ≤ 0) ∨
        (∀ r c, 0 ≤ r → r < rows → 0 ≤ c → c < cols →
          ¬ (((placement_phase rows cols num_players st input).state.board r c).fish = 1 ∧
            ((placement_phase rows cols num_players st input).state.board r c).owner = 0)))) ∧
    (((placement_round rows cols (upto num_players) st input).log.map
        fun e => e.1).Pairwise (· < ·) ∧
      (∀ p r c, (p, r, c) ∈ (placement_round rows cols (upto num_players) st input).log →
        (0 ≤ p ∧ p < num_players) ∧ (st.players p).left ≠ 0) ∧
      ((placement_round rows cols (upto num_players) st input).exited = none →
        ∀ p, 0 ≤ p → p < num_players → (st.players p).left ≠ 0 →
          ((placement_round rows cols (upto num_players) st input).log.map
            fun e => e.1).count p = 1 ∨
          ∀ r c, 0 ≤ r → r < rows → 0 ≤ c → c < cols →
            ¬ (((placement_round rows cols (upto num_players) st input).state.board r c).fish = 1 ∧
              ((placement_round rows cols (upto num_players) st input).state.board r c).owner
                = 0)) ∧
      ((placement_round rows cols (upto num_players) st input).exited = none →
        (∃ p, 0 ≤ p ∧ p < num_players ∧ (st.players p).left > 0) →
        (∃ r c, (0 ≤ r ∧ r < rows ∧ 0 ≤ c ∧ c < cols) ∧
          (st.board r c).fish = 1 ∧ (st.board r c).owner = 0) →
        (placement_round rows cols (upto num_players) st input).log ≠ [])) := by
  have hsub := placement_round_slots rows cols (upto num_players) st input
  have hsorted : ((placement_round rows cols (upto num_players) st input).log.map
      fun e => e.1).Pairwise (· < ·) := (upto_sorted num_players).sublist hsub
  refine ⟨⟨placement_phase_loop_total rows cols num_players _ st input (Nat.lt_succ_self _),
    fun hfin => ?_⟩, hsorted, ?_, ?_, ?_⟩
  · rcases placement_phase_loop_end rows cols num_players _ st input hfin with hd | hc
    · exact Or.inl ((placement_done_iff _ _).1 hd)
    · exact Or.inr ((can_place_eq_false _ _ _).1 hc)
  · intro p r c hmem
    exact ⟨(mem_upto _ _).1 (hsub.subset (List.mem_map.2 ⟨(p, r, c), hmem, rfl⟩)),
      placement_round_left rows cols (upto num_players) st input (upto_sorted num_players)
        p r c hmem⟩
  · intro hex p h0 hn hleft
    rcases placement_round_all rows cols (upto num_players) st input (upto_sorted num_players)
        hex p ((mem_upto _ _).2 ⟨h0, hn⟩) hleft with ⟨r, c, hmem⟩ | hno
    · left
      apply List.count_eq_one_of_mem (hsorted.imp (fun h => ne_of_lt h))
      exact List.mem_map.2 ⟨(p, r, c), hmem, rfl⟩
    · exact Or.inr ((can_place_eq_false _ _ _).1 hno)
  · rintro hex ⟨p, h0, hn, hleft⟩ ⟨r, c, hin, htile⟩
    apply placement_round_progress rows cols num_players st input _ _ hex
    · cases hd : placement_done st.players num_players with
      | false => rfl
      | true =>
        have := (placement_done_iff _ _).1 hd p h0 hn
        omega
    · cases hc : can_place st.board rows cols with
      | true => rfl
      | false =>
        exact absurd htile ((can_place_eq_false _ _ _).1 hc r c hin.1 hin.2.1 hin.2.2.1
          hin.2.2.2)

/-! ### A player without a piece -/

/-- A player who owns no tile of the grid cannot move. -/
theorem player_can_move_no_piece (board : Board) (rows cols player_id : Int)
    (h : ∀ r c, 0 ≤ r → r < rows → 0 ≤ c → c < cols → (board r c).owner ≠ player_id) :
    find_penguin board rows cols player_id = none ∧
      player_can_move board rows cols player_id = false := by
  have hfp : find_penguin board rows cols player_id = none :=
    (grid_scan_none (fun r c => (board r c).owner = player_id) rows cols).2 h
  refine ⟨hfp, ?_⟩
  unfold player_can_move
  rw [hfp]

/-- Claim C24: a player whose flag is set but who owns no tile of the board is marked
inactive when the slot is processed, by the same branch as a player who cannot move
(`player_can_move` is false): the flag of the slot is cleared, the active count goes down
by one, and the board, the players with their scores, and the other flags are unchanged. -/
theorem no_piece_deactivates (rows cols num_players mode : Int) (can_save : Bool)
    (st : MoveState) (input : List (List Char))
    (hactive : st.active_flags (Int.tmod st.turn_index num_players) ≠ 0)
    (hnone : ∀ r c, 0 ≤ r → r < rows → 0 ≤ c → c < cols →
      (st.board r c).owner ≠ (st.players (Int.tmod st.turn_index num_players)).id) :
    player_can_move st.board rows cols
        (st.players (Int.tmod st.turn_index num_players)).id = false ∧
      (movement_slot rows cols num_players mode can_save st input).event =
        SlotEvent.cannot_move ∧
      (movement_slot rows cols num_players mode can_save st input).state.active_flags
        (Int.tmod st.turn_index num_players) = 0 ∧
      (movement_slot rows cols num_players mode can_save st input).state.active_count =
        st.active_count - 1 ∧
      (movement_slot rows cols num_players mode can_save st input).state.board = st.board ∧
      (movement_slot rows cols num_players mode can_save st input).state.players = st.players ∧
      (∀ j, j ≠ Int.tmod st.turn_index num_players →
        (movement_slot rows cols num_players mode can_save st input).state.active_flags j =
          st.active_flags j) ∧
      (movement_slot rows cols num_players mode can_save st input).input = input := by
  have hcm := (player_can_move_no_piece st.board rows cols _ hnone).2
  refine ⟨hcm, ?_⟩
  unfold movement_slot
  simp only []
  have hnc : (!player_can_move st.board rows cols
      (st.players (Int.tmod st.turn_index num_players)).id) = true := by
    rw [hcm]
    rfl
  rw [if_neg hactive, if_pos hnc]
  refine ⟨rfl, ?_, rfl, rfl, rfl, fun j hj => ?_, rfl⟩
  · show set_flag st.active_flags (Int.tmod st.turn_index num_players) 0
      (Int.tmod st.turn_index num_players) = 0
    unfold set_flag
    rw [if_pos rfl]
  · show set_flag st.active_flags (Int.tmod st.turn_index num_players) 0 j = st.active_flags j
    unfold set_flag
    rw [if_neg hj]

/-- Witness for C24: on the initialised 2 x 2 board nobody has placed; the slot of the AI
ends with the event of a player who cannot move, with flag 0 and one active player left. -/
theorem no_piece_deactivates_witness :
    (movement_slot 2 2 2 1 true ex_no_piece_state []).event = SlotEvent.cannot_move ∧
    (movement_slot 2 2 2 1 true ex_no_piece_state []).state.active_flags 0 = 0 ∧
    (movement_slot 2 2 2 1 true ex_no_piece_state []).state.active_count = 1 ∧
    (movement_slot 2 2 2 1 true ex_no_piece_state []).state.board = ex_no_piece_state.board :=
  ⟨by decide, by decide, by decide,
    (no_piece_deactivates 2 2 2 1 true ex_no_piece_state [] (by decide)
      (by
        intro r c h1 h2 h3 h4
        interval_cases r <;> interval_cases c <;> decide)).2.2.2.2.1⟩

/-! ### The mode in the file written on Q -/

/-- A quit of the human input loop is a failed read, with exit code 1 and no file, or the
command Q, with exit code 0 and the file that `save_game` writes for the mode it is
given. -/
theorem human_move_quit (board : Board) (rows cols : Int) (players : Players)
    (num_players mode turn_index : Int) (active_flags : Flags) (can_save : Bool)
    (id pr pc : Int) : ∀ (input : List (List Char)) (code : Int) (saved : Option (List Char)),
      human_move board rows cols players num_players mode turn_index active_flags can_save
        id pr pc input = HumanMove.quit code saved →
      (code = 1 ∧ saved = none) ∨
        (code = 0 ∧ saved = save_game can_save board rows cols players num_players mode
          turn_index (some active_flags))
  | [], code, saved, h => by
    simp only [human_move, HumanMove.quit.injEq] at h
    exact Or.inl ⟨h.1.symm, h.2.symm⟩
  | line :: rest, code, saved, h => by
    have ih := human_move_quit board rows cols players num_players mode turn_index
      active_flags can_save id pr pc rest code saved
    simp only [human_move] at h
    cases hc : command_of line with
    | none =>
      rw [hc] at h
      exact ih h
    | some cmd =>
      rw [hc] at h
      simp only [] at h
      split_ifs at h
      · exact ih h
      · exact ih h
      · exact ih h
      · exact ih h
      · simp only [HumanMove.quit.injEq] at h
        exact Or.inr ⟨h.1.symm, h.2.symm⟩
      · exact ih h

/-- A slot that ends with a quit and a file has written the file with the mode given to
`movement_phase`. -/
theorem movement_slot_quit (rows cols num_players mode : Int) (can_save : Bool)
    (st : MoveState) (input : List (List Char)) (code : Int) (file : List Char)
    (h : (movement_slot rows cols num_players mode can_save st input).event =
      SlotEvent.quit code (some file)) :
    some file = save_game can_save st.board rows cols st.players num_players mode
      (Int.tmod (Int.tmod st.turn_index num_players + 1) num_players)
      (some st.active_flags) := by
  unfold movement_slot at h
  simp only [] at h
  split_ifs at h
  · cases hfp : find_penguin st.board rows cols
        (st.players (Int.tmod st.turn_index num_players)).id with
    | none =>
      rw [hfp] at h
      cases h
    | some rc =>
      obtain ⟨pr, pc⟩ := rc
      rw [hfp] at h
      simp only [] at h
      cases hfb : find_best_adjacent_move st.board rows cols
          (st.players (Int.tmod st.turn_index num_players)).id with
      | none =>
        rw [hfb] at h
        cases h
      | some t =>
        rw [hfb] at h
        cases h
  · cases hfp : find_penguin st.board rows cols
        (st.players (Int.tmod st.turn_index num_players)).id with
    | none =>
      rw [hfp] at h
      cases h
    | some rc =>
      obtain ⟨pr, pc⟩ := rc
      rw [hfp] at h
      simp only [] at h
      cases hhm : human_move st.board rows cols st.players num_players mode
          (Int.tmod (Int.tmod st.turn_index num_players + 1) num_players) st.active_flags
          can_save (st.players (Int.tmod st.turn_index num_players)).id pr pc input with
      | quit code2 saved =>
        rw [hhm] at h
        simp only [SlotEvent.quit.injEq] at h
        rcases human_move_quit _ _ _ _ _ _ _ _ _ _ _ _ _ _ _ hhm with ⟨_, hs⟩ | ⟨_, hs⟩
        · rw [hs] at h
          cases h.2
        · rw [← h.2, hs]
      | move tr tc rest =>
        rw [hhm] at h
        cases h
/-- Every file written in a pass is written with the mode given to `movement_phase`. -/
theorem movement_pass_loop_quit (rows cols num_players mode : Int) (can_save : Bool) :
    ∀ (n : Nat) (st : MoveState) (input : List (List Char)),
      ∀ v ∈ (movement_pass_loop rows cols num_players mode can_save n st input).visits,
        ∀ code file, v.event = SlotEvent.quit code (some file) →
          ∃ board players turn_index flags,
            some file = save_game can_save board rows cols players num_players mode turn_index
              (some flags)
  | 0, st, input => by
    intro v hv
    simp [movement_pass_loop] at hv
  | n + 1, st, input => by
    intro v hv code file hev
    simp only [movement_pass_loop] at hv
    have hhead : ∀ w : Visit,
        w = ⟨(movement_slot rows cols num_players mode can_save st input).idx,
          (movement_slot rows cols num_players mode can_save st input).event,
          (movement_slot rows cols num_players mode can_save st input).state.turn_index⟩ →
        w.event = SlotEvent.quit code (some file) →
        ∃ board players turn_index flags,
          some file = save_game can_save board rows cols players num_players mode turn_index
            (some flags) := by
      intro w hw hwe
      rw [hw] at hwe
      exact ⟨_, _, _, _, movement_slot_quit rows cols num_players mode can_save st input code
        file hwe⟩
    split_ifs at hv
    · exact hhead v (List.mem_singleton.1 hv) hev
    · rcases List.mem_cons.1 hv with hv | hv
      · exact hhead v hv hev
      · exact movement_pass_loop_quit rows cols num_players mode can_save n _ _ v hv code file hev

/-- Every file written in the movement phase is written with the mode given to it. -/
theorem movement_phase_loop_quit (rows cols num_players mode : Int) (can_save : Bool) :
    ∀ (fuel : Nat) (st : MoveState) (input : List (List Char)),
      ∀ v ∈ (movement_phase_loop rows cols num_players mode can_save fuel st input).visits,
        ∀ code file, v.event = SlotEvent.quit code (some file) →
          ∃ board players turn_index flags,
            some file = save_game can_save board rows cols players num_players mode turn_index
              (some flags)
  | 0, st, input => by
    intro v hv
    simp [movement_phase_loop] at hv
  | fuel + 1, st, input => by
    have hp : ∀ v ∈ (movement_pass rows cols num_players mode can_save st input).visits,
        ∀ code file, v.event = SlotEvent.quit code (some file) →
          ∃ board players turn_index flags,
            some file = save_game can_save board rows cols players num_players mode turn_index
              (some flags) :=
      movement_pass_loop_quit rows cols num_players mode can_save _ _ _
    intro v hv code file hev
    simp only [movement_phase_loop] at hv
    by_cases hact : st.active_count > 0
    · rw [if_pos hact] at hv
      cases hex : pass_exit (movement_pass rows cols num_players mode can_save st input).visits with
      | some c =>
        rw [hex] at hv
        exact hp v hv code file hev
      | none =>
        rw [hex] at hv
        simp only [] at hv
        by_cases hany : (movement_pass rows cols num_players mode can_save st input).state.any_move = 0
        · rw [if_pos hany] at hv
          exact hp v hv code file hev
        · rw [if_neg hany] at hv
          rcases List.mem_append.1 hv with hv | hv
          · exact hp v hv code file hev
          · exact movement_phase_loop_quit rows cols num_players mode can_save fuel _ _ v hv
              code file hev
    · rw [if_neg hact] at hv
      cases hv

/-- Every file written in a game run by `play_game` carries the mode 1, whatever mode was
chosen in `main`. -/
theorem play_game_saved_mode (rows cols num_players : Int) (board : Board) (players : Players)
    (mem_ok can_save : Bool) (heap : Flags) (place_input : List (Int × Int))
    (move_input : List (List Char)) (mv : MovementResult)
    (hmv : (play_game rows cols num_players board players mem_ok can_save heap place_input
      move_input).movement = some mv) :
    ∀ v ∈ mv.visits, ∀ code file, v.event = SlotEvent.quit code (some file) →
      ∃ board1 players1 turn_index flags,
        some file = save_game can_save board1 rows cols players1 num_players 1 turn_index
          (some flags) := by
  rw [play_game_movement rows cols num_players board players mem_ok can_save heap place_input
    move_input mv hmv]
  exact movement_phase_loop_quit rows cols num_players 1 can_save _ _ _

/-- Claim C25, evaluated on a new game in the mode Player vs AI: the mode chosen at the
start is 2, the game is saved with Q at the first prompt of the movement phase, and the
file written starts with the header, the size and the line `2 1 1` (two players, mode 1,
turn index 1); `load_game` restores the mode 1 from it, not the mode 2 of the game. -/
theorem new_game_saves_mode_one :
    ex_pvai_game.chosen_mode = some 2 ∧
    ex_pvai_game.saved_file.map (fun file => file.take 28) =
      some "PENGUINS_SAVE_V1\n10 10\n2 1 1".toList ∧
    ex_pvai_game.saved_file.bind
      (loaded_mode ⟨true, fun _ => 0, fun _ => ⟨[], 0, 0, 0, 0⟩, fun _ _ => ⟨0, 0⟩⟩) = some 1 := by
  refine ⟨by decide, by decide, by decide⟩

/-! ### Inability to move is permanent -/

/-- A step that is valid after a move, whoever made it, was valid before the move. -/
theorem is_valid_move_after (rows cols : Int) (st : MoveState)
    (idx pr pc tr tc a r c r' c' : Int)
    (h : is_valid_move (apply_move st idx pr pc tr tc).board rows cols a r c r' c' = true) :
    is_valid_move st.board rows cols a r c r' c' = true := by
  rw [is_valid_move_eq_true] at h ⊢
  obtain ⟨hin, hadj, hnd, hown⟩ := h
  rw [apply_move_board] at hnd hown
  by_cases h1 : r' = pr ∧ c' = pc
  · rw [if_pos h1] at hnd
    exact absurd ⟨rfl, rfl⟩ hnd
  · rw [if_neg h1] at hnd hown
    by_cases h2 : r' = tr ∧ c' = tc
    · rw [if_pos h2] at hnd hown
      exact absurd ⟨rfl, hown⟩ hnd
    · rw [if_neg h2] at hnd hown
      exact ⟨hin, hadj, hnd, hown⟩

/-- A player with an id other than 0 who cannot move still cannot move after the move of
a player with another id from a tile that player owns to a tile without an owner. -/
theorem player_can_move_after (rows cols : Int) (st : MoveState) (idx pr pc tr tc a : Int)
    (ha0 : a ≠ 0) (hab : a ≠ (st.players idx).id)
    (hfrom : (st.board pr pc).owner = (st.players idx).id) (hto : (st.board tr tc).owner = 0)
    (h : player_can_move st.board rows cols a = false) :
    player_can_move (apply_move st idx pr pc tr tc).board rows cols a = false := by
  have hv : ∀ r c r' c', is_valid_move st.board rows cols a r c r' c' = false →
      is_valid_move (apply_move st idx pr pc tr tc).board rows cols a r c r' c' = false := by
    intro r c r' c' hf
    cases hc : is_valid_move (apply_move st idx pr pc tr tc).board rows cols a r c r' c' with
    | false => rfl
    | true =>
      rw [is_valid_move_after rows cols st idx pr pc tr tc a r c r' c' hc] at hf
      cases hf
  unfold player_can_move at h ⊢
  rw [find_penguin_apply rows cols st idx pr pc tr tc a ha0 hab hfrom hto]
  cases hfp : find_penguin st.board rows cols a with
  | none => rfl
  | some rc =>
    obtain ⟨r, c⟩ := rc
    rw [hfp] at h
    simp only [] at h ⊢
    cases h1 : is_valid_move st.board rows cols a r c (r - 1) c with
    | true => rw [h1] at h; simp at h
    | false =>
      cases h2 : is_valid_move st.board rows cols a r c (r + 1) c with
      | true => rw [h1, h2] at h; simp at h
      | false =>
        cases h3 : is_valid_move st.board rows cols a r c r (c - 1) with
        | true => rw [h1, h2, h3] at h; simp at h
        | false =>
          cases h4 : is_valid_move st.board rows cols a r c r (c + 1) with
          | true => rw [h1, h2, h3, h4] at h; simp at h
          | false =>
            rw [hv _ _ _ _ h1, hv _ _ _ _ h2, hv _ _ _ _ h3, hv _ _ _ _ h4]
            simp

/-- Claim C26: inability to move is permanent.  For every board and two players with
distinct ids (a player id is not 0, the mark of a tile without owner): if
`player_can_move` is false for the id `a`, it is still false after a valid move applied by
the other player from that player's tile, which becomes dead water; and hence it is still
false after any slot of the turn loop that belongs to a player with another id, so a
player marked inactive is never skipped while having a legal move. -/
theorem cannot_move_is_permanent (rows cols : Int) (st : MoveState) (idx pr pc tr tc a : Int)
    (ha0 : a ≠ 0) (hab : a ≠ (st.players idx).id)
    (hfrom : (st.board pr pc).owner = (st.players idx).id)
    (hvalid : is_valid_move st.board rows cols (st.players idx).id pr pc tr tc = true)
    (hblocked : player_can_move st.board rows cols a = false) :
    (apply_move st idx pr pc tr tc).board pr pc = ⟨0, 0⟩ ∧
    player_can_move (apply_move st idx pr pc tr tc).board rows cols a = false ∧
    ∀ (num_players mode : Int) (can_save : Bool) (input : List (List Char)),
      a ≠ (st.players (Int.tmod st.turn_index num_players)).id →
      player_can_move (movement_slot rows cols num_players mode can_save st input).state.board
        rows cols a = false := by
  have hto := ((is_valid_move_eq_true _ _ _ _ _ _ _ _).1 hvalid).2.2.2
  refine ⟨by rw [apply_move_board, if_pos ⟨rfl, rfl⟩],
    player_can_move_after rows cols st idx pr pc tr tc a ha0 hab hfrom hto hblocked, ?_⟩
  intro num_players mode can_save input hne
  rcases movement_slot_cases rows cols num_players mode can_save st input with
    ⟨pr', pc', tr', tc', hev⟩ | ⟨_, hb, _, _⟩
  · obtain ⟨hfp, hv, _, hst⟩ := movement_slot_moved rows cols num_players mode can_save st input
      pr' pc' tr' tc' hev
    rw [hst]
    exact player_can_move_after rows cols
      { st with turn_index := Int.tmod (Int.tmod st.turn_index num_players + 1) num_players }
      (Int.tmod st.turn_index num_players) pr' pc' tr' tc' a ha0 hne
      (find_penguin_some _ _ _ _ _ _ hfp).2
      ((is_valid_move_eq_true _ _ _ _ _ _ _ _).1 hv).2.2.2 hblocked
  · rw [hb]
    exact hblocked

/-- Witness for C26: on the board of one row the player with id 1 is blocked by the player
with id 2, who moves on to the free tile; the tile left behind is dead water and the
player with id 1 is still blocked. -/
theorem cannot_move_is_permanent_witness :
    player_can_move ex_block_state.board 1 3 1 = false ∧
    (movement_slot 1 3 2 1 true ex_block_state [['d', '\n']]).event =
      SlotEvent.moved 0 1 0 2 ∧
    ((apply_move ex_block_state 1 0 1 0 2).board 0 1 = ⟨0, 0⟩ ∧
      player_can_move (apply_move ex_block_state 1 0 1 0 2).board 1 3 1 = false ∧
      ∀ (num_players mode : Int) (can_save : Bool) (input : List (List Char)),
        1 ≠ (ex_block_state.players (Int.tmod ex_block_state.turn_index num_players)).id →
        player_can_move
          (movement_slot 1 3 num_players mode can_save ex_block_state input).state.board
          1 3 1 = false) :=
  ⟨by decide, by decide,
    cannot_move_is_permanent 1 3 ex_block_state 1 0 1 0 2 1 (by decide) (by decide)
      (by decide) (by decide) (by decide)⟩

/-! ### Conservation of fish -/

/-- A sum over the indices of a loop changes by the change of the one term that differs. -/
theorem sum_upto_update (f g : Int → Int) (n j : Int) (h0 : 0 ≤ j) (hn : j < n)
    (h : ∀ i, 0 ≤ i → i < n → i ≠ j → g i = f i) :
    ((upto n).map g).sum = ((upto n).map f).sum + (g j - f j) := by
  obtain ⟨l1, l2, hsplit, hl1, hl2, _⟩ := upto_split n j h0 hn
  have e1 : l1.map g = l1.map f := by
    apply List.map_congr_left
    intro x hx
    have := hl1 x hx
    exact h x (by omega) (by omega) (by omega)
  have e2 : l2.map g = l2.map f := by
    apply List.map_congr_left
    intro x hx
    have := hl2 x hx
    exact h x (by omega) (by omega) (by omega)
  rw [hsplit]
  simp only [List.map_append, List.map_cons, List.sum_append, List.sum_cons, e1, e2]
  omega

/-- Sums over the indices of a loop agree when the terms agree on the indices. -/
theorem sum_upto_congr (f g : Int → Int) (n : Int) (h : ∀ i, 0 ≤ i → i < n → g i = f i) :
    ((upto n).map g).sum = ((upto n).map f).sum := by
  congr 1
  apply List.map_congr_left
  intro x hx
  rw [mem_upto] at hx
  exact h x hx.1 hx.2

/-- The total of the fish changes by the change of the one tile of the grid whose fish
differ. -/
theorem total_fish_update (b b' : Board) (rows cols r c : Int)
    (hin : 0 ≤ r ∧ r < rows ∧ 0 ≤ c ∧ c < cols)
    (h : ∀ r' c', 0 ≤ r' → r' < rows → 0 ≤ c' → c' < cols → ¬ (r' = r ∧ c' = c) →
      (b' r' c').fish = (b r' c').fish) :
    total_fish b' rows cols = total_fish b rows cols + ((b' r c).fish - (b r c).fish) := by
  unfold total_fish
  have hrow : ((upto cols).map fun c' => (b' r c').fish).sum =
      ((upto cols).map fun c' => (b r c').fish).sum + ((b' r c).fish - (b r c).fish) :=
    sum_upto_update (fun c' => (b r c').fish) (fun c' => (b' r c').fish) cols c hin.2.2.1
      hin.2.2.2 (fun c' h1 h2 hne => h r c' hin.1 hin.2.1 h1 h2 (fun hc => hne hc.2))
  have hupd := sum_upto_update
    (fun r' => ((upto cols).map fun c' => (b r' c').fish).sum)
    (fun r' => ((upto cols).map fun c' => (b' r' c').fish).sum) rows r hin.1 hin.2.1
    (fun r' h1 h2 hne =>
      sum_upto_congr (fun c' => (b r' c').fish) (fun c' => (b' r' c').fish) cols
        (fun c' h3 h4 => h r' c' h1 h2 h3 h4 (fun hc => hne hc.1)))
  rw [hupd]
  simp only []
  rw [hrow]
  omega

/-- The sum of the scores changes by the change of the one player of a slot whose score
differs. -/
theorem score_sum_update (ps ps' : Players) (num_players j : Int) (h0 : 0 ≤ j)
    (hn : j < num_players) (h : ∀ i, i ≠ j → (ps' i).score = (ps i).score) :
    score_sum ps' num_players = score_sum ps num_players + ((ps' j).score - (ps j).score) :=
  sum_upto_update (fun i => (ps i).score) (fun i => (ps' i).score) num_players j h0 hn
    (fun i _ _ hne => h i hne)
/-- A step of the game, made by players whose ids are not 0 on a board whose owned tiles
hold no fish, leaves no fish on an owned tile and moves fish from the board to a score:
the sum of the scores and the fish on the board is the same before and after. -/
theorem play_step_conserves (rows cols num_players : Int) (s s' : PlaceState)
    (h : PlayStep rows cols num_players s s')
    (hid : ∀ i, 0 ≤ i → i < num_players → (s.players i).id ≠ 0)
    (hown : ∀ r c, 0 ≤ r → r < rows → 0 ≤ c → c < cols →
      (s.board r c).owner ≠ 0 → (s.board r c).fish = 0) :
    (∀ r c, 0 ≤ r → r < rows → 0 ≤ c → c < cols →
      (s'.board r c).owner ≠ 0 → (s'.board r c).fish = 0) ∧
    score_sum s'.players num_players + total_fish s'.board rows cols =
      score_sum s.players num_players + total_fish s.board rows cols := by
  cases h with
  | placement st p input r c hp0 hpn hev =>
    obtain ⟨⟨hin, _, _⟩, hst⟩ := placement_turn_placed rows cols s p input r c hev
    rw [hst]
    constructor
    · intro r' c' h1 h2 h3 h4
      rw [place_penguin_board]
      by_cases hrc : r' = r ∧ c' = c
      · rw [if_pos hrc]
        exact fun _ => rfl
      · rw [if_neg hrc]
        exact hown r' c' h1 h2 h3 h4
    · have ht := total_fish_update s.board (place_penguin s p r c).board rows cols r c hin
        (fun r' c' _ _ _ _ hne => by rw [place_penguin_board, if_neg hne])
      have hs := score_sum_update s.players (place_penguin s p r c).players num_players p
        hp0 hpn (fun i hne => by rw [place_penguin_players, if_neg hne])
      have e1 : ((place_penguin s p r c).board r c).fish = 0 := by
        rw [place_penguin_board, if_pos ⟨rfl, rfl⟩]
      have e2 : ((place_penguin s p r c).players p).score =
          (s.players p).score + (s.board r c).fish := by
        rw [place_penguin_players, if_pos rfl]
      rw [ht, hs, e1, e2]
      omega
  | move st mode can_save input pr pc tr tc ht0 hnp hev =>
    obtain ⟨hfp, hv, _, hst⟩ := movement_slot_moved rows cols num_players mode can_save st input
      pr pc tr tc hev
    obtain ⟨hpin, hpown⟩ := find_penguin_some _ _ _ _ _ _ hfp
    rw [is_valid_move_eq_true] at hv
    obtain ⟨htin, _, _, _⟩ := hv
    obtain ⟨hx0, hxn⟩ := tmod_slot st.turn_index num_players ht0 hnp
    have hid' : (st.players (Int.tmod st.turn_index num_players)).id ≠ 0 := hid _ hx0 hxn
    have hown' : ∀ r c, 0 ≤ r → r < rows → 0 ≤ c → c < cols →
        (st.board r c).owner ≠ 0 → (st.board r c).fish = 0 := hown
    have hpfish : (st.board pr pc).fish = 0 :=
      hown' pr pc hpin.1 hpin.2.1 hpin.2.2.1 hpin.2.2.2 (by rw [hpown]; exact hid')
    have hbd : ∀ r c, (movement_slot rows cols num_players mode can_save st input).state.board
          r c =
        if r = pr ∧ c = pc then ⟨0, 0⟩
        else if r = tr ∧ c = tc then ⟨0, (st.players (Int.tmod st.turn_index num_players)).id⟩
        else st.board r c := by
      intro r c
      rw [hst, apply_move_board]
    have hpl : ∀ i, (movement_slot rows cols num_players mode can_save st input).state.players
          i =
        if i = Int.tmod st.turn_index num_players then
          { st.players (Int.tmod st.turn_index num_players) with
            score := (st.players (Int.tmod st.turn_index num_players)).score +
              (st.board tr tc).fish }
        else st.players i := by
      intro i
      rw [hst, apply_move_players]
    constructor
    · intro r c h1 h2 h3 h4
      show ((movement_slot rows cols num_players mode can_save st input).state.board r c).owner
          ≠ 0 →
        ((movement_slot rows cols num_players mode can_save st input).state.board r c).fish = 0
      rw [hbd]
      by_cases hc1 : r = pr ∧ c = pc
      · rw [if_pos hc1]
        exact fun _ => rfl
      · rw [if_neg hc1]
        by_cases hc2 : r = tr ∧ c = tc
        · rw [if_pos hc2]
          exact fun _ => rfl
        · rw [if_neg hc2]
          exact hown' r c h1 h2 h3 h4
    · show score_sum (movement_slot rows cols num_players mode can_save st input).state.players
          num_players +
          total_fish (movement_slot rows cols num_players mode can_save st input).state.board
            rows cols =
        score_sum st.players num_players + total_fish st.board rows cols
      have ht := total_fish_update st.board
        (movement_slot rows cols num_players mode can_save st input).state.board rows cols tr tc
        htin
        (fun r' c' _ _ _ _ hne => by
          rw [hbd]
          by_cases hc1 : r' = pr ∧ c' = pc
          · rw [if_pos hc1, hc1.1, hc1.2, hpfish]
          · rw [if_neg hc1, if_neg hne])
      have hs := score_sum_update st.players
        (movement_slot rows cols num_players mode can_save st input).state.players num_players
        (Int.tmod st.turn_index num_players) hx0 hxn
        (fun i hne => by rw [hpl, if_neg hne])
      have e1 : ((movement_slot rows cols num_players mode can_save st input).state.board
          tr tc).fish = 0 := by
        rw [hbd]
        by_cases hc1 : tr = pr ∧ tc = pc
        · rw [if_pos hc1]
        · rw [if_neg hc1, if_pos ⟨rfl, rfl⟩]
      have e2 : ((movement_slot rows cols num_players mode can_save st input).state.players
          (Int.tmod st.turn_index num_players)).score =
          (st.players (Int.tmod st.turn_index num_players)).score + (st.board tr tc).fish := by
        rw [hpl, if_pos rfl]
      rw [ht, hs, e1, e2]
      omega

/-- Claim C27: fish are conserved.  In a game started from an initialised board (every
owner 0) with players as `init_players` leaves them (ids other than 0, every score 0),
after every placement and every applied move every owned tile has 0 fish, and the sum of
the scores of all players plus the sum of the fish of all tiles equals the total of the
fish on the board at the start. -/
theorem fish_conserved (rows cols num_players : Int) (s0 s : PlaceState)
    (howner : ∀ r c, 0 ≤ r → r < rows → 0 ≤ c → c < cols → (s0.board r c).owner = 0)
    (hplayers : ∀ i, 0 ≤ i → i < num_players →
      (s0.players i).id ≠ 0 ∧ (s0.players i).score = 0)
    (hreach : Relation.ReflTransGen (PlayStep rows cols num_players) s0 s) :
    (∀ r c, 0 ≤ r → r < rows → 0 ≤ c → c < cols →
      (s.board r c).owner ≠ 0 → (s.board r c).fish = 0) ∧
    score_sum s.players num_players + total_fish s.board rows cols =
      total_fish s0.board rows cols := by
  have hgen : (∀ i, 0 ≤ i → i < num_players → (s.players i).id ≠ 0) ∧
      (∀ r c, 0 ≤ r → r < rows → 0 ≤ c → c < cols →
        (s.board r c).owner ≠ 0 → (s.board r c).fish = 0) ∧
      score_sum s.players num_players + total_fish s.board rows cols =
        total_fish s0.board rows cols := by
    induction hreach with
    | refl =>
      refine ⟨fun i h0 hn => (hplayers i h0 hn).1,
        fun r c h1 h2 h3 h4 hne => absurd (howner r c h1 h2 h3 h4) hne, ?_⟩
      have hz : score_sum s0.players num_players = 0 := by
        unfold score_sum
        rw [sum_upto_congr (fun _ => 0) (fun i => (s0.players i).score) num_players
          (fun i h0 hn => (hplayers i h0 hn).2)]
        simp
      rw [hz]
      omega
    | tail _ hstep ih =>
      obtain ⟨hid, hown, hsum⟩ := ih
      obtain ⟨hown', hsum'⟩ := play_step_conserves rows cols num_players _ _ hstep hid hown
      refine ⟨fun i h0 hn => ?_, hown', hsum'.trans hsum⟩
      rw [play_step_ids rows cols num_players _ _ hstep i]
      exact hid i h0 hn
  exact hgen.2

/-- Witness for C27: the initialised 2 x 2 board holds 7 fish; after both placements the
scores add up to 2 and the board holds 5. -/
theorem fish_conserved_witness :
    total_fish ex_place_state.board 2 2 = 7 ∧
    score_sum (placement_turn 2 2 (placement_turn 2 2 ex_place_state 0 []).state 1
      [(2, 1)]).state.players 2 = 2 ∧
    ((∀ r c, 0 ≤ r → r < 2 → 0 ≤ c → c < 2 →
      ((placement_turn 2 2 (placement_turn 2 2 ex_place_state 0 []).state 1
        [(2, 1)]).state.board r c).owner ≠ 0 →
      ((placement_turn 2 2 (placement_turn 2 2 ex_place_state 0 []).state 1
        [(2, 1)]).state.board r c).fish = 0) ∧
    score_sum (placement_turn 2 2 (placement_turn 2 2 ex_place_state 0 []).state 1
        [(2, 1)]).state.players 2 +
      total_fish (placement_turn 2 2 (placement_turn 2 2 ex_place_state 0 []).state 1
        [(2, 1)]).state.board 2 2 =
      total_fish ex_place_state.board 2 2) :=
  ⟨by decide, by decide,
    fish_conserved 2 2 2 ex_place_state
      (placement_turn 2 2 (placement_turn 2 2 ex_place_state 0 []).state 1 [(2, 1)]).state
      (by
        intro r c h1 h2 h3 h4
        interval_cases r <;> interval_cases c <;> decide)
      (by intro i h0 h2; interval_cases i <;> decide)
      (Relation.ReflTransGen.tail
        (Relation.ReflTransGen.single
          (PlayStep.placement ex_place_state 0 [] 0 0 (by decide) (by decide) (by decide)))
        (PlayStep.placement (placement_turn 2 2 ex_place_state 0 []).state 1 [(2, 1)] 1 0
          (by decide) (by decide) (by decide)))⟩

/-! ### Scores in the machine's `int` -/

/-- A value of `int` is stored unchanged. -/
theorem int32_of_range (x : Int) (h : in_int_range x = true) : int32 x = x := by
  unfold in_int_range INT_MIN INT_MAX at h
  simp only [decide_eq_true_eq] at h
  unfold int32
  rw [Int.emod_eq_of_lt (by omega) (by omega)]
  omega

/-- What the machine's slot is: the slot of `movement_slot`, with the score of the mover
reduced to an `int` when a move is applied. -/
theorem movement_slot_int_spec (rows cols num_players mode : Int) (can_save : Bool)
    (st : MoveState) (input : List (List Char)) :
    (movement_slot_int rows cols num_players mode can_save st input).event =
        (movement_slot rows cols num_players mode can_save st input).event ∧
      (movement_slot_int rows cols num_players mode can_save st input).idx =
        (movement_slot rows cols num_players mode can_save st input).idx ∧
      (movement_slot_int rows cols num_players mode can_save st input).state.board =
        (movement_slot rows cols num_players mode can_save st input).state.board ∧
      ((∀ pr pc tr tc, (movement_slot rows cols num_players mode can_save st input).event ≠
          SlotEvent.moved pr pc tr tc) →
        (movement_slot_int rows cols num_players mode can_save st input).state.players =
          (movement_slot rows cols num_players mode can_save st input).state.players) ∧
      (∀ pr pc tr tc, (movement_slot rows cols num_players mode can_save st input).event =
          SlotEvent.moved pr pc tr tc →
        ∀ j, (movement_slot_int rows cols num_players mode can_save st input).state.players j =
          if j = (movement_slot rows cols num_players mode can_save st input).idx then
            { (movement_slot rows cols num_players mode can_save st input).state.players j with
              score := int32
                ((movement_slot rows cols num_players mode can_save st input).state.players
                  j).score }
          else (movement_slot rows cols num_players mode can_save st input).state.players j) := by
  unfold movement_slot_int
  simp only []
  split
  · next pr pc tr tc heq =>
    refine ⟨rfl, rfl, rfl, fun hno => absurd heq (hno pr pc tr tc), ?_⟩
    intro _ _ _ _ _ j
    show set_player (movement_slot rows cols num_players mode can_save st input).state.players
        (movement_slot rows cols num_players mode can_save st input).idx _ j = _
    unfold set_player
    by_cases hj : j = (movement_slot rows cols num_players mode can_save st input).idx
    · rw [if_pos hj, if_pos hj, hj]
    · rw [if_neg hj, if_neg hj]
  · next hno =>
    exact ⟨rfl, rfl, rfl, fun _ => rfl, fun pr pc tr tc h => absurd h (hno pr pc tr tc)⟩
/-- Claim C6 (amended): a move applied in the movement phase onto a destination holding F
fish stores in the score of the mover its score plus F as an `int`: the score plus F when
that sum is within the range of `int`, and the sum reduced modulo 2^32 otherwise; the
score of every other player is unchanged. -/
theorem move_scores_destination_fish (rows cols num_players mode : Int) (can_save : Bool)
    (st : MoveState) (input : List (List Char)) (pr pc tr tc : Int)
    (h : (movement_slot_int rows cols num_players mode can_save st input).event =
      SlotEvent.moved pr pc tr tc) :
    ((movement_slot_int rows cols num_players mode can_save st input).state.players
        (movement_slot_int rows cols num_players mode can_save st input).idx).score =
      int32 ((st.players (movement_slot_int rows cols num_players mode can_save st input).idx).score +
        (st.board tr tc).fish) ∧
    (in_int_range
        ((st.players (movement_slot_int rows cols num_players mode can_save st input).idx).score +
          (st.board tr tc).fish) = true →
      ((movement_slot_int rows cols num_players mode can_save st input).state.players
          (movement_slot_int rows cols num_players mode can_save st input).idx).score =
        (st.players (movement_slot_int rows cols num_players mode can_save st input).idx).score +
          (st.board tr tc).fish) ∧
    ∀ j, j ≠ (movement_slot_int rows cols num_players mode can_save st input).idx →
      ((movement_slot_int rows cols num_players mode can_save st input).state.players j).score =
        (st.players j).score := by
  obtain ⟨hev, hidx, _, _, hpl⟩ :=
    movement_slot_int_spec rows cols num_players mode can_save st input
  rw [hev] at h
  obtain ⟨_, _, hidx0, hst⟩ := movement_slot_moved rows cols num_players mode can_save st input
    pr pc tr tc h
  have hscore : ((movement_slot_int rows cols num_players mode can_save st input).state.players
        (movement_slot_int rows cols num_players mode can_save st input).idx).score =
      int32 ((st.players (movement_slot_int rows cols num_players mode can_save st input).idx).score +
        (st.board tr tc).fish) := by
    rw [hpl pr pc tr tc h, hidx, if_pos rfl, hst, hidx0, apply_move_players, if_pos rfl]
  refine ⟨hscore, fun hr => ?_, fun j hj => ?_⟩
  · rw [hscore, int32_of_range _ hr]
  · rw [hidx] at hj
    rw [hpl pr pc tr tc h, if_neg hj, hst, apply_move_players]
    rw [hidx0] at hj
    rw [if_neg hj]

/-- Witness for C6: the AI in slot 0 moves onto three fish and its score goes from 1 to 4;
the score of the player in slot 1 stays 1. -/
theorem move_scores_destination_fish_witness :
    (movement_slot_int 3 3 2 1 true ex_move_state []).event = SlotEvent.moved 1 1 1 2 ∧
    (movement_slot_int 3 3 2 1 true ex_move_state []).idx = 0 ∧
    (ex_move_state.board 1 2).fish = 3 ∧ (ex_move_state.players 0).score = 1 ∧
    ((movement_slot_int 3 3 2 1 true ex_move_state []).state.players 0).score = 4 ∧
    (((movement_slot_int 3 3 2 1 true ex_move_state []).state.players
        (movement_slot_int 3 3 2 1 true ex_move_state []).idx).score =
      (ex_move_state.players (movement_slot_int 3 3 2 1 true ex_move_state []).idx).score +
        (ex_move_state.board 1 2).fish) ∧
    (∀ j, j ≠ (movement_slot_int 3 3 2 1 true ex_move_state []).idx →
      ((movement_slot_int 3 3 2 1 true ex_move_state []).state.players j).score =
        (ex_move_state.players j).score) :=
  ⟨by decide, by decide, by decide, by decide, by decide,
    (move_scores_destination_fish 3 3 2 1 true ex_move_state [] 1 1 1 2 (by decide)).2.1
      (by decide),
    (move_scores_destination_fish 3 3 2 1 true ex_move_state [] 1 1 1 2 (by decide)).2.2⟩

/-- Counterexample to C6 as stated: in a resumed game the AI has the score 2147483647 and
moves onto a tile with three fish; the score stored afterwards is -2147483646, not
2147483647 + 3. -/
theorem move_overflows_score :
    (movement_slot_int 3 3 2 1 true ex_rich_state []).event = SlotEvent.moved 1 1 1 2 ∧
    (movement_slot_int 3 3 2 1 true ex_rich_state []).idx = 0 ∧
    (ex_rich_state.players 0).score = 2147483647 ∧
    (ex_rich_state.board 1 2).fish = 3 ∧
    ((movement_slot_int 3 3 2 1 true ex_rich_state []).state.players 0).score = -2147483646 ∧
    ((movement_slot_int 3 3 2 1 true ex_rich_state []).state.players 0).score ≠
      (ex_rich_state.players 0).score + (ex_rich_state.board 1 2).fish := by
  decide
/-- What the machine's placement turn is: the turn of `placement_turn`, with the score of
the placing player reduced to an `int` when a penguin is placed. -/
theorem placement_turn_int_spec (rows cols : Int) (st : PlaceState) (p : Int)
    (input : List (Int × Int)) :
    (placement_turn_int rows cols st p input).event =
        (placement_turn rows cols st p input).event ∧
      (placement_turn_int rows cols st p input).state.board =
        (placement_turn rows cols st p input).state.board ∧
      (∀ r c, (placement_turn rows cols st p input).event = PlaceEvent.placed r c →
        ∀ j, (placement_turn_int rows cols st p input).state.players j =
          if j = p then
            { (placement_turn rows cols st p input).state.players j with
              score := int32 ((placement_turn rows cols st p input).state.players j).score }
          else (placement_turn rows cols st p input).state.players j) := by
  unfold placement_turn_int
  simp only []
  split
  · next r c heq =>
    refine ⟨rfl, rfl, ?_⟩
    intro _ _ _ j
    show set_player (placement_turn rows cols st p input).state.players p _ j = _
    unfold set_player
    by_cases hj : j = p
    · rw [if_pos hj, if_pos hj, hj]
    · rw [if_neg hj, if_neg hj]
  · next hno =>
    exact ⟨rfl, rfl, fun r c h => absurd h (hno r c)⟩

/-- A step of the machine keeps the fish of every tile inside the grid between 0 and 3. -/
theorem machine_step_fish (rows cols num_players mode : Int) (s s' : PlaceState)
    (h : MachineStep rows cols num_players mode s s')
    (hinv : ∀ r c, 0 ≤ r → r < rows → 0 ≤ c → c < cols →
      0 ≤ (s.board r c).fish ∧ (s.board r c).fish ≤ 3) :
    ∀ r c, 0 ≤ r → r < rows → 0 ≤ c → c < cols →
      0 ≤ (s'.board r c).fish ∧ (s'.board r c).fish ≤ 3 := by
  cases h with
  | placement st p input r c hev =>
    obtain ⟨he, hb, _⟩ := placement_turn_int_spec rows cols s p input
    rw [he] at hev
    rw [hb]
    exact (game_step_fish rows cols num_players mode s _
      (GameStep.placement s p input r c hev) hinv).1
  | move st can_save input pr pc tr tc hev =>
    obtain ⟨he, _, hb, _, _⟩ :=
      movement_slot_int_spec rows cols num_players mode can_save st input
    rw [he] at hev
    show ∀ r c, 0 ≤ r → r < rows → 0 ≤ c → c < cols →
      0 ≤ ((movement_slot_int rows cols num_players mode can_save st input).state.board r c).fish ∧
      ((movement_slot_int rows cols num_players mode can_save st input).state.board r c).fish ≤ 3
    rw [hb]
    exact (game_step_fish rows cols num_players mode ⟨st.board, st.players⟩ _
      (GameStep.move st can_save input pr pc tr tc hev) hinv).1

/-- Every state the machine reaches keeps the fish of every tile inside the grid between 0
and 3, when the first state does. -/
theorem machine_reachable_fish (rows cols num_players mode : Int) (s0 s : PlaceState)
    (hinit : ∀ r c, 0 ≤ r → r < rows → 0 ≤ c → c < cols →
      0 ≤ (s0.board r c).fish ∧ (s0.board r c).fish ≤ 3)
    (h : Relation.ReflTransGen (MachineStep rows cols num_players mode) s0 s) :
    ∀ r c, 0 ≤ r → r < rows → 0 ≤ c → c < cols →
      0 ≤ (s.board r c).fish ∧ (s.board r c).fish ≤ 3 := by
  induction h with
  | refl => exact hinit
  | tail _ hstep ih => exact machine_step_fish rows cols num_players mode _ _ hstep ih

/-- A step of the machine on a board with 0 to 3 fish per tile does not lower a score that
is at most `INT_MAX - 3`. -/
theorem machine_step_score (rows cols num_players mode : Int) (s s' : PlaceState)
    (h : MachineStep rows cols num_players mode s s')
    (hfish : ∀ r c, 0 ≤ r → r < rows → 0 ≤ c → c < cols →
      0 ≤ (s.board r c).fish ∧ (s.board r c).fish ≤ 3) (i : Int)
    (hlo : INT_MIN ≤ (s.players i).score) (hhi : (s.players i).score + 3 ≤ INT_MAX) :
    (s.players i).score ≤ (s'.players i).score := by
  have hr : ∀ f : Int, 0 ≤ f → f ≤ 3 → int32 ((s.players i).score + f) =
      (s.players i).score + f := by
    intro f h0 h3
    apply int32_of_range
    unfold in_int_range
    unfold INT_MIN INT_MAX at *
    simp only [decide_eq_true_eq]
    omega
  cases h with
  | placement st p input r c hev =>
    obtain ⟨he, _, hpl⟩ := placement_turn_int_spec rows cols s p input
    rw [he] at hev
    obtain ⟨⟨hin, hf1, _⟩, hst⟩ := placement_turn_placed rows cols s p input r c hev
    rw [hpl r c hev i]
    by_cases hip : i = p
    · rw [if_pos hip, hst, place_penguin_players, if_pos hip]
      show (s.players i).score ≤ int32 ((s.players p).score + (s.board r c).fish)
      rw [← hip, hr _ (by omega) (by omega)]
      omega
    · rw [if_neg hip, hst, place_penguin_players, if_neg hip]
  | move st can_save input pr pc tr tc hev =>
    obtain ⟨he, _, _, _, hpl⟩ :=
      movement_slot_int_spec rows cols num_players mode can_save st input
    rw [he] at hev
    obtain ⟨_, hv, hidx, hst⟩ := movement_slot_moved rows cols num_players mode can_save st
      input pr pc tr tc hev
    rw [is_valid_move_eq_true] at hv
    have hf := hfish tr tc hv.1.1 hv.1.2.1 hv.1.2.2.1 hv.1.2.2.2
    show (st.players i).score ≤
      ((movement_slot_int rows cols num_players mode can_save st input).state.players i).score
    rw [hpl pr pc tr tc hev i, hidx]
    by_cases hip : i = Int.tmod st.turn_index num_players
    · rw [if_pos hip, hst, apply_move_players, if_pos hip]
      show (st.players i).score ≤
        int32 ((st.players (Int.tmod st.turn_index num_players)).score + (st.board tr tc).fish)
      rw [← hip]
      have hf0 : 0 ≤ (st.board tr tc).fish := hf.1
      have hr2 : int32 ((st.players i).score + (st.board tr tc).fish) =
          (st.players i).score + (st.board tr tc).fish := hr (st.board tr tc).fish hf.1 hf.2
      rw [hr2]
      omega
    · rw [if_neg hip, hst, apply_move_players, if_neg hip]
/-- Claim C21 (amended): in a game whose tiles hold 0 to 3 fish, after every placement and
every applied move the score of each player is at least its value before that step,
provided that value is at most `INT_MAX - 3`, so that the fish of a tile can be added
within the range of `int`. -/
theorem score_never_decreases (rows cols num_players mode : Int) (s0 s s' : PlaceState)
    (hinit : ∀ r c, 0 ≤ r → r < rows → 0 ≤ c → c < cols →
      0 ≤ (s0.board r c).fish ∧ (s0.board r c).fish ≤ 3)
    (hreach : Relation.ReflTransGen (MachineStep rows cols num_players mode) s0 s)
    (hstep : MachineStep rows cols num_players mode s s') (i : Int)
    (hlo : INT_MIN ≤ (s.players i).score) (hhi : (s.players i).score + 3 ≤ INT_MAX) :
    (s.players i).score ≤ (s'.players i).score :=
  machine_step_score rows cols num_players mode s s' hstep
    (machine_reachable_fish rows cols num_players mode s0 s hinit hreach) i hlo hhi

/-- Witness for C21: on the initialised 2 x 2 board the AI places first and the human
second; the score of the human goes from 0 to 1 in the second step. -/
theorem score_never_decreases_witness :
    ((placement_turn_int 2 2 ex_place_state 0 []).state.players 1).score = 0 ∧
    ((placement_turn_int 2 2 (placement_turn_int 2 2 ex_place_state 0 []).state 1
      [(2, 1)]).state.players 1).score = 1 ∧
    ((placement_turn_int 2 2 ex_place_state 0 []).state.players 1).score ≤
      ((placement_turn_int 2 2 (placement_turn_int 2 2 ex_place_state 0 []).state 1
        [(2, 1)]).state.players 1).score :=
  ⟨by decide, by decide,
    score_never_decreases 2 2 2 1 ex_place_state
      (placement_turn_int 2 2 ex_place_state 0 []).state
      (placement_turn_int 2 2 (placement_turn_int 2 2 ex_place_state 0 []).state 1
        [(2, 1)]).state
      (by
        intro r c h1 h2 h3 h4
        interval_cases r <;> interval_cases c <;> decide)
      (Relation.ReflTransGen.single
        (MachineStep.placement ex_place_state 0 [] 0 0 (by decide)))
      (MachineStep.placement (placement_turn_int 2 2 ex_place_state 0 []).state 1 [(2, 1)] 1 0
        (by decide)) 1 (by decide) (by decide)⟩

/-- Counterexample to C21 as stated: a resumed game on a board with 0 to 3 fish per tile
in which the AI has the score 2147483647; the move of the AI onto three fish is a step of
the game, and the score of the AI after it, -2147483646, is below its score before. -/
theorem score_decreases_on_overflow :
    (∀ r c, 0 ≤ r → r < 3 → 0 ≤ c → c < 3 →
      0 ≤ (ex_rich_state.board r c).fish ∧ (ex_rich_state.board r c).fish ≤ 3) ∧
    MachineStep 3 3 2 1 ⟨ex_rich_state.board, ex_rich_state.players⟩
      ⟨(movement_slot_int 3 3 2 1 true ex_rich_state []).state.board,
        (movement_slot_int 3 3 2 1 true ex_rich_state []).state.players⟩ ∧
    (ex_rich_state.players 0).score = 2147483647 ∧
    ((movement_slot_int 3 3 2 1 true ex_rich_state []).state.players 0).score = -2147483646 ∧
    ((movement_slot_int 3 3 2 1 true ex_rich_state []).state.players 0).score <
      (ex_rich_state.players 0).score :=
  ⟨by
      intro r c h1 h2 h3 h4
      interval_cases r <;> interval_cases c <;> decide,
    MachineStep.move ex_rich_state true [] 1 1 1 2 (by decide), by decide, by decide, by decide⟩

end Penguin
